import Mathlib

/-!
# trello_clone: the board document codec and the list/task mutator

A shallow embedding of `src/backend/models/Board.js` (the `lists` getter and
setter) and of the route handlers of `src/backend/routes/boards.js` that
create and update a board and its lists and tasks; of the users routes
(`src/backend/routes/users.js`), the authentication middleware
(`src/backend/middleware/auth.js`) and the login route
(`src/backend/routes/auth.js`), with the store, `jwt` and `bcrypt` taken as
given functions; and of the mutations of the client stores
`src/frontend/src/store/modules/auth.js` and `board.js`.

JavaScript values are modelled by the tree type `JsVal`; the built-ins
`JSON.stringify` and `JSON.parse` the model calls are modelled on character
lists, following ECMA-262 (SerializeJSONProperty, QuoteJSONString, the JSON
grammar and CreateDataProperty with the ordinary own-property order).

Limits of the value model, stated once:
* strings are sequences of Unicode scalar values (no lone surrogates);
* finite numbers are exact decimals, printed by the algorithm of
  Number::toString and read back exactly: the rounding to the nearest
  double, overflow to infinity and the negative zero are not modelled;
* objects are their own enumerable string-keyed properties in property
  order; there are no getters, no `toJSON` methods and no boxed primitives;
* a value that contains itself is modelled by the leaf `cyclic` standing for
  the back reference.
-/

namespace TrelloClone

/-! ## JavaScript values -/

/-- A JavaScript number: the three non-finite values, an integer, or the
decimal `m / 10 ^ (k + 1)`, written `frac m k`, which is in normal form when
10 does not divide `m` (`isJson`, `normFrac`). -/
inductive JsNum where
  | nan
  | posInf
  | negInf
  | int (n : Int)
  | frac (m : Int) (k : Nat)
  deriving DecidableEq, Repr

/-- A JavaScript value, as a tree. `func` stands for a function or a symbol,
`cyclic` for a reference back to an enclosing array or object. -/
inductive JsVal where
  | undefined
  | null
  | bool (b : Bool)
  | num (n : JsNum)
  | str (s : String)
  | arr (xs : List JsVal)
  | obj (ps : List (String × JsVal))
  | func
  | bigint (n : Int)
  | cyclic
  deriving Repr

/-- The exception a JavaScript operation of the model can throw. -/
inductive JsError where
  | typeError
  deriving DecidableEq, Repr

/-- ToBoolean: the falsy values are `undefined`, `null`, `false`, `0`, `NaN`,
`""` and `0n`. -/
def truthy : JsVal → Bool
  | .undefined => false
  | .null => false
  | .bool b => b
  | .num .nan => false
  | .num (.int n) => n != 0
  | .num (.frac m _) => m != 0
  | .num _ => true
  | .str s => s != ""
  | .bigint n => n != 0
  | _ => true

/-- The expression `a || b`. -/
def jsOr (a b : JsVal) : JsVal := if truthy a then a else b

/-! ## Property order and property definition -/

/-- The value of `cs` read as a canonical decimal numeral (no sign, no
leading zero), if it is one. -/
def canonicalNat (cs : List Char) : Option Nat :=
  match cs with
  | [] => none
  | c :: rest =>
    if (c :: rest).all Char.isDigit && (c != '0' || rest.isEmpty) then
      some ((c :: rest).foldl (fun acc d => acc * 10 + (d.toNat - 48)) 0)
    else none

/-- An array index is a canonical numeral below `2^32 - 1`. -/
def arrayIndex (k : String) : Option Nat :=
  match canonicalNat k.toList with
  | some n => if n < 4294967295 then some n else none
  | none => none

/-- Whether key `k` comes before key `k2` in the own-property order
whatever the order of creation: array indices ascending, before all other
keys. -/
def keyBefore (k k2 : String) : Bool :=
  match arrayIndex k, arrayIndex k2 with
  | some i, some j => decide (i < j)
  | some _, none => true
  | none, _ => false

/-- Whether the property list has the key. -/
def hasKey (ps : List (String × JsVal)) (k : String) : Bool :=
  ps.any (fun p => p.1 == k)

/-- Overwrite the value of an existing key, in place. -/
def replaceProp (k : String) (v : JsVal) : List (String × JsVal) → List (String × JsVal)
  | [] => []
  | (k2, v2) :: ps => if k2 = k then (k, v) :: ps else (k2, v2) :: replaceProp k v ps

/-- Add a new key at its place in the property order. -/
def insertProp (k : String) (v : JsVal) : List (String × JsVal) → List (String × JsVal)
  | [] => [(k, v)]
  | (k2, v2) :: ps =>
    if keyBefore k k2 then (k, v) :: (k2, v2) :: ps else (k2, v2) :: insertProp k v ps

/-- CreateDataProperty on an ordinary object. -/
def setProp (ps : List (String × JsVal)) (k : String) (v : JsVal) : List (String × JsVal) :=
  if hasKey ps k then replaceProp k v ps else insertProp k v ps

/-- The object that results from defining the given properties one after the
other on an empty object. -/
def buildProps (kvs : List (String × JsVal)) : List (String × JsVal) :=
  kvs.foldl (fun acc kv => setProp acc kv.1 kv.2) []

/-! ## JSON.stringify -/

/-- One lower-case hexadecimal digit. -/
def hexDigit (n : Nat) : Char :=
  if n < 10 then Char.ofNat (48 + n) else Char.ofNat (87 + n)

/-- QuoteJSONString, one character. -/
def quoteChar (c : Char) : List Char :=
  if c = '"' then ['\\', '"']
  else if c = '\\' then ['\\', '\\']
  else if c = '\x08' then ['\\', 'b']
  else if c = '\x0c' then ['\\', 'f']
  else if c = '\n' then ['\\', 'n']
  else if c = '\r' then ['\\', 'r']
  else if c = '\t' then ['\\', 't']
  else if c.toNat < 32 then
    ['\\', 'u', '0', '0', hexDigit (c.toNat / 16), hexDigit (c.toNat % 16)]
  else [c]

/-- The characters of a string, each quoted, without the enclosing quotes. -/
def quoteChars : List Char → List Char
  | [] => []
  | c :: cs => quoteChar c ++ quoteChars cs

/-- QuoteJSONString. -/
def quoteJSONString (s : String) : List Char :=
  '"' :: (quoteChars s.data ++ ['"'])

/-- The exponent part of Number::toString, after the `e`: a sign and the
decimal digits. -/
def expChars (e : Int) : List Char :=
  (if e < 0 then '-' else '+') :: Nat.toDigits 10 e.natAbs

/-- Number::toString for the positive number whose decimal digits are `ds`
with the decimal point after the first `n` of them (steps 5 to 9 of the
algorithm of ECMA-262, `k` being the number of digits). -/
def printDecimal (ds : List Char) (n : Int) : List Char :=
  if (ds.length : Int) ≤ n ∧ n ≤ 21 then ds ++ List.replicate (n - ds.length).toNat '0'
  else if 0 < n ∧ n ≤ 21 then ds.take n.toNat ++ '.' :: ds.drop n.toNat
  else if -6 < n ∧ n ≤ 0 then '0' :: '.' :: (List.replicate (-n).toNat '0' ++ ds)
  else
    match ds with
    | [] => []
    | d :: tl =>
      if tl.isEmpty then d :: 'e' :: expChars (n - 1)
      else d :: '.' :: (tl ++ 'e' :: expChars (n - 1))

/-- The number without its trailing decimal zeros; the first argument
bounds the recursion. -/
def stripZerosAux : Nat → Nat → Nat
  | 0, n => n
  | fuel + 1, n => if n % 10 = 0 ∧ n ≠ 0 then stripZerosAux fuel (n / 10) else n

/-- The number without its trailing decimal zeros. -/
def stripZeros (n : Nat) : Nat := stripZerosAux n n

/-- Number::toString for a natural number: plain digits below `10 ^ 21`,
the exponent form from there on. -/
def natToChars (n : Nat) : List Char :=
  if n < 10 ^ 21 then Nat.toDigits 10 n
  else printDecimal (Nat.toDigits 10 (stripZeros n)) (Nat.toDigits 10 n).length

/-- Number::toString for a finite number. -/
def numToChars : JsNum → List Char
  | .int (.ofNat n) => natToChars n
  | .int (.negSucc n) => '-' :: natToChars (n + 1)
  | .frac m k =>
    if m < 0 then
      '-' :: printDecimal (Nat.toDigits 10 m.natAbs)
        ((Nat.toDigits 10 m.natAbs).length - (k + 1 : Nat))
    else
      printDecimal (Nat.toDigits 10 m.natAbs) ((Nat.toDigits 10 m.natAbs).length - (k + 1 : Nat))
  | _ => "null".toList

mutual
/-- SerializeJSONProperty without the exceptions: `none` is the result
`undefined` (the value is `undefined`, a function or a symbol). -/
def serialize : JsVal → Option (List Char)
  | .undefined => none
  | .func => none
  | .null => some "null".toList
  | .bool true => some "true".toList
  | .bool false => some "false".toList
  | .num n => some (numToChars n)
  | .str s => some (quoteJSONString s)
  | .arr [] => some "[]".toList
  | .arr (x :: xs) => some ('[' :: ((serialize x).getD "null".toList ++ serializeElems xs))
  | .obj ps => some ('{' :: serializeProps true ps)
  | .bigint _ => none
  | .cyclic => none
/-- The elements of an array after the first one, and the closing bracket. -/
def serializeElems : List JsVal → List Char
  | [] => [']']
  | x :: xs => ',' :: ((serialize x).getD "null".toList ++ serializeElems xs)
/-- The properties of an object and the closing brace; a property whose
value serializes to `undefined` is left out. `first` says that no property
has been written yet. -/
def serializeProps : Bool → List (String × JsVal) → List Char
  | _, [] => ['}']
  | first, (k, v) :: ps =>
    match serialize v with
    | none => serializeProps first ps
    | some s =>
      (if first then [] else [',']) ++ quoteJSONString k ++ (':' :: s) ++ serializeProps false ps
end

mutual
/-- Whether JSON.stringify throws a TypeError on the value: it reaches a
BigInt or a cycle. -/
def stringifyThrows : JsVal → Bool
  | .bigint _ => true
  | .cyclic => true
  | .arr xs => stringifyThrowsElems xs
  | .obj ps => stringifyThrowsProps ps
  | _ => false
/-- Whether one of the elements makes JSON.stringify throw. -/
def stringifyThrowsElems : List JsVal → Bool
  | [] => false
  | x :: xs => stringifyThrows x || stringifyThrowsElems xs
/-- Whether one of the property values makes JSON.stringify throw. -/
def stringifyThrowsProps : List (String × JsVal) → Bool
  | [] => false
  | (_, v) :: ps => stringifyThrows v || stringifyThrowsProps ps
end

/-- The call `JSON.stringify(value)`: it throws, or returns `undefined`
(`none`), or returns a string. -/
def JSONstringify (value : JsVal) : Except JsError (Option String) :=
  if stringifyThrows value then .error .typeError
  else .ok ((serialize value).map String.mk)

/-! ## JSON.parse -/

/-- JSON white space. -/
def isWs (c : Char) : Bool :=
  c = ' ' || c = '\t' || c = '\n' || c = '\r'

/-- Skip leading white space. -/
def skipWs : List Char → List Char
  | [] => []
  | c :: cs => if isWs c then skipWs cs else c :: cs

/-- Read the given characters, or fail. -/
def expect : List Char → List Char → Option (List Char)
  | [], cs => some cs
  | _ :: _, [] => none
  | p :: ps, c :: cs => if p = c then expect ps cs else none

/-- The value of a hexadecimal digit. -/
def hexVal (c : Char) : Option Nat :=
  if '0' ≤ c ∧ c ≤ '9' then some (c.toNat - 48)
  else if 'a' ≤ c ∧ c ≤ 'f' then some (c.toNat - 87)
  else if 'A' ≤ c ∧ c ≤ 'F' then some (c.toNat - 55)
  else none

/-- The value of four hexadecimal digits. -/
def hex4 (a b c d : Char) : Option Nat :=
  match hexVal a, hexVal b, hexVal c, hexVal d with
  | some x, some y, some z, some w => some (((x * 16 + y) * 16 + z) * 16 + w)
  | _, _, _, _ => none

/-- The character a single-character escape stands for. -/
def unescape (e : Char) : Option Char :=
  if e = '"' then some '"'
  else if e = '\\' then some '\\'
  else if e = '/' then some '/'
  else if e = 'b' then some '\x08'
  else if e = 'f' then some '\x0c'
  else if e = 'n' then some '\n'
  else if e = 'r' then some '\r'
  else if e = 't' then some '\t'
  else none

/-- The low half of a surrogate pair written as an escape: its value and
the rest of the input. -/
def lowSurrogate : List Char → Option (Nat × List Char)
  | b :: u :: a1 :: a2 :: a3 :: a4 :: rest =>
    if b = '\\' ∧ u = 'u' then
      match hex4 a1 a2 a3 a4 with
      | some lo => if 0xDC00 ≤ lo ∧ lo ≤ 0xDFFF then some (lo, rest) else none
      | none => none
    else none
  | _ => none

/-- The character written as `\uXXXX`, the `\u` already read: a code point
outside the surrogate range, or a surrogate pair. An escape that denotes a
lone surrogate is not read. -/
def readUnicode : List Char → Option (Char × List Char)
  | a1 :: a2 :: a3 :: a4 :: rest =>
    match hex4 a1 a2 a3 a4 with
    | none => none
    | some n =>
      if n < 0xD800 ∨ 0xDFFF < n then some (Char.ofNat n, rest)
      else if n ≤ 0xDBFF then
        match lowSurrogate rest with
        | some (lo, rest2) =>
          some (Char.ofNat (0x10000 + (n - 0xD800) * 0x400 + (lo - 0xDC00)), rest2)
        | none => none
      else none
  | _ => none

/-- One character of a JSON string: itself, or an escape. -/
def readChar : List Char → Option (Char × List Char)
  | [] => none
  | c :: rest =>
    if c = '\\' then
      match rest with
      | [] => none
      | e :: rest1 =>
        if e = 'u' then readUnicode rest1
        else
          match unescape e with
          | some ch => some (ch, rest1)
          | none => none
    else if c.toNat < 32 then none
    else some (c, rest)

/-- The characters of a JSON string up to the closing quote, the opening
quote already read. The first argument bounds the number of characters. -/
def parseStrBody : Nat → List Char → Option (List Char × List Char)
  | 0, _ => none
  | fuel + 1, cs =>
    match cs with
    | [] => none
    | c :: rest =>
      if c = '"' then some ([], rest)
      else
        match readChar (c :: rest) with
        | none => none
        | some (ch, r) =>
          match parseStrBody fuel r with
          | some (s, r2) => some (ch :: s, r2)
          | none => none

/-- A JSON string, the opening quote already read; every character read
takes at least one character of the input, so that the length of the input
bounds the recursion (`parseString_of_parseStrBody`). -/
def parseString (cs : List Char) : Option (String × List Char) :=
  match parseStrBody cs.length cs with
  | some (s, r) => some (String.mk s, r)
  | none => none

/-- Read a run of decimal digits onto the accumulator. -/
def parseDigits : List Char → Nat → Nat × List Char
  | [], acc => (acc, [])
  | c :: cs, acc =>
    if c.isDigit then parseDigits cs (acc * 10 + (c.toNat - 48)) else (acc, c :: cs)

/-- The integer part of a JSON number: `0`, or a digit `1`-`9` followed by
digits. -/
def parseNat : List Char → Option (Nat × List Char)
  | [] => none
  | c :: cs =>
    if c = '0' then some (0, cs)
    else if c.isDigit then some (parseDigits cs (c.toNat - 48))
    else none

/-- The number `mant / 10 ^ k` of the given sign, as an integer when it is
one. -/
def normFrac (neg : Bool) (mant : Nat) : Nat → JsNum
  | 0 => .int (if neg then -(mant : Int) else mant)
  | k + 1 =>
    if mant % 10 = 0 then normFrac neg (mant / 10) k
    else .frac (if neg then -(mant : Int) else mant) k

/-- The number `mant * 10 ^ e` of the given sign. -/
def mkNum (neg : Bool) (mant : Nat) (e : Int) : JsNum :=
  if 0 ≤ e then .int (if neg then -((mant * 10 ^ e.toNat : Nat) : Int) else (mant * 10 ^ e.toNat : Nat))
  else normFrac neg mant (-e).toNat

/-- The fraction of a JSON number, the point already read: one or more
digits, read onto the integer part. The result is the digits read so far as
a number, the number of digits of the fraction, and the rest. -/
def parseFraction (ip : Nat) (cs : List Char) : Option (Nat × Nat × List Char) :=
  match cs with
  | [] => none
  | c :: _ =>
    if c.isDigit then
      some ((parseDigits cs ip).1, cs.length - (parseDigits cs ip).2.length, (parseDigits cs ip).2)
    else none

/-- One or more digits. -/
def parseDigits1 (cs : List Char) : Option (Nat × List Char) :=
  match cs with
  | [] => none
  | c :: _ => if c.isDigit then some (parseDigits cs 0) else none

/-- The exponent of a JSON number, the `e` already read: an optional sign
and one or more digits. -/
def parseExponent (cs : List Char) : Option (Int × List Char) :=
  match cs with
  | [] => none
  | c :: rest =>
    if c = '-' then
      match parseDigits1 rest with
      | some (n, r) => some (-(n : Int), r)
      | none => none
    else
      match parseDigits1 (if c = '+' then rest else c :: rest) with
      | some (n, r) => some ((n : Int), r)
      | none => none

/-- The optional fraction. -/
def parseFractionOpt (ip : Nat) (cs : List Char) : Option (Nat × Nat × List Char) :=
  match cs with
  | [] => some (ip, 0, [])
  | c :: rest => if c = '.' then parseFraction ip rest else some (ip, 0, c :: rest)

/-- The optional exponent. -/
def parseExponentOpt (cs : List Char) : Option (Int × List Char) :=
  match cs with
  | [] => some (0, [])
  | c :: rest => if c = 'e' ∨ c = 'E' then parseExponent rest else some (0, c :: rest)

/-- A JSON number after its sign: integer part, optional fraction, optional
exponent. -/
def parseUnsigned (neg : Bool) (cs : List Char) : Option (JsNum × List Char) :=
  match parseNat cs with
  | none => none
  | some (ip, r1) =>
    match parseFractionOpt ip r1 with
    | none => none
    | some (mant, c, r2) =>
      match parseExponentOpt r2 with
      | none => none
      | some (ex, r3) => some (mkNum neg mant (ex - (c : Int)), r3)

/-- A JSON number. -/
def parseNumber (cs : List Char) : Option (JsNum × List Char) :=
  match cs with
  | [] => none
  | c :: rest => if c = '-' then parseUnsigned true rest else parseUnsigned false (c :: rest)

mutual
/-- A JSON value, with leading white space. The first argument bounds the
depth of the recursion. -/
def parseValue : Nat → List Char → Option (JsVal × List Char)
  | 0, _ => none
  | fuel + 1, cs =>
    match skipWs cs with
    | [] => none
    | c :: rest =>
      if c = '"' then
        match parseString rest with
        | some (s, r) => some (.str s, r)
        | none => none
      else if c = '[' then
        match skipWs rest with
        | [] => none
        | c2 :: r =>
          if c2 = ']' then some (.arr [], r)
          else
            match parseElems fuel (c2 :: r) with
            | some (vs, r2) => some (.arr vs, r2)
            | none => none
      else if c = '{' then
        match skipWs rest with
        | [] => none
        | c2 :: r =>
          if c2 = '}' then some (.obj [], r)
          else
            match parseMembers fuel (c2 :: r) with
            | some (kvs, r2) => some (.obj (buildProps kvs), r2)
            | none => none
      else if c = 'n' then
        match expect "ull".toList rest with
        | some r => some (.null, r)
        | none => none
      else if c = 't' then
        match expect "rue".toList rest with
        | some r => some (.bool true, r)
        | none => none
      else if c = 'f' then
        match expect "alse".toList rest with
        | some r => some (.bool false, r)
        | none => none
      else
        match parseNumber (c :: rest) with
        | some (n, r) => some (.num n, r)
        | none => none
/-- One or more array elements separated by commas, and the closing
bracket. -/
def parseElems : Nat → List Char → Option (List JsVal × List Char)
  | 0, _ => none
  | fuel + 1, cs =>
    match parseValue fuel cs with
    | none => none
    | some (v, rest) =>
      match skipWs rest with
      | [] => none
      | c :: r =>
        if c = ',' then
          match parseElems fuel r with
          | some (vs, r2) => some (v :: vs, r2)
          | none => none
        else if c = ']' then some ([v], r)
        else none
/-- One or more object members separated by commas, and the closing brace. -/
def parseMembers : Nat → List Char → Option (List (String × JsVal) × List Char)
  | 0, _ => none
  | fuel + 1, cs =>
    match skipWs cs with
    | [] => none
    | q :: r0 =>
      if q = '"' then
        match parseString r0 with
        | none => none
        | some (k, r1) =>
          match skipWs r1 with
          | [] => none
          | col :: r2 =>
            if col = ':' then
              match parseValue fuel r2 with
              | none => none
              | some (v, r3) =>
                match skipWs r3 with
                | [] => none
                | c :: r4 =>
                  if c = ',' then
                    match parseMembers fuel r4 with
                    | some (kvs, r5) => some ((k, v) :: kvs, r5)
                    | none => none
                  else if c = '}' then some ([(k, v)], r4)
                  else none
            else none
      else none
end

/-- The call `JSON.parse(text)`: `none` stands for the SyntaxError. The
recursion bound is never the reason of a failure (`JSONparse_of_parseValue`):
every recursive call follows at most two others without reading a
character. -/
def JSONparse (text : String) : Option JsVal :=
  match parseValue (2 * text.length + 2) text.toList with
  | some (v, rest) => if skipWs rest = [] then some v else none
  | none => none

/-! ## The `lists` attribute of the Board model (models/Board.js) -/

/-- What the `lists` column of a board holds (`getDataValue('lists')`):
nothing, or a string. -/
inductive Raw where
  | undefined
  | null
  | str (s : String)
  deriving DecidableEq, Repr

/-- The test `!raw` of the getter. -/
def Raw.absent : Raw → Bool
  | .undefined => true
  | .null => true
  | .str s => s == ""

/-- The getter of `lists`:
`if (!raw) return []; try { return JSON.parse(raw) } catch (e) { return [] }`. -/
def listsGet (raw : Raw) : JsVal :=
  match raw with
  | .undefined => .arr []
  | .null => .arr []
  | .str s =>
    if s == "" then .arr []
    else
      match JSONparse s with
      | some v => v
      | none => .arr []

/-- The argument of `setDataValue`: the result of a call of
`JSON.stringify`. -/
def toRaw : Option String → Raw
  | some s => .str s
  | none => .undefined

/-- The setter of `lists`:
`try { setDataValue(JSON.stringify(value || [])) }
 catch (e) { setDataValue(JSON.stringify([])) }`.
The result is the value stored in the column, or the exception that leaves
the setter. -/
def listsSet (value : JsVal) : Except JsError Raw :=
  match JSONstringify (jsOr value (.arr [])) with
  | .ok r => .ok (toRaw r)
  | .error _ =>
    match JSONstringify (.arr []) with
    | .ok r => .ok (toRaw r)
    | .error e => .error e

/-! ## JSON data -/

/-- The keys are pairwise distinct and in own-property order. -/
def keysOrdered : List (String × JsVal) → Bool
  | [] => true
  | (k, _) :: ps => ps.all (fun p => p.1 != k && !keyBefore p.1 k) && keysOrdered ps

mutual
/-- The values `JSON.parse` can return: `null`, booleans, finite numbers
(a non-integer with its last digit not zero), strings, arrays of such values
and objects of such values with their keys in own-property order. -/
def isJson : JsVal → Bool
  | .null => true
  | .bool _ => true
  | .num (.int _) => true
  | .num (.frac m _) => m % 10 != 0
  | .str _ => true
  | .arr xs => isJsonElems xs
  | .obj ps => keysOrdered ps && isJsonProps ps
  | _ => false
/-- Every element is JSON data. -/
def isJsonElems : List JsVal → Bool
  | [] => true
  | x :: xs => isJson x && isJsonElems xs
/-- Every property value is JSON data. -/
def isJsonProps : List (String × JsVal) → Bool
  | [] => true
  | (_, v) :: ps => isJson v && isJsonProps ps
end

mutual
/-- The number of nested calls the parser makes to read back what
JSON.stringify wrote for the value. -/
def cost : JsVal → Nat
  | .arr xs => 1 + costElems xs
  | .obj ps => 1 + costProps ps
  | _ => 1
/-- The calls for the elements of an array. -/
def costElems : List JsVal → Nat
  | [] => 0
  | x :: xs => 1 + cost x + costElems xs
/-- The calls for the members of an object that are written. -/
def costProps : List (String × JsVal) → Nat
  | [] => 0
  | (_, v) :: ps =>
    match serialize v with
    | none => costProps ps
    | some _ => 1 + cost v + costProps ps
end

mutual
/-- The JSON data a value is written as: what `JSON.parse` returns for the
text `JSON.stringify` wrote. Non-finite numbers become `null`, a number
is read back in its normal form, array elements that serialize to
`undefined` become `null`, object properties that serialize to `undefined`
are dropped. -/
def normalize : JsVal → JsVal
  | .bool b => .bool b
  | .num (.int n) => .num (.int n)
  | .num (.frac m k) => .num (mkNum (decide (m < 0)) m.natAbs (-((k + 1 : Nat) : Int)))
  | .str s => .str s
  | .arr xs => .arr (normalizeElems xs)
  | .obj ps => .obj (buildProps (normalizeProps ps))
  | _ => .null
/-- The elements, each as JSON data. -/
def normalizeElems : List JsVal → List JsVal
  | [] => []
  | x :: xs => normalize x :: normalizeElems xs
/-- The properties that are written, each value as JSON data. -/
def normalizeProps : List (String × JsVal) → List (String × JsVal)
  | [] => []
  | (k, v) :: ps =>
    match serialize v with
    | none => normalizeProps ps
    | some _ => (k, normalize v) :: normalizeProps ps
end

/-- The input that follows a number does not continue it. -/
def numberEnds (rest : List Char) : Prop :=
  ∀ c ∈ rest.head?, c.isDigit = false ∧ c ≠ '.' ∧ c ≠ 'e' ∧ c ≠ 'E'

/-! ## The list sequence written in the shape of the storage contract -/

/-- A task: `{ id, title, description, completed }`. -/
structure Task where
  id : String
  title : String
  description : String
  completed : Bool
  deriving DecidableEq, Repr

/-- A list: `{ id, title, tasks }`. -/
structure TaskList where
  id : String
  title : String
  tasks : List Task
  deriving DecidableEq, Repr

/-- The JavaScript object of a task. -/
def Task.toJs (t : Task) : JsVal :=
  .obj [("id", .str t.id), ("title", .str t.title), ("description", .str t.description),
    ("completed", .bool t.completed)]

/-- The JavaScript object of a list. -/
def TaskList.toJs (l : TaskList) : JsVal :=
  .obj [("id", .str l.id), ("title", .str l.title), ("tasks", .arr (l.tasks.map Task.toJs))]

/-- The JavaScript array of a list sequence. -/
def listsToJs (L : List TaskList) : JsVal :=
  .arr (L.map TaskList.toJs)

/-! ## The route handlers for lists and tasks (routes/boards.js) -/

/-- The value of the key in a property list, `undefined` when there is
none. -/
def lookupProp (ps : List (String × JsVal)) (k : String) : JsVal :=
  match ps.find? (fun p => p.1 == k) with
  | some p => p.2
  | none => .undefined

/-- The property access `v.k` for the keys the handlers read (`id`, `title`,
`description`, `tasks`): it throws on `undefined` and `null`, and no array,
string, number, boolean or function has such a property. -/
def getField (v : JsVal) (k : String) : Except JsError JsVal :=
  match v with
  | .undefined => .error .typeError
  | .null => .error .typeError
  | .obj ps => .ok (lookupProp ps k)
  | _ => .ok .undefined

/-- The comparison `v === s` with a string. -/
def strictEqStr (v : JsVal) (s : String) : Bool :=
  match v with
  | .str t => t == s
  | _ => false

/-- The call `xs.findIndex(x => x.id === id)`: the least index whose element
has that id, `none` for `-1`; the callback throws on a `null` element that
comes before any match. -/
def findIndexById : List JsVal → String → Except JsError (Option Nat)
  | [], _ => .ok none
  | x :: xs, id =>
    match getField x "id" with
    | .error e => .error e
    | .ok v =>
      if strictEqStr v id then .ok (some 0)
      else
        match findIndexById xs id with
        | .error e => .error e
        | .ok r => .ok (r.map (· + 1))

/-- The receiver of an array method (`push`, `findIndex`, `splice`): calling
the method on anything that is not an array throws a TypeError. -/
def asArray (v : JsVal) : Except JsError (List JsVal) :=
  match v with
  | .arr xs => .ok xs
  | _ => .error .typeError

/-- The keys `"0"`, `"1"`, ... of the elements of an array, from index `i`. -/
def indexedFrom : Nat → List JsVal → List (String × JsVal)
  | _, [] => []
  | i, x :: xs => (toString i, x) :: indexedFrom (i + 1) xs

/-- The own enumerable properties an object spread copies from a value. -/
def spreadProps : JsVal → List (String × JsVal)
  | .obj ps => ps
  | .arr xs => indexedFrom 0 xs
  | .str s => indexedFrom 0 (s.data.map (fun c => JsVal.str (String.singleton c)))
  | _ => []

/-- The object literal `{ ...a, ...b }`. -/
def objectSpread (a b : JsVal) : JsVal :=
  .obj (buildProps (spreadProps a ++ spreadProps b))

/-- The object after its property `k` has been given the value `v`. -/
def setField (o : JsVal) (k : String) (v : JsVal) : JsVal :=
  match o with
  | .obj ps => .obj (setProp ps k v)
  | other => other

/-- The body `{ message: m }`. -/
def message (m : String) : JsVal :=
  .obj [("message", .str m)]

/-- What the part of a handler between reading and writing `board.lists`
comes to: an early `404` return, or the new sequence with the response. -/
inductive Step where
  | notFound (msg : String)
  | done (lists : JsVal) (status : Nat) (body : JsVal)

/-- POST /:id/lists, lines 136-141 and 144. -/
def appendListOp (now : Nat) (reqBody : JsVal) (lists : JsVal) : Except JsError Step :=
  match getField reqBody "title" with
  | .error e => .error e
  | .ok title =>
    let newList := JsVal.obj [("id", .str (toString now)), ("title", title), ("tasks", .arr [])]
    match asArray lists with
    | .error e => .error e
    | .ok xs => .ok (.done (.arr (xs ++ [newList])) 201 newList)

/-- The lookup `lists.findIndex(list => list.id === listId)` all five
handlers below start with. -/
def findList (lists : JsVal) (listId : String) :
    Except JsError (List JsVal × Option Nat) :=
  match asArray lists with
  | .error e => .error e
  | .ok xs =>
    match findIndexById xs listId with
    | .error e => .error e
    | .ok r => .ok (xs, r)

/-- PUT /:id/lists/:listId, lines 160-164 and 167. -/
def replaceListOp (listId : String) (reqBody : JsVal) (lists : JsVal) : Except JsError Step :=
  match findList lists listId with
  | .error e => .error e
  | .ok (_, none) => .ok (.notFound "List not found")
  | .ok (xs, some i) =>
    let merged := objectSpread (xs.getD i .undefined) reqBody
    .ok (.done (.arr (xs.set i merged)) 200 merged)

/-- DELETE /:id/lists/:listId, lines 183-187 and 190. -/
def removeListOp (listId : String) (lists : JsVal) : Except JsError Step :=
  match findList lists listId with
  | .error e => .error e
  | .ok (_, none) => .ok (.notFound "List not found")
  | .ok (xs, some i) => .ok (.done (.arr (xs.eraseIdx i)) 200 (message "List deleted"))

/-- POST /:id/lists/:listId/tasks, lines 206-216 and 219. -/
def appendTaskOp (now : Nat) (listId : String) (reqBody : JsVal) (lists : JsVal) :
    Except JsError Step :=
  match findList lists listId with
  | .error e => .error e
  | .ok (_, none) => .ok (.notFound "List not found")
  | .ok (xs, some i) =>
    match getField reqBody "title", getField reqBody "description" with
    | .ok title, .ok description =>
      let newTask := JsVal.obj [("id", .str (toString now)), ("title", title),
        ("description", jsOr description (.str "")), ("completed", .bool false)]
      let list := xs.getD i .undefined
      match getField list "tasks" with
      | .error e => .error e
      | .ok tasks =>
        match asArray tasks with
        | .error e => .error e
        | .ok ts =>
          .ok (.done (.arr (xs.set i (setField list "tasks" (.arr (ts ++ [newTask]))))) 201 newTask)
    | .error e, _ => .error e
    | _, .error e => .error e

/-- The two lookups of the task handlers: the list, then
`lists[listIndex].tasks.findIndex(task => task.id === taskId)`. The result
is the sequence, the list index, the tasks of that list and the task
index. -/
def findTask (lists : JsVal) (listId taskId : String) :
    Except JsError (Option (List JsVal × Nat × Option (List JsVal × Nat))) :=
  match findList lists listId with
  | .error e => .error e
  | .ok (_, none) => .ok none
  | .ok (xs, some i) =>
    match getField (xs.getD i .undefined) "tasks" with
    | .error e => .error e
    | .ok tasks =>
      match asArray tasks with
      | .error e => .error e
      | .ok ts =>
        match findIndexById ts taskId with
        | .error e => .error e
        | .ok none => .ok (some (xs, i, none))
        | .ok (some j) => .ok (some (xs, i, some (ts, j)))

/-- PUT /:id/lists/:listId/tasks/:taskId, lines 235-243 and 246. -/
def replaceTaskOp (listId taskId : String) (reqBody : JsVal) (lists : JsVal) :
    Except JsError Step :=
  match findTask lists listId taskId with
  | .error e => .error e
  | .ok none => .ok (.notFound "List not found")
  | .ok (some (_, _, none)) => .ok (.notFound "Task not found")
  | .ok (some (xs, i, some (ts, j))) =>
    let merged := objectSpread (ts.getD j .undefined) reqBody
    .ok (.done (.arr (xs.set i (setField (xs.getD i .undefined) "tasks" (.arr (ts.set j merged)))))
      200 merged)

/-- DELETE /:id/lists/:listId/tasks/:taskId, lines 262-270 and 273. -/
def removeTaskOp (listId taskId : String) (lists : JsVal) : Except JsError Step :=
  match findTask lists listId taskId with
  | .error e => .error e
  | .ok none => .ok (.notFound "List not found")
  | .ok (some (_, _, none)) => .ok (.notFound "Task not found")
  | .ok (some (xs, i, some (ts, j))) =>
    .ok (.done (.arr (xs.set i (setField (xs.getD i .undefined) "tasks" (.arr (ts.eraseIdx j)))))
      200 (message "Task deleted"))

/-- A row of the Boards table, as the instance `Board.findOne` returns. -/
structure Board where
  id : Nat
  userId : Nat
  name : JsVal
  description : JsVal
  customTitle : JsVal
  position : JsVal
  lists : Raw

/-- What a handler does: the response, and the row `board.save()` wrote,
`none` when `save` was not called. -/
structure Outcome where
  status : Nat
  body : JsVal
  saved : Option Board

/-- The frame the six handlers share: the board lookup, `board.lists || []`,
the operation, `board.lists = lists; await board.save()`, the response, and
the `catch` that answers 500. `found` is the result of `Board.findOne`;
the store is taken to accept the write. -/
def runHandler (errorMessage : String) (found : Option Board)
    (op : JsVal → Except JsError Step) : Outcome :=
  match found with
  | none => ⟨404, message "Board not found", none⟩
  | some board =>
    match op (jsOr (listsGet board.lists) (.arr [])) with
    | .error _ => ⟨500, message errorMessage, none⟩
    | .ok (.notFound m) => ⟨404, message m, none⟩
    | .ok (.done lists status body) =>
      match listsSet lists with
      | .error _ => ⟨500, message errorMessage, none⟩
      | .ok raw => ⟨status, body, some { board with lists := raw }⟩

/-- The handler `router.post('/:id/lists')`; `now` is `Date.now()`. -/
def postList (now : Nat) (found : Option Board) (reqBody : JsVal) : Outcome :=
  runHandler "Error adding list" found (appendListOp now reqBody)

/-- The handler `router.put('/:id/lists/:listId')`. -/
def putList (found : Option Board) (listId : String) (reqBody : JsVal) : Outcome :=
  runHandler "Error updating list" found (replaceListOp listId reqBody)

/-- The handler `router.delete('/:id/lists/:listId')`. -/
def deleteList (found : Option Board) (listId : String) : Outcome :=
  runHandler "Error deleting list" found (removeListOp listId)

/-- The handler `router.post('/:id/lists/:listId/tasks')`. -/
def postTask (now : Nat) (found : Option Board) (listId : String) (reqBody : JsVal) : Outcome :=
  runHandler "Error adding task" found (appendTaskOp now listId reqBody)

/-- The handler `router.put('/:id/lists/:listId/tasks/:taskId')`. -/
def putTask (found : Option Board) (listId taskId : String) (reqBody : JsVal) : Outcome :=
  runHandler "Error updating task" found (replaceTaskOp listId taskId reqBody)

/-- The handler `router.delete('/:id/lists/:listId/tasks/:taskId')`. -/
def deleteTask (found : Option Board) (listId taskId : String) : Outcome :=
  runHandler "Error deleting task" found (removeTaskOp listId taskId)

/-- The six operations of the mutator, with their parameters. -/
inductive Operation where
  | appendList (now : Nat) (reqBody : JsVal)
  | replaceList (listId : String) (reqBody : JsVal)
  | removeList (listId : String)
  | appendTask (now : Nat) (listId : String) (reqBody : JsVal)
  | replaceTask (listId taskId : String) (reqBody : JsVal)
  | removeTask (listId taskId : String)

/-- The operation applied to a decoded sequence. -/
def Operation.run : Operation → JsVal → Except JsError Step
  | .appendList now reqBody => appendListOp now reqBody
  | .replaceList listId reqBody => replaceListOp listId reqBody
  | .removeList listId => removeListOp listId
  | .appendTask now listId reqBody => appendTaskOp now listId reqBody
  | .replaceTask listId taskId reqBody => replaceTaskOp listId taskId reqBody
  | .removeTask listId taskId => removeTaskOp listId taskId

/-- The message of the 500 response of the handler of the operation. -/
def Operation.errorMessage : Operation → String
  | .appendList _ _ => "Error adding list"
  | .replaceList _ _ => "Error updating list"
  | .removeList _ => "Error deleting list"
  | .appendTask _ _ _ => "Error adding task"
  | .replaceTask _ _ _ => "Error updating task"
  | .removeTask _ _ => "Error deleting task"

/-- The handler of the operation. -/
def handle (o : Operation) (found : Option Board) : Outcome :=
  runHandler o.errorMessage found o.run

/-! ## The direct board update (routes/boards.js, PUT /:id) -/

/-- The test `v !== undefined`. -/
def isDefined : JsVal → Bool
  | .undefined => false
  | _ => true

/-- The object `updateData` of PUT /:id, lines 96-100. -/
def putBoardUpdateData (reqBody : JsVal) : Except JsError (List (String × JsVal)) :=
  match getField reqBody "name", getField reqBody "description", getField reqBody "position",
    getField reqBody "lists" with
  | .ok name, .ok description, .ok position, .ok lists =>
    .ok ((if truthy name then [("name", name)] else []) ++
      (if isDefined description then [("description", description)] else []) ++
      (if isDefined position then [("position", position)] else []) ++
      (if truthy lists then [("lists", lists)] else []))
  | _, _, _, _ => .error .typeError

/-- The assignment of one attribute: `lists` goes through its setter, the
other attributes of the model are stored as they are, anything else is
ignored. -/
def Board.setAttr (b : Board) (k : String) (v : JsVal) : Except JsError Board :=
  if k = "lists" then
    match listsSet v with
    | .ok raw => .ok { b with lists := raw }
    | .error e => .error e
  else if k = "name" then .ok { b with name := v }
  else if k = "description" then .ok { b with description := v }
  else if k = "customTitle" then .ok { b with customTitle := v }
  else if k = "position" then .ok { b with position := v }
  else .ok b

/-- The call `board.update(data)`: the attributes are set one after the
other and the row is saved; the store is taken to accept the values. -/
def Board.update (b : Board) : List (String × JsVal) → Except JsError Board
  | [] => .ok b
  | (k, v) :: rest =>
    match b.setAttr k v with
    | .ok b2 => b2.update rest
    | .error e => .error e

/-- The body `res.json(board)`: the attributes of the row with `lists` read
through its getter; the time stamps of the row are not part of the model. -/
def Board.toJSON (b : Board) : JsVal :=
  .obj [("id", .num (.int b.id)), ("name", b.name), ("description", b.description),
    ("customTitle", b.customTitle), ("userId", .num (.int b.userId)), ("position", b.position),
    ("lists", listsGet b.lists)]

/-- The handler `router.put('/:id')`. -/
def putBoard (found : Option Board) (reqBody : JsVal) : Outcome :=
  match found with
  | none => ⟨404, message "Board not found", none⟩
  | some board =>
    match putBoardUpdateData reqBody with
    | .error _ => ⟨500, message "Error updating board", none⟩
    | .ok data =>
      match board.update data with
      | .error _ => ⟨500, message "Error updating board", none⟩
      | .ok b2 => ⟨200, b2.toJSON, some b2⟩

/-- The value of a property of an object, `undefined` for anything else. -/
def fieldOf (v : JsVal) (k : String) : JsVal :=
  match v with
  | .obj ps => lookupProp ps k
  | _ => .undefined

/-- The ids of the elements of a sequence. -/
def idsOf (xs : List JsVal) : List JsVal :=
  xs.map (fun x => fieldOf x "id")

/-- List ids are unique within the sequence and task ids are unique within
each list. -/
def UniqueIds (lists : JsVal) : Prop :=
  ∃ xs, lists = .arr xs ∧ (idsOf xs).Nodup ∧
    ∀ x ∈ xs, ∃ ts, fieldOf x "tasks" = .arr ts ∧ (idsOf ts).Nodup

/-- The side condition under which an operation keeps ids unique: the id an
append generates from the clock is not the id of a sibling, and the payload
of a replace carries no `id` (and, for a list, no `tasks`). -/
def Operation.keepsIds (o : Operation) (lists : JsVal) : Prop :=
  match o with
  | .appendList now _ => ∀ xs, lists = .arr xs → JsVal.str (toString now) ∉ idsOf xs
  | .replaceList _ reqBody =>
    hasKey (spreadProps reqBody) "id" = false ∧ hasKey (spreadProps reqBody) "tasks" = false
  | .removeList _ => True
  | .appendTask now listId _ =>
    ∀ xs x ts, lists = .arr xs → x ∈ xs → fieldOf x "id" = .str listId →
      fieldOf x "tasks" = .arr ts → JsVal.str (toString now) ∉ idsOf ts
  | .replaceTask _ _ reqBody => hasKey (spreadProps reqBody) "id" = false
  | .removeTask _ _ => True

/-- A board row for the examples: an empty board of user 1. -/
def emptyBoard : Board :=
  ⟨1, 1, .str "Board", .null, .null, .num (.int 0), .str "[]"⟩

/-! ## The parameters of an operation -/

/-- The parameter `req.params.listId` of the operation, for the five
handlers whose route has one. -/
def Operation.listId : Operation → Option String
  | .appendList _ _ => none
  | .replaceList listId _ => some listId
  | .removeList listId => some listId
  | .appendTask _ listId _ => some listId
  | .replaceTask listId _ _ => some listId
  | .removeTask listId _ => some listId

/-- The parameter `req.params.taskId` of the operation, for the two handlers
whose route has one. -/
def Operation.taskId : Operation → Option String
  | .replaceTask _ taskId _ => some taskId
  | .removeTask _ taskId => some taskId
  | _ => none

/-- The request body `req.body` of the operation, for the four handlers that
read it. -/
def Operation.reqBody : Operation → Option JsVal
  | .appendList _ reqBody => some reqBody
  | .replaceList _ reqBody => some reqBody
  | .appendTask _ _ reqBody => some reqBody
  | .replaceTask _ _ reqBody => some reqBody
  | _ => none

/-! ## The creation of a board (routes/boards.js, POST /) -/

/-- The call `Board.create(values)`: a new row with the id the store assigns
and the defaults of the model (`position` 0), the attributes of `values` set
one after the other (`lists` through its setter) and the row saved.
`accepts` says whether the store takes the row (the validation and the
constraints of the model); the call rejects otherwise, as it does when a
setter throws: `none`. The row keeps the owner as a number, passed apart: it
is the entry `userId` of `values`. `customTitle`, which POST / does not set,
stays `undefined`. -/
def Board.create (accepts : Board → Bool) (newId userId : Nat)
    (values : List (String × JsVal)) : Option Board :=
  match Board.update ⟨newId, userId, .undefined, .undefined, .undefined, .num (.int 0),
      .undefined⟩ values with
  | .ok b => if accepts b then some b else none
  | .error _ => none

/-- The handler `router.post('/')`, lines 51-82; `userId` is `req.user.id`,
`newId` the id the store assigns and `accepts` the verdict of the store on
the new row. Of the body of the 500 response only `message` is kept: its
fields `error` and `stack` are the texts of the exception. -/
def postBoard (accepts : Board → Bool) (userId newId : Nat) (reqBody : JsVal) : Outcome :=
  match getField reqBody "name" with
  | .error _ => ⟨500, message "Error creating board", none⟩
  | .ok name =>
    if truthy name then
      match getField reqBody "description", getField reqBody "position" with
      | .ok description, .ok position =>
        match Board.create accepts newId userId [("name", name),
            ("description", jsOr description .null),
            ("position", jsOr position (.num (.int 0))), ("userId", .num (.int userId)),
            ("lists", .arr [])] with
        | some b => ⟨201, b.toJSON, some b⟩
        | none => ⟨500, message "Error creating board", none⟩
      | _, _ => ⟨500, message "Error creating board", none⟩
    else ⟨400, message "Board name is required", none⟩

/-! ## The shapes on which the list and task handlers throw -/

/-- The values `undefined` and `null`, on which a property access throws. -/
def isNullish : JsVal → Bool
  | .undefined => true
  | .null => true
  | _ => false

/-- The test `Array.isArray(v)`. -/
def isArray : JsVal → Bool
  | .arr _ => true
  | _ => false

/-- The element at which `xs.findIndex(x => x.id === id)` stops: the first
element that is `undefined` or `null`, where the callback throws, or that has
the id, where it returns true; `none` when the sequence has neither. -/
def firstStop (xs : List JsVal) (id : String) : Option JsVal :=
  xs.find? (fun x => isNullish x || strictEqStr (fieldOf x "id") id)

/-- The shapes on which `v.findIndex(x => x.id === id)` throws: `v` is not
an array, or an element that is `undefined` or `null` comes before every
element with the id. -/
def lookupThrows (v : JsVal) (id : String) : Bool :=
  match v with
  | .arr xs =>
    match firstStop xs id with
    | some x => isNullish x
    | none => false
  | _ => true

/-- The shapes on which the two lookups of Replace Task and Remove Task
throw: the lookup of the list throws, or a list with the id is found and the
lookup of the task in its `tasks` throws (`tasks` is not an array, or a task
that is `undefined` or `null` comes before every task with the id). -/
def taskLookupThrows (v : JsVal) (listId taskId : String) : Bool :=
  match v with
  | .arr xs =>
    match firstStop xs listId with
    | some x => isNullish x || lookupThrows (fieldOf x "tasks") taskId
    | none => false
  | _ => true

/-- The shapes of the decoded value `lists` and of the payload on which the
operation throws. Append List: the payload is `undefined` or `null`, or
`lists` is not an array. Replace List and Remove List: the lookup of the list
throws. Append Task: the lookup of the list throws, or a list with the id is
found and the payload is `undefined` or `null` or the `tasks` of that list is
not an array. Replace Task and Remove Task: one of the two lookups throws. -/
def Operation.throwsOn : Operation → JsVal → Bool
  | .appendList _ reqBody, v => isNullish reqBody || !isArray v
  | .replaceList listId _, v => lookupThrows v listId
  | .removeList listId, v => lookupThrows v listId
  | .appendTask _ listId reqBody, v =>
    match v with
    | .arr xs =>
      match firstStop xs listId with
      | some x => isNullish x || isNullish reqBody || !isArray (fieldOf x "tasks")
      | none => false
    | _ => true
  | .replaceTask listId taskId _, v => taskLookupThrows v listId taskId
  | .removeTask listId taskId, v => taskLookupThrows v listId taskId

/-! ## The users routes (routes/users.js) -/

/-- The white space and line terminators that `parseInt` skips at the start
of its argument. -/
def isStrWhiteSpace (c : Char) : Bool :=
  c.toNat == 9 || c.toNat == 10 || c.toNat == 11 || c.toNat == 12 || c.toNat == 13 ||
    c.toNat == 32 || c.toNat == 160 || c.toNat == 5760 ||
    (8192 ≤ c.toNat && c.toNat ≤ 8202) || c.toNat == 8232 || c.toNat == 8233 ||
    c.toNat == 8239 || c.toNat == 8287 || c.toNat == 12288 || c.toNat == 65279

/-- The argument of `parseInt` without its leading white space. -/
def trimStart : List Char → List Char
  | [] => []
  | c :: cs => if isStrWhiteSpace c then trimStart cs else c :: cs

/-- The value of a digit or letter as a digit of a radix up to 36. -/
def radixDigit (c : Char) : Option Nat :=
  if '0' ≤ c ∧ c ≤ '9' then some (c.toNat - 48)
  else if 'a' ≤ c ∧ c ≤ 'z' then some (c.toNat - 87)
  else if 'A' ≤ c ∧ c ≤ 'Z' then some (c.toNat - 55)
  else none

/-- The value of the longest run of digits of the radix at the start of the
input, read onto the accumulator; `none` while no digit has been read. -/
def readRadix (radix : Nat) : List Char → Option Nat → Option Nat
  | [], acc => acc
  | c :: cs, acc =>
    match radixDigit c with
    | some d => if d < radix then readRadix radix cs (some (acc.getD 0 * radix + d)) else acc
    | none => acc

/-- The call `parseInt(s)` without a radix: leading white space, an optional
sign, an optional `0x` or `0X` that selects radix 16, and the longest run of
digits; `none` stands for `NaN`. The result is exact: the rounding of
integers beyond 2^53 is not modelled. -/
def parseInt (s : String) : Option Int :=
  let t := trimStart s.data
  let neg := t.head? == some '-'
  let t1 := if t.head? == some '-' || t.head? == some '+' then t.tail else t
  let hex := t1.head? == some '0' && (t1.tail.head? == some 'x' || t1.tail.head? == some 'X')
  let r := if hex then readRadix 16 (t1.drop 2) none else readRadix 10 t1 none
  r.map (fun n => if neg then -(n : Int) else (n : Int))

/-- A row of the Users table (models/User.js). -/
structure User where
  id : Nat
  name : JsVal
  email : JsVal
  password : JsVal
  boardsTitle : JsVal

/-- What a users handler does: the response, the arguments of its calls of
`User.findByPk`, and the row `user.save()` wrote, `none` when `save` was not
called or threw. -/
structure UserOutcome where
  status : Nat
  body : JsVal
  lookups : List String
  saved : Option User

/-- The object `{ id, name, email, boardsTitle }` both handlers answer
with. -/
def User.publicJson (u : User) : JsVal :=
  .obj [("id", .num (.int u.id)), ("name", u.name), ("email", u.email),
    ("boardsTitle", u.boardsTitle)]

/-- The handler `router.get('/:userId')`; `reqUser` is `req.user`, the row
the middleware attached, and `findByPk` the lookup of the store, which
returns a row or `null` or throws. -/
def getUser (reqUser : User) (userId : String)
    (findByPk : String → Except JsError (Option User)) : UserOutcome :=
  if parseInt userId ≠ some (reqUser.id : Int) then
    ⟨403, message "Not authorized to access this user data", [], none⟩
  else
    match findByPk userId with
    | .error _ => ⟨500, message "Error fetching user data", [userId], none⟩
    | .ok none => ⟨404, message "User not found", [userId], none⟩
    | .ok (some user) => ⟨200, user.publicJson, [userId], none⟩

/-- The loop over `allowedFields` of PUT /:userId, lines 43-48: each of
`name`, `email` and `boardsTitle` is assigned when the body defines it. -/
def setAllowedFields (reqBody : JsVal) (user : User) : Except JsError User :=
  match getField reqBody "name", getField reqBody "email", getField reqBody "boardsTitle" with
  | .ok name, .ok email, .ok boardsTitle =>
    .ok { user with
      name := if isDefined name then name else user.name
      email := if isDefined email then email else user.email
      boardsTitle := if isDefined boardsTitle then boardsTitle else user.boardsTitle }
  | _, _, _ => .error .typeError

/-- The handler `router.put('/:userId')`. `accepts` says whether the store
takes the row `user.save()` writes (its validation and constraints);
`save` throws otherwise. The password is not assigned, so the `beforeUpdate`
hook of the model leaves it as it is. -/
def putUser (reqUser : User) (userId : String)
    (findByPk : String → Except JsError (Option User)) (accepts : User → Bool)
    (reqBody : JsVal) : UserOutcome :=
  if parseInt userId ≠ some (reqUser.id : Int) then
    ⟨403, message "Not authorized to update this user data", [], none⟩
  else
    match findByPk userId with
    | .error _ => ⟨500, message "Error updating user data", [userId], none⟩
    | .ok none => ⟨404, message "User not found", [userId], none⟩
    | .ok (some user) =>
      match setAllowedFields reqBody user with
      | .error _ => ⟨500, message "Error updating user data", [userId], none⟩
      | .ok u2 =>
        if accepts u2 then ⟨200, u2.publicJson, [userId], some u2⟩
        else ⟨500, message "Error updating user data", [userId], none⟩

/-! ## The authentication middleware (middleware/auth.js) -/

/-- What the middleware does: it attaches the user to the request and calls
`next`, or it answers. -/
inductive AuthResult where
  | next (user : User)
  | respond (status : Nat) (body : JsVal)

/-- The call `s.replace(pat, '')` with a string pattern that is not empty:
the first occurrence of the pattern is taken out. -/
def removeFirst (pat : List Char) : List Char → List Char
  | [] => []
  | c :: cs =>
    match expect pat (c :: cs) with
    | some rest => rest
    | none => c :: removeFirst pat cs

/-- The expression `req.header('Authorization')?.replace('Bearer ', '')`:
`none` stands for `undefined`, when the request has no such header. -/
def bearerToken (header : Option String) : Option String :=
  header.map (fun h => String.mk (removeFirst "Bearer ".data h.data))

/-- The body of the 401 response of the `catch`. -/
def authFailure (errorMessage : String) : JsVal :=
  .obj [("message", .str "Token verification failed, authorization denied"),
    ("error", .str errorMessage)]

/-- The middleware. `verify` is `jwt.verify` with the secret: it returns the
payload of the token or throws an error with a message; `findByPk` is the
lookup of the store: it returns a row or `null`, or throws. Reading
`verified.id` throws a TypeError, with the message `typeErrorText`, when the
payload is `undefined` or `null`; the `catch` answers every exception. -/
def authMiddleware (header : Option String) (verify : String → Except String JsVal)
    (findByPk : JsVal → Except String (Option User)) (typeErrorText : String) : AuthResult :=
  match bearerToken header with
  | none => .respond 401 (message "No authentication token, access denied")
  | some token =>
    if token = "" then .respond 401 (message "No authentication token, access denied")
    else
      match verify token with
      | .error e => .respond 401 (authFailure e)
      | .ok verified =>
        match getField verified "id" with
        | .error _ => .respond 401 (authFailure typeErrorText)
        | .ok id =>
          match findByPk id with
          | .error e => .respond 401 (authFailure e)
          | .ok none => .respond 401 (message "User not found")
          | .ok (some user) => .next user

/-! ## The login route (routes/auth.js) -/

/-- A response: status and body. -/
structure Response where
  status : Nat
  body : JsVal

/-- The handler `router.post('/login')`. `findOne` is the lookup of a user by
email and `comparePassword` the method of the model (bcrypt): each returns
or throws an error with a message; `sign` is `jwt.sign` for a user id;
`typeErrorText` is the message of the TypeError the destructuring of a
missing body throws. -/
def login (findOne : JsVal → Except String (Option User))
    (comparePassword : User → JsVal → Except String Bool) (sign : Nat → String)
    (typeErrorText : String) (reqBody : JsVal) : Response :=
  match getField reqBody "email", getField reqBody "password" with
  | .ok email, .ok password =>
    match findOne email with
    | .error e => ⟨500, message e⟩
    | .ok none => ⟨400, message "Invalid credentials"⟩
    | .ok (some user) =>
      match comparePassword user password with
      | .error e => ⟨500, message e⟩
      | .ok false => ⟨400, message "Invalid credentials"⟩
      | .ok true =>
        ⟨200, .obj [("token", .str (sign user.id)),
          ("user", .obj [("id", .num (.int user.id)), ("name", user.name),
            ("email", user.email),
            ("boardsTitle", jsOr user.boardsTitle (.str "My Boards"))])]⟩
  | _, _ => ⟨500, message typeErrorText⟩

/-! ## Two requests on one board -/

/-- A step of one of two requests, `false` and `true`, that run the list and
task handlers on the same board: its `await Board.findOne(...)` returns, or
the rest of the handler runs, from `board.lists || []` to `await
board.save()`, which has no `await` in between. -/
inductive Event where
  | findOne (request : Bool)
  | save (request : Bool)

/-- The row in the store and the instance each request holds. -/
structure World where
  store : Board
  found : Bool → Option Board

/-- One step. `board.save()` writes the attribute the handler changed,
`lists`, to the row in the store. -/
def World.step (ops : Bool → Operation) (w : World) : Event → World
  | .findOne r => { w with found := fun q => if q = r then some w.store else w.found q }
  | .save r =>
    match w.found r with
    | none => w
    | some held =>
      match (handle (ops r) (some held)).saved with
      | some row => { w with store := { w.store with lists := row.lists } }
      | none => w

/-- The steps of a schedule, one after the other. -/
def World.run (ops : Bool → Operation) (w : World) (events : List Event) : World :=
  events.foldl (World.step ops) w

/-! ## The client auth store (frontend/src/store/modules/auth.js) -/

/-- The `localStorage` of the browser: keys with their string values. -/
abbrev Storage := List (String × String)

/-- The call `localStorage.getItem(key)`: `none` stands for `null`. -/
def getItem (ls : Storage) (key : String) : Option String :=
  (List.find? (fun p => p.1 == key) ls).map (fun p => p.2)

/-- The call `localStorage.removeItem(key)`. -/
def removeItem (ls : Storage) (key : String) : Storage :=
  List.filter (fun p => p.1 != key) ls

/-- The call `localStorage.setItem(key, value)` with a string. -/
def setItem (ls : Storage) (key value : String) : Storage :=
  (key, value) :: removeItem ls key

/-- The result of `getItem` as a value. -/
def itemValue : Option String → JsVal
  | some s => .str s
  | none => .null

/-- ToString, which `setItem` applies to its argument; `toStr` is the
conversion of the engine for numbers, arrays, objects, functions and
symbols, taken as given: it returns the string or throws, as it does for a
symbol. -/
def valueToString (toStr : JsVal → Except JsError String) : JsVal → Except JsError String
  | .str s => .ok s
  | .undefined => .ok "undefined"
  | .null => .ok "null"
  | .bool true => .ok "true"
  | .bool false => .ok "false"
  | v => toStr v

/-- The state of the module. -/
structure AuthState where
  token : JsVal
  user : JsVal
  isAuthenticated : Bool

/-- The initial state, built from `localStorage`; `none` when
`JSON.parse(localStorage.getItem('user'))` throws. `JSON.parse` converts its
argument to a string, `null` to the text `null`. -/
def initialAuthState (ls : Storage) : Option AuthState :=
  match JSONparse ((getItem ls "user").getD "null") with
  | none => none
  | some user =>
    some ⟨jsOr (itemValue (getItem ls "token")) .null, jsOr user .null,
      truthy (itemValue (getItem ls "token"))⟩

/-- The mutation `SET_TOKEN`: the new state and storage, and the exception
that leaves the mutation when the conversion of the token to a string
throws in `localStorage.setItem`, after `state.token` and
`state.isAuthenticated` have been assigned. The storage is taken to have room
for the entry. -/
def SET_TOKEN (toStr : JsVal → Except JsError String) (st : AuthState × Storage)
    (token : JsVal) : (AuthState × Storage) × Option JsError :=
  let state := { st.1 with token := token, isAuthenticated := truthy token }
  if truthy token then
    match valueToString toStr token with
    | .error e => ((state, st.2), some e)
    | .ok text => ((state, setItem st.2 "token" text), none)
  else ((state, removeItem st.2 "token"), none)

/-- The mutation `SET_USER`: the new state and storage, and the exception
that leaves the mutation when `JSON.stringify(user)` or the conversion of
`user.boardsTitle` or `user.id` to a string throws, after `state.user` has
been assigned and the entries before it have been written. The storage is
taken to have room for the entries. -/
def SET_USER (toStr : JsVal → Except JsError String) (st : AuthState × Storage)
    (user : JsVal) : (AuthState × Storage) × Option JsError :=
  let state := { st.1 with user := user }
  if truthy user then
    match JSONstringify user with
    | .error e => ((state, st.2), some e)
    | .ok text =>
      let ls1 := setItem st.2 "user" (text.getD "undefined")
      let r2 : Except JsError Storage :=
        if truthy (fieldOf user "boardsTitle") then
          match valueToString toStr (fieldOf user "boardsTitle") with
          | .error e => .error e
          | .ok s => .ok (setItem ls1 "boardsTitle" s)
        else .ok ls1
      match r2 with
      | .error e => ((state, ls1), some e)
      | .ok ls2 =>
        if truthy (fieldOf user "id") then
          match valueToString toStr (fieldOf user "id") with
          | .error e => ((state, ls2), some e)
          | .ok s => ((state, setItem ls2 "userId" s), none)
        else ((state, ls2), none)
  else
    ((state, removeItem (removeItem (removeItem st.2 "user") "boardsTitle") "userId"), none)

/-- The mutation `CLEAR_AUTH`. -/
def CLEAR_AUTH (st : AuthState × Storage) : AuthState × Storage :=
  (⟨.null, .null, false⟩,
    removeItem (removeItem (removeItem (removeItem st.2 "token") "user") "boardsTitle") "userId")

/-! ## The client board store (frontend/src/store/modules/board.js) -/

/-- The comparison `a === b`. Two objects, arrays or functions are taken to
be different references, as values of different API responses are. -/
def strictEq : JsVal → JsVal → Bool
  | .undefined, .undefined => true
  | .null, .null => true
  | .bool a, .bool b => a == b
  | .num a, .num b => a != .nan && a == b
  | .str a, .str b => a == b
  | .bigint a, .bigint b => a == b
  | _, _ => false

/-- The state of the module. -/
structure BoardState where
  boards : List JsVal
  currentBoard : JsVal
  loading : JsVal
  error : JsVal

/-- The call `state.boards.findIndex(b => b._id === updatedBoard._id)`: the
least index whose callback returns true, `none` for `-1`. -/
def findBoardIndex : List JsVal → JsVal → Except JsError (Option Nat)
  | [], _ => .ok none
  | b :: bs, updatedBoard =>
    match getField b "_id", getField updatedBoard "_id" with
    | .ok x, .ok y =>
      if strictEq x y then .ok (some 0)
      else
        match findBoardIndex bs updatedBoard with
        | .error e => .error e
        | .ok r => .ok (r.map (· + 1))
    | _, _ => .error .typeError

/-- The expression `v?._id`. -/
def optionalId (v : JsVal) : Except JsError JsVal :=
  match v with
  | .undefined => .ok .undefined
  | .null => .ok .undefined
  | other => getField other "_id"

/-- The mutation `UPDATE_BOARD`. An exception can only leave it before
`state.boards` is changed. -/
def UPDATE_BOARD (st : BoardState) (updatedBoard : JsVal) : Except JsError BoardState :=
  match findBoardIndex st.boards updatedBoard with
  | .error e => .error e
  | .ok index =>
    let boards :=
      match index with
      | some i => st.boards.set i updatedBoard
      | none => st.boards
    match optionalId st.currentBoard, getField updatedBoard "_id" with
    | .ok x, .ok y =>
      .ok { st with
        boards := boards
        currentBoard := if strictEq x y then updatedBoard else st.currentBoard }
    | _, _ => .error .typeError

/-! # Theorems -/

/-! ## Decimal numerals -/

theorem digitChar_spec (d : Nat) (h : d < 10) :
    (Nat.digitChar d).isDigit = true ∧ (Nat.digitChar d).toNat - 48 = d ∧
      (d ≠ 0 → Nat.digitChar d ≠ '0') ∧ Nat.digitChar d ≠ '-' := by
  interval_cases d <;> decide

theorem toDigitsCore_acc (fuel n : Nat) (ds : List Char) :
    Nat.toDigitsCore 10 fuel n ds = Nat.toDigitsCore 10 fuel n [] ++ ds := by
  induction fuel generalizing n ds with
  | zero => simp [Nat.toDigitsCore]
  | succ fuel ih =>
    simp only [Nat.toDigitsCore]
    split
    · simp
    · rw [ih (n / 10) (_ :: ds), ih (n / 10) [_]]; simp

theorem toDigitsCore_fuel (f1 f2 n : Nat) (h1 : n < f1) (h2 : n < f2) :
    Nat.toDigitsCore 10 f1 n [] = Nat.toDigitsCore 10 f2 n [] := by
  induction f1 generalizing f2 n with
  | zero => omega
  | succ f1 ih =>
    cases f2 with
    | zero => omega
    | succ f2 =>
      simp only [Nat.toDigitsCore]
      split
      · rfl
      · rw [toDigitsCore_acc f1, toDigitsCore_acc f2, ih f2 (n / 10) (by omega) (by omega)]

theorem toDigits_small (n : Nat) (h : n < 10) : Nat.toDigits 10 n = [Nat.digitChar n] := by
  have h0 : n / 10 = 0 := by omega
  have h1 : n % 10 = n := by omega
  simp [Nat.toDigits, Nat.toDigitsCore, h0, h1]

theorem toDigits_large (n : Nat) (h : 10 ≤ n) :
    Nat.toDigits 10 n = Nat.toDigits 10 (n / 10) ++ [Nat.digitChar (n % 10)] := by
  have h0 : n / 10 ≠ 0 := by omega
  unfold Nat.toDigits
  conv_lhs => rw [Nat.toDigitsCore]
  simp only [h0, if_false]
  rw [toDigitsCore_acc, toDigitsCore_fuel n (n / 10 + 1) (n / 10) (by omega) (by omega)]

/-- The digits of a number: they are digits, their value is the number, and
the first one is not zero unless the number is. -/
theorem digitsValue_toDigits (n : Nat) :
    (∀ c ∈ Nat.toDigits 10 n, c.isDigit = true) ∧
    (∀ acc, (Nat.toDigits 10 n).foldl (fun a d => a * 10 + (d.toNat - 48)) acc
        = acc * 10 ^ (Nat.toDigits 10 n).length + n) ∧
    (∃ c t, Nat.toDigits 10 n = c :: t ∧ (n ≠ 0 → c ≠ '0') ∧ c ≠ '-') := by
  induction n using Nat.strong_induction_on with
  | _ n ih =>
    by_cases h : n < 10
    · rw [toDigits_small n h]
      obtain ⟨a, b, c, d⟩ := digitChar_spec n h
      refine ⟨by simpa using a, by intro acc; simp [b], _, _, rfl, c, d⟩
    · rw [toDigits_large n (by omega)]
      obtain ⟨i1, i2, c, t, i3, i4, i5⟩ := ih (n / 10) (by omega)
      obtain ⟨a, b, -, -⟩ := digitChar_spec (n % 10) (by omega)
      refine ⟨?_, ?_, c, t ++ [Nat.digitChar (n % 10)], by simp [i3], ?_, i5⟩
      · intro x hx
        rcases List.mem_append.1 hx with hx | hx
        · exact i1 x hx
        · simp at hx; subst hx; exact a
      · intro acc
        rw [List.foldl_append, i2]
        simp [b, pow_succ]
        have := Nat.div_add_mod n 10
        nlinarith [this]
      · intro hn; exact i4 (by omega)

theorem parseDigits_append (xs rest : List Char) (acc : Nat)
    (h : ∀ c ∈ xs, c.isDigit = true) (hr : ∀ c ∈ rest.head?, c.isDigit = false) :
    parseDigits (xs ++ rest) acc
      = (xs.foldl (fun a d => a * 10 + (d.toNat - 48)) acc, rest) := by
  induction xs generalizing acc with
  | nil =>
    cases rest with
    | nil => simp [parseDigits]
    | cons c r =>
      have := hr c (by simp)
      simp [parseDigits, this]
  | cons x xs ih =>
    have hx : x.isDigit = true := h x (by simp)
    simp only [List.cons_append, parseDigits, hx, if_true, List.foldl_cons]
    exact ih _ (fun c hc => h c (by simp [hc]))

/-- A run of digits that does not start with `0` is read as an integer
part. -/
theorem parseNat_digits (c : Char) (t rest : List Char) (hc : c ≠ '0')
    (h : ∀ d ∈ c :: t, d.isDigit = true) (hr : ∀ d ∈ rest.head?, d.isDigit = false) :
    parseNat (c :: t ++ rest)
      = some ((c :: t).foldl (fun a d => a * 10 + (d.toNat - 48)) 0, rest) := by
  have hcd : c.isDigit = true := h c (by simp)
  simp only [List.cons_append, parseNat, hc, if_false, hcd, if_true]
  rw [parseDigits_append t rest _ (fun x hx => h x (by simp [hx])) hr]
  simp

theorem numberEnds_digit (rest : List Char) (hr : numberEnds rest) :
    ∀ d ∈ rest.head?, d.isDigit = false :=
  fun d hd => (hr d hd).1

theorem parseNat_toDigits (n : Nat) (rest : List Char)
    (hr : ∀ d ∈ rest.head?, d.isDigit = false) :
    parseNat (Nat.toDigits 10 n ++ rest) = some (n, rest) := by
  obtain ⟨hd, hv, c, t, hct, h0, -⟩ := digitsValue_toDigits n
  by_cases hn : n = 0
  · subst hn
    have : Nat.toDigits 10 0 = ['0'] := rfl
    simp [this, parseNat]
  · have hv0 := hv 0
    rw [hct] at hv0 hd ⊢
    rw [parseNat_digits c t rest (h0 hn) hd hr, hv0]
    simp

theorem foldl_digits_zeros (z acc : Nat) :
    (List.replicate z '0').foldl (fun a d => a * 10 + (d.toNat - 48)) acc = acc * 10 ^ z := by
  induction z generalizing acc with
  | zero => simp
  | succ z ih =>
    simp only [List.replicate_succ, List.foldl_cons]
    rw [ih]
    have : ('0' : Char).toNat - 48 = 0 := by decide
    rw [this, pow_succ]
    ring

/-! ### The exponent -/

theorem parseExponent_expChars (e : Int) (rest : List Char)
    (hr : ∀ d ∈ rest.head?, d.isDigit = false) :
    parseExponent (expChars e ++ rest) = some (e, rest) := by
  obtain ⟨hd, hv, c, t, hct, -, hm⟩ := digitsValue_toDigits e.natAbs
  have hcd : c.isDigit = true := hd c (by simp [hct])
  have hp : parseDigits1 (Nat.toDigits 10 e.natAbs ++ rest) = some (e.natAbs, rest) := by
    have := parseDigits_append (Nat.toDigits 10 e.natAbs) rest 0 hd hr
    rw [hv 0] at this
    simp only [zero_mul, zero_add] at this
    rw [hct] at this ⊢
    simp only [List.cons_append, parseDigits1, hcd, if_true] at this ⊢
    rw [this]
  by_cases he : e < 0
  · have h2 : -(e.natAbs : Int) = e := by omega
    simp only [expChars, he, if_true, List.cons_append, parseExponent, hp, h2]
  · have h1 : ¬ ('+' : Char) = '-' := by decide
    have h2 : (e.natAbs : Int) = e := by omega
    simp only [expChars, he, if_false, List.cons_append, parseExponent, h1, if_true, hp, h2]

/-! ### Reading back what Number::toString wrote -/

theorem parseFractionOpt_ends (ip : Nat) (rest : List Char) (hr : numberEnds rest) :
    parseFractionOpt ip rest = some (ip, 0, rest) := by
  cases rest with
  | nil => rfl
  | cons c r =>
    obtain ⟨-, a, -, -⟩ := hr c (by simp)
    simp [parseFractionOpt, a]

theorem parseExponentOpt_ends (rest : List Char) (hr : numberEnds rest) :
    parseExponentOpt rest = some (0, rest) := by
  cases rest with
  | nil => rfl
  | cons c r =>
    obtain ⟨-, -, b, d⟩ := hr c (by simp)
    simp [parseExponentOpt, b, d]

theorem parseExponentOpt_exp (e : Int) (rest : List Char) (hr : numberEnds rest) :
    parseExponentOpt ('e' :: (expChars e ++ rest)) = some (e, rest) := by
  simp [parseExponentOpt, parseExponent_expChars e rest (numberEnds_digit rest hr)]

theorem parseFractionOpt_exp (ip : Nat) (cs : List Char) :
    parseFractionOpt ip ('e' :: cs) = some (ip, 0, 'e' :: cs) := by
  simp [parseFractionOpt]

theorem parseFraction_digits (ip : Nat) (ds rest : List Char) (hne : ds ≠ [])
    (hd : ∀ d ∈ ds, d.isDigit = true) (hr : ∀ d ∈ rest.head?, d.isDigit = false) :
    parseFraction ip (ds ++ rest)
      = some (ds.foldl (fun a d => a * 10 + (d.toNat - 48)) ip, ds.length, rest) := by
  cases ds with
  | nil => exact absurd rfl hne
  | cons c t =>
    have hc : c.isDigit = true := hd c (by simp)
    have hp := parseDigits_append (c :: t) rest ip hd hr
    simp only [List.cons_append] at hp
    simp only [List.cons_append, parseFraction, hc, if_true, hp]
    simp
    omega

theorem not_digit_point : ∀ d ∈ ('.' :: (cs : List Char)).head?, d.isDigit = false := by
  intro d hd
  simp at hd
  subst hd
  decide

theorem not_digit_e : ∀ d ∈ ('e' :: (cs : List Char)).head?, d.isDigit = false := by
  intro d hd
  simp at hd
  subst hd
  decide

theorem parseUnsigned_printDecimal_aux (neg : Bool) (M : Nat) (n : Int) (rest : List Char)
    (c : Char) (t : List Char) (hd : ∀ d ∈ c :: t, d.isDigit = true)
    (hv0 : (c :: t).foldl (fun a d => a * 10 + (d.toNat - 48)) 0 = M)
    (h0 : M ≠ 0 → c ≠ '0') (hz : M = 0 → t = [])
    (hM : M ≠ 0 ∨ n ≤ 0) (hr : numberEnds rest) :
    parseUnsigned neg (printDecimal (c :: t) n ++ rest)
      = some (mkNum neg M (n - ((c :: t).length : Nat)), rest) := by
  have hrd := numberEnds_digit rest hr
  have hcd : c.isDigit = true := hd c (by simp)
  unfold printDecimal
  split
  · -- the digits followed by zeros
    rename_i h1
    simp only [List.length_cons] at h1
    have hMne : M ≠ 0 := by
      rcases hM with hM | hM
      · exact hM
      · omega
    have hall : ∀ d ∈ c :: (t ++ List.replicate (n - ((c :: t).length : Nat)).toNat '0'),
        d.isDigit = true := by
      intro d hd2
      rcases List.mem_cons.1 hd2 with hd2 | hd2
      · subst hd2; exact hcd
      · rcases List.mem_append.1 hd2 with hd2 | hd2
        · exact hd d (by simp [hd2])
        · rw [List.mem_replicate] at hd2
          rw [hd2.2]; decide
    have hp := parseNat_digits c _ rest (h0 hMne) hall hrd
    rw [← List.cons_append, List.foldl_append, hv0, foldl_digits_zeros] at hp
    simp only [List.cons_append, List.append_assoc] at hp ⊢
    simp only [parseUnsigned, hp, parseFractionOpt_ends _ rest hr, parseExponentOpt_ends rest hr]
    have e3 : (t.length : Int) + 1 ≤ n := by omega
    simp [mkNum, e3]
  · split
    · -- the point inside the digits
      rename_i h1 h2
      simp only [List.length_cons] at h1
      have hMne : M ≠ 0 := by
        rcases hM with hM | hM
        · exact hM
        · omega
      obtain ⟨j, hj⟩ : ∃ j, n.toNat = j + 1 := ⟨n.toNat - 1, by omega⟩
      have hjt : j < t.length := by omega
      have hdrop : List.drop j t ≠ [] := by
        intro h
        have := congrArg List.length h
        simp at this
        omega
      have hallt : ∀ d ∈ c :: List.take j t, d.isDigit = true := by
        intro d hd2
        rcases List.mem_cons.1 hd2 with hd2 | hd2
        · subst hd2; exact hcd
        · exact hd d (List.mem_cons_of_mem _ (List.mem_of_mem_take hd2))
      have halld : ∀ d ∈ List.drop j t, d.isDigit = true :=
        fun d hd2 => hd d (List.mem_cons_of_mem _ (List.mem_of_mem_drop hd2))
      have hp := parseNat_digits c (List.take j t) ('.' :: (List.drop j t ++ rest)) (h0 hMne)
        hallt not_digit_point
      have hf := parseFraction_digits
        ((c :: List.take j t).foldl (fun a d => a * 10 + (d.toNat - 48)) 0)
        (List.drop j t) rest hdrop halld hrd
      rw [← List.foldl_append, List.cons_append, List.take_append_drop, hv0] at hf
      rw [hj]
      simp only [List.take_succ_cons, List.drop_succ_cons, List.cons_append,
        List.append_assoc] at hp ⊢
      simp only [parseUnsigned, hp, parseFractionOpt, if_true, hf,
        parseExponentOpt_ends rest hr]
      have e : (0 : Int) - ((List.drop j t).length : Nat) = n - ((c :: t).length : Nat) := by
        simp only [List.length_drop, List.length_cons]
        omega
      rw [e]
    · split
      · -- zero, the point, zeros and the digits
        rename_i h1 h2 h3
        have hall : ∀ d ∈ List.replicate (-n).toNat '0' ++ (c :: t), d.isDigit = true := by
          intro d hd2
          rcases List.mem_append.1 hd2 with hd2 | hd2
          · rw [List.mem_replicate] at hd2
            rw [hd2.2]; decide
          · exact hd d hd2
        have hne : List.replicate (-n).toNat '0' ++ (c :: t) ≠ [] := by simp
        have hf := parseFraction_digits 0 _ rest hne hall hrd
        rw [List.foldl_append, foldl_digits_zeros] at hf
        simp only [zero_mul, hv0, List.append_assoc, List.cons_append] at hf
        simp only [List.cons_append, List.append_assoc, parseUnsigned, parseNat, if_true,
          parseFractionOpt, hf, parseExponentOpt_ends rest hr]
        have e : (0 : Int) - ((List.replicate (-n).toNat '0' ++ (c :: t)).length : Nat)
            = n - ((c :: t).length : Nat) := by
          simp only [List.length_append, List.length_replicate, List.length_cons]
          omega
        rw [e]
      · -- the exponent form
        rename_i h1 h2 h3
        simp only
        cases t with
        | nil =>
          have hp : parseNat (c :: 'e' :: (expChars (n - 1) ++ rest))
              = some (M, 'e' :: (expChars (n - 1) ++ rest)) := by
            by_cases hc0 : c = '0'
            · have : M = 0 := by
                by_contra hne
                exact h0 hne hc0
              simp [parseNat, hc0, this]
            · have := parseNat_digits c [] ('e' :: (expChars (n - 1) ++ rest)) hc0 hd
                not_digit_e
              rw [hv0] at this
              simpa using this
          simp only [List.isEmpty_nil, if_true, List.cons_append, parseUnsigned, hp,
            parseFractionOpt_exp, parseExponentOpt_exp (n - 1) rest hr]
          have e : n - 1 - ((0 : Nat) : Int) = n - (([c] : List Char).length : Nat) := by simp
          rw [e]
        | cons t1 t2 =>
          have hMne : M ≠ 0 := by
            intro h
            have := hz h
            cases this
          have hallc : ∀ d ∈ [c], d.isDigit = true := by
            intro d hd2; simp at hd2; subst hd2; exact hcd
          have hp := parseNat_digits c [] ('.' :: ((t1 :: t2) ++ 'e' :: (expChars (n - 1) ++ rest)))
            (h0 hMne) hallc not_digit_point
          have hf := parseFraction_digits ([c].foldl (fun a d => a * 10 + (d.toNat - 48)) 0)
            (t1 :: t2) ('e' :: (expChars (n - 1) ++ rest)) (by simp)
            (fun d hd2 => hd d (List.mem_cons_of_mem _ hd2)) not_digit_e
          rw [← List.foldl_append] at hf
          simp only [List.singleton_append, hv0] at hf
          simp only [List.nil_append, List.cons_append] at hp hf
          simp only [List.isEmpty_cons, Bool.false_eq_true, if_false, List.cons_append,
            List.append_assoc, parseUnsigned, hp, parseFractionOpt, if_true, hf,
            parseExponentOpt_exp (n - 1) rest hr]
          have e : n - 1 - (((t1 :: t2).length : Nat) : Int)
              = n - (((c :: t1 :: t2).length : Nat) : Int) := by
            simp only [List.length_cons]
            omega
          rw [e]

/-- The digits of `M` with the decimal point after `n` of them are read back
as `M * 10 ^ (n - k)`, `k` the number of digits. -/
theorem parseUnsigned_printDecimal (neg : Bool) (M : Nat) (n : Int) (rest : List Char)
    (hM : M ≠ 0 ∨ n ≤ 0) (hr : numberEnds rest) :
    parseUnsigned neg (printDecimal (Nat.toDigits 10 M) n ++ rest)
      = some (mkNum neg M (n - (Nat.toDigits 10 M).length), rest) := by
  obtain ⟨hd, hv, c, t, hct, h0, -⟩ := digitsValue_toDigits M
  have hv0 := hv 0
  simp only [zero_mul, zero_add] at hv0
  have hz : M = 0 → t = [] := by
    intro h
    subst h
    have : Nat.toDigits 10 0 = ['0'] := rfl
    rw [this] at hct
    cases hct
    rfl
  rw [hct] at hd hv0 ⊢
  exact parseUnsigned_printDecimal_aux neg M n rest c t hd hv0 h0 hz hM hr

theorem stripZerosAux_spec (fuel n : Nat) (hf : n ≤ fuel) (hn : n ≠ 0) :
    ∃ z, n = stripZerosAux fuel n * 10 ^ z ∧ stripZerosAux fuel n ≠ 0 ∧
      (Nat.toDigits 10 n).length = (Nat.toDigits 10 (stripZerosAux fuel n)).length + z := by
  induction fuel generalizing n with
  | zero => omega
  | succ fuel ih =>
    simp only [stripZerosAux]
    split
    · rename_i h
      obtain ⟨z, h1, h2, h3⟩ := ih (n / 10) (by omega) (by omega)
      refine ⟨z + 1, ?_, h2, ?_⟩
      · rw [pow_succ, ← mul_assoc, ← h1]
        omega
      · rw [toDigits_large n (by omega)]
        simp only [List.length_append, List.length_singleton]
        omega
    · exact ⟨0, by simp, hn, by simp⟩

theorem mkNum_zero (neg : Bool) (n : Nat) :
    mkNum neg n 0 = .int (if neg then -(n : Int) else n) := by
  simp [mkNum]

/-- A natural number is read back from what Number::toString wrote. -/
theorem parseUnsigned_natToChars (neg : Bool) (n : Nat) (rest : List Char)
    (hr : numberEnds rest) :
    parseUnsigned neg (natToChars n ++ rest)
      = some (.int (if neg then -(n : Int) else n), rest) := by
  unfold natToChars
  split
  · have hp := parseNat_toDigits n rest (numberEnds_digit rest hr)
    simp only [parseUnsigned, hp, parseFractionOpt_ends _ rest hr, parseExponentOpt_ends rest hr]
    simp [mkNum]
  · rename_i hbig
    have hn : n ≠ 0 := by
      intro h; subst h; simp at hbig
    obtain ⟨z, h1, h2, h3⟩ := stripZerosAux_spec n n (le_refl _) hn
    rw [parseUnsigned_printDecimal neg (stripZeros n) _ rest (Or.inl h2) hr]
    have e : (((Nat.toDigits 10 n).length : Nat) : Int)
        - ((Nat.toDigits 10 (stripZeros n)).length : Nat) = (z : Nat) := by
      simp only [stripZeros]
      omega
    rw [e]
    simp only [mkNum, Int.ofNat_zero_le, if_true, Int.toNat_ofNat]
    simp only [stripZeros]
    rw [← h1]

theorem natToChars_first (n : Nat) :
    ∃ c t, natToChars n = c :: t ∧ c.isDigit = true := by
  obtain ⟨hd, -, c, t, hct, -, -⟩ := digitsValue_toDigits n
  unfold natToChars
  split
  · exact ⟨c, t, hct, hd c (by simp [hct])⟩
  · obtain ⟨hd2, -, c2, t2, hct2, -, -⟩ := digitsValue_toDigits (stripZeros n)
    have hc2 : c2.isDigit = true := hd2 c2 (by simp [hct2])
    rw [hct2]
    unfold printDecimal
    split
    · exact ⟨c2, _, rfl, hc2⟩
    · split
      · rename_i h
        obtain ⟨j, hj⟩ : ∃ j, (↑(Nat.toDigits 10 n).length : Int).toNat = j + 1 :=
          ⟨(↑(Nat.toDigits 10 n).length : Int).toNat - 1, by omega⟩
        rw [hj]
        exact ⟨c2, _, rfl, hc2⟩
      · split
        · exact ⟨'0', _, rfl, by decide⟩
        · simp only
          split
          · exact ⟨c2, _, rfl, hc2⟩
          · exact ⟨c2, _, rfl, hc2⟩

theorem printDecimal_first (c : Char) (t : List Char) (n : Int) (hc : c.isDigit = true) :
    ∃ c2 t2, printDecimal (c :: t) n = c2 :: t2 ∧ c2.isDigit = true := by
  unfold printDecimal
  split
  · exact ⟨c, _, rfl, hc⟩
  · split
    · rename_i h
      obtain ⟨j, hj⟩ : ∃ j, n.toNat = j + 1 := ⟨n.toNat - 1, by omega⟩
      rw [hj]
      exact ⟨c, _, rfl, hc⟩
    · split
      · exact ⟨'0', _, rfl, by decide⟩
      · simp only
        split
        · exact ⟨c, _, rfl, hc⟩
        · exact ⟨c, _, rfl, hc⟩

/-- Whether the number is finite. -/
theorem numToChars_first (x : JsNum) (hx : x ≠ .nan ∧ x ≠ .posInf ∧ x ≠ .negInf) :
    ∃ c t, numToChars x = c :: t ∧ (c.isDigit = true ∨ c = '-') := by
  cases x with
  | nan => exact absurd rfl hx.1
  | posInf => exact absurd rfl hx.2.1
  | negInf => exact absurd rfl hx.2.2
  | int n =>
    cases n with
    | ofNat m =>
      obtain ⟨c, t, h1, h2⟩ := natToChars_first m
      exact ⟨c, t, h1, Or.inl h2⟩
    | negSucc m => exact ⟨'-', _, rfl, Or.inr rfl⟩
  | frac m k =>
    by_cases hm : m < 0
    · exact ⟨'-', printDecimal (Nat.toDigits 10 m.natAbs)
          ((Nat.toDigits 10 m.natAbs).length - (k + 1 : Nat)),
        by simp only [numToChars, hm, if_true], Or.inr rfl⟩
    · obtain ⟨hd, -, c, t, hct, -, -⟩ := digitsValue_toDigits m.natAbs
      obtain ⟨c2, t2, h1, h2⟩ := printDecimal_first c t
        (((Nat.toDigits 10 m.natAbs).length : Int) - ((k + 1 : Nat) : Int)) (hd c (by simp [hct]))
      refine ⟨c2, t2, ?_, Or.inl h2⟩
      simp only [numToChars, hm, if_false]
      rw [← h1, hct]

/-- The number a finite number is read back as: itself, a non-integer in its
normal form. -/
theorem parseNumber_numToChars (x : JsNum) (rest : List Char) (hr : numberEnds rest)
    (hx : x ≠ .nan ∧ x ≠ .posInf ∧ x ≠ .negInf) :
    ∃ y, normalize (.num x) = .num y ∧ parseNumber (numToChars x ++ rest) = some (y, rest) := by
  cases x with
  | nan => exact absurd rfl hx.1
  | posInf => exact absurd rfl hx.2.1
  | negInf => exact absurd rfl hx.2.2
  | int n =>
    refine ⟨.int n, rfl, ?_⟩
    cases n with
    | ofNat m =>
      obtain ⟨c, t, h1, h2⟩ := natToChars_first m
      have hc : c ≠ '-' := by rintro rfl; exact absurd h2 (by decide)
      have := parseUnsigned_natToChars false m rest hr
      rw [h1] at this
      simp only [numToChars, h1, List.cons_append, parseNumber, hc, if_false]
      simpa using this
    | negSucc m =>
      have := parseUnsigned_natToChars true (m + 1) rest hr
      simp only [numToChars, List.cons_append, parseNumber, if_true]
      rw [this]
      simp [Int.negSucc_eq]
  | frac m k =>
    refine ⟨_, rfl, ?_⟩
    have hM : m.natAbs ≠ 0 ∨
        (((Nat.toDigits 10 m.natAbs).length : Int) - ((k + 1 : Nat) : Int)) ≤ 0 := by
      by_cases h : m.natAbs = 0
      · right
        rw [h]
        have : Nat.toDigits 10 0 = ['0'] := rfl
        rw [this]
        simp
      · left; exact h
    have hp := fun neg => parseUnsigned_printDecimal neg m.natAbs
      (((Nat.toDigits 10 m.natAbs).length : Int) - ((k + 1 : Nat) : Int)) rest hM hr
    have e : (((Nat.toDigits 10 m.natAbs).length : Int) - ((k + 1 : Nat) : Int))
        - ((Nat.toDigits 10 m.natAbs).length : Nat) = -((k + 1 : Nat) : Int) := by omega
    rw [e] at hp
    by_cases hm : m < 0
    · simp only [numToChars, hm, if_true, List.cons_append, parseNumber, hp true, decide_True]
    · obtain ⟨hd, -, c, t, hct, -, -⟩ := digitsValue_toDigits m.natAbs
      obtain ⟨c2, t2, h1, h2⟩ := printDecimal_first c t
        (((Nat.toDigits 10 m.natAbs).length : Int) - ((k + 1 : Nat) : Int)) (hd c (by simp [hct]))
      have hc : c2 ≠ '-' := by rintro rfl; exact absurd h2 (by decide)
      have hp2 := hp false
      rw [hct] at hp2 h1
      simp only [numToChars, hm, if_false, decide_False]
      rw [hct]
      rw [h1] at hp2 ⊢
      simp only [List.cons_append, parseNumber, hc, if_false] at hp2 ⊢
      exact hp2

theorem normFrac_canonical (neg : Bool) (mant k : Nat) (h : mant % 10 ≠ 0) :
    normFrac neg mant (k + 1) = .frac (if neg then -(mant : Int) else mant) k := by
  simp [normFrac, h]

/-- A non-integer whose last digit is not zero is in normal form. -/
theorem normalize_frac (m : Int) (k : Nat) (h : isJson (.num (.frac m k)) = true) :
    normalize (.num (.frac m k)) = .num (.frac m k) := by
  simp only [isJson, bne_iff_ne, ne_eq] at h
  have h2 : m.natAbs % 10 ≠ 0 := by omega
  have h3 : ¬ (0 : Int) ≤ -((k + 1 : Nat) : Int) := by omega
  have h4 : (-(-((k + 1 : Nat) : Int))).toNat = k + 1 := by omega
  simp only [normalize, mkNum, h3, if_false, h4, normFrac_canonical _ _ _ h2]
  by_cases hm : m < 0
  · have : -(m.natAbs : Int) = m := by omega
    simp only [hm, decide_True, if_true, this]
  · have : (m.natAbs : Int) = m := by omega
    simp only [hm, decide_False, Bool.false_eq_true, if_false, this]

theorem isJson_normFrac (neg : Bool) (mant k : Nat) :
    isJson (.num (normFrac neg mant k)) = true := by
  induction k generalizing mant with
  | zero => rfl
  | succ k ih =>
    simp only [normFrac]
    split
    · exact ih _
    · rename_i h
      simp only [isJson, bne_iff_ne, ne_eq]
      cases neg
      · simp only [Bool.false_eq_true, if_false]; omega
      · simp only [if_true]; omega

theorem isJson_mkNum (neg : Bool) (mant : Nat) (e : Int) :
    isJson (.num (mkNum neg mant e)) = true := by
  unfold mkNum
  split
  · rfl
  · exact isJson_normFrac _ _ _

/-! ## Strings -/

theorem hex4_control : ∀ n, n < 32 →
    hex4 '0' '0' (hexDigit (n / 16)) (hexDigit (n % 16)) = some n := by
  decide

theorem readChar_quoteChar (c : Char) (rest : List Char) :
    readChar (quoteChar c ++ rest) = some (c, rest) ∧
      ∃ d t, quoteChar c = d :: t ∧ d ≠ '"' := by
  unfold quoteChar
  split_ifs with h1 h2 h3 h4 h5 h6 h7 h8
  · subst h1; exact ⟨by simp [readChar, unescape], _, _, rfl, by decide⟩
  · subst h2; exact ⟨by simp [readChar, unescape], _, _, rfl, by decide⟩
  · subst h3; exact ⟨by simp [readChar, unescape], _, _, rfl, by decide⟩
  · subst h4; exact ⟨by simp [readChar, unescape], _, _, rfl, by decide⟩
  · subst h5; exact ⟨by simp [readChar, unescape], _, _, rfl, by decide⟩
  · subst h6; exact ⟨by simp [readChar, unescape], _, _, rfl, by decide⟩
  · subst h7; exact ⟨by simp [readChar, unescape], _, _, rfl, by decide⟩
  · have hx := hex4_control c.toNat h8
    have hlt : c.toNat < 0xD800 := by omega
    refine ⟨?_, _, _, rfl, by decide⟩
    simp [readChar, readUnicode, hx, hlt]
  · exact ⟨by simp [readChar, h2, h8], _, _, rfl, h1⟩

theorem parseStrBody_quoteChars (s rest : List Char) (fuel : Nat)
    (hf : (quoteChars s).length < fuel) :
    parseStrBody fuel (quoteChars s ++ '"' :: rest) = some (s, rest) := by
  induction s generalizing fuel with
  | nil =>
    cases fuel with
    | zero => simp at hf
    | succ f => simp [quoteChars, parseStrBody]
  | cons c s ih =>
    obtain ⟨h1, d, t, h2, h3⟩ := readChar_quoteChar c (quoteChars s ++ '"' :: rest)
    cases fuel with
    | zero => simp at hf
    | succ f =>
      simp only [quoteChars, List.append_assoc] at hf ⊢
      have hlen : (quoteChars s).length < f := by
        simp [h2] at hf; omega
      rw [h2] at h1 ⊢
      simp only [List.cons_append, parseStrBody, h3, if_false] at h1 ⊢
      simp only [h1, ih f hlen]

theorem parseString_quote (s : String) (rest : List Char) :
    parseString (quoteChars s.data ++ '"' :: rest) = some (s, rest) := by
  unfold parseString
  rw [parseStrBody_quoteChars _ _ _ (by simp)]

/-! ## Reading back what JSON.stringify wrote -/

theorem skipWs_cons (c : Char) (cs : List Char) (h : isWs c = false) :
    skipWs (c :: cs) = c :: cs := by
  simp [skipWs, h]

theorem skipWs_punct (cs : List Char) :
    skipWs ('[' :: cs) = '[' :: cs ∧ skipWs (']' :: cs) = ']' :: cs ∧
    skipWs ('{' :: cs) = '{' :: cs ∧ skipWs ('}' :: cs) = '}' :: cs ∧
    skipWs (',' :: cs) = ',' :: cs ∧ skipWs (':' :: cs) = ':' :: cs ∧
    skipWs ('"' :: cs) = '"' :: cs ∧ skipWs ('n' :: cs) = 'n' :: cs ∧
    skipWs ('t' :: cs) = 't' :: cs ∧ skipWs ('f' :: cs) = 'f' :: cs := by
  simp [skipWs, isWs]

theorem digit_first (c : Char) (h : c.isDigit = true ∨ c = '-') :
    isWs c = false ∧ c ≠ '"' ∧ c ≠ '[' ∧ c ≠ '{' ∧ c ≠ 'n' ∧ c ≠ 't' ∧ c ≠ 'f' := by
  rcases h with h | h
  · refine ⟨?_, ?_, ?_, ?_, ?_, ?_, ?_⟩
    · simp only [isWs, Bool.or_eq_false_iff, decide_eq_false_iff_not]
      refine ⟨⟨⟨?_, ?_⟩, ?_⟩, ?_⟩ <;> (rintro rfl; exact absurd h (by decide))
    all_goals (rintro rfl; exact absurd h (by decide))
  · subst h; decide

theorem numberEnds_cons (c : Char) (cs : List Char)
    (h : c = ',' ∨ c = ']' ∨ c = '}') : numberEnds (c :: cs) := by
  intro d hd
  simp at hd
  subst hd
  rcases h with h | h | h <;> subst h <;> decide

theorem serializeElems_first (xs : List JsVal) :
    ∃ c t, serializeElems xs = c :: t ∧ (c = ',' ∨ c = ']' ∨ c = '}') := by
  cases xs with
  | nil => exact ⟨']', [], rfl, by simp⟩
  | cons x xs => exact ⟨',', _, rfl, by simp⟩

theorem serialize_first (v : JsVal) (s : List Char) (h : serialize v = some s) :
    ∃ c t, s = c :: t ∧ isWs c = false ∧ c ≠ ']' ∧ c ≠ '}' := by
  cases v with
  | undefined => simp [serialize] at h
  | func => simp [serialize] at h
  | bigint n => simp [serialize] at h
  | cyclic => simp [serialize] at h
  | null => simp [serialize] at h; subst h; exact ⟨_, _, rfl, by decide⟩
  | bool b =>
    cases b <;> (simp [serialize] at h; subst h; exact ⟨_, _, rfl, by decide⟩)
  | str x => simp [serialize, quoteJSONString] at h; subst h; exact ⟨_, _, rfl, by decide⟩
  | num n =>
    simp [serialize] at h; subst h
    by_cases hn : n ≠ .nan ∧ n ≠ .posInf ∧ n ≠ .negInf
    · obtain ⟨c, t, hct, hc⟩ := numToChars_first n hn
      refine ⟨c, t, hct, (digit_first c hc).1, ?_, ?_⟩
      · rintro rfl; rcases hc with hc | hc <;> exact absurd hc (by decide)
      · rintro rfl; rcases hc with hc | hc <;> exact absurd hc (by decide)
    · cases n with
      | nan => exact ⟨_, _, rfl, by decide⟩
      | posInf => exact ⟨_, _, rfl, by decide⟩
      | negInf => exact ⟨_, _, rfl, by decide⟩
      | int n => exact absurd ⟨by simp, by simp, by simp⟩ hn
      | frac m k => exact absurd ⟨by simp, by simp, by simp⟩ hn
  | arr xs =>
    cases xs with
    | nil => simp [serialize] at h; subst h; exact ⟨_, _, rfl, by decide⟩
    | cons x xs => simp [serialize] at h; subst h; exact ⟨_, _, rfl, by decide⟩
  | obj ps => simp [serialize] at h; subst h; exact ⟨_, _, rfl, by decide⟩

theorem serializeProps_first (ps : List (String × JsVal)) :
    ∃ c t, serializeProps false ps = c :: t ∧ (c = ',' ∨ c = ']' ∨ c = '}') := by
  induction ps with
  | nil => exact ⟨'}', [], rfl, by simp⟩
  | cons p ps ih =>
    obtain ⟨k, v⟩ := p
    cases hsv : serialize v with
    | none => simpa [serializeProps, hsv] using ih
    | some s => exact ⟨',', _, by simp [serializeProps, hsv]; rfl, by simp⟩

theorem normalize_of_serialize_none (v : JsVal) (h : serialize v = none) :
    normalize v = .null := by
  cases v with
  | bool b => cases b <;> simp [serialize] at h
  | num n => cases n <;> simp [serialize] at h
  | str s => simp [serialize] at h
  | arr xs => cases xs <;> simp [serialize] at h
  | obj ps => simp [serialize] at h
  | _ => rfl

/-- The text of an array element: `null` stands for what serializes to
`undefined`. -/
theorem parse_null (rest : List Char) (fuel : Nat) :
    parseValue (fuel + 1) ("null".toList ++ rest) = some (.null, rest) := by
  simp [parseValue, skipWs_punct, expect]

/-! ### Objects whose keys are in property order -/

theorem keysOrdered_append_cons (acc ps : List (String × JsVal)) (k : String) (v : JsVal)
    (h : keysOrdered (acc ++ (k, v) :: ps) = true) :
    ∀ e ∈ acc, e.1 ≠ k ∧ keyBefore k e.1 = false := by
  induction acc with
  | nil => simp
  | cons a acc ih =>
    obtain ⟨ka, va⟩ := a
    simp only [List.cons_append, keysOrdered, Bool.and_eq_true, List.all_eq_true] at h
    intro e he
    rcases List.mem_cons.1 he with he | he
    · subst he
      have := h.1 (k, v) (by simp)
      simp at this
      exact ⟨fun hh => this.1 hh.symm, this.2⟩
    · exact ih h.2 e he

theorem setProp_append (acc : List (String × JsVal)) (k : String) (v : JsVal)
    (h : ∀ e ∈ acc, e.1 ≠ k ∧ keyBefore k e.1 = false) :
    setProp acc k v = acc ++ [(k, v)] := by
  have hk : hasKey acc k = false := by
    simp only [hasKey, List.any_eq_false, beq_iff_eq]
    intro e he; simpa using (h e he).1
  have hi : insertProp k v acc = acc ++ [(k, v)] := by
    induction acc with
    | nil => rfl
    | cons a acc ih =>
      obtain ⟨ka, va⟩ := a
      have h1 := (h (ka, va) (by simp)).2
      simp only [insertProp, h1, List.cons_append]
      simp
      exact ih (fun e he => h e (by simp [he])) (by
        simp only [hasKey, List.any_eq_false, beq_iff_eq]
        intro e he; simpa using (h e (by simp [he])).1)
  simp [setProp, hk, hi]

theorem buildProps_ordered (ps : List (String × JsVal)) (h : keysOrdered ps = true) :
    buildProps ps = ps := by
  have key : ∀ (ps acc : List (String × JsVal)), keysOrdered (acc ++ ps) = true →
      ps.foldl (fun a kv => setProp a kv.1 kv.2) acc = acc ++ ps := by
    intro ps
    induction ps with
    | nil => simp
    | cons p ps ih =>
      intro acc hacc
      obtain ⟨k, v⟩ := p
      simp only [List.foldl_cons]
      rw [setProp_append acc k v (keysOrdered_append_cons acc ps k v hacc)]
      rw [ih (acc ++ [(k, v)]) (by simpa using hacc)]
      simp
  simpa [buildProps] using key ps [] (by simpa using h)

/-! ### The parser reads back the JSON data of what was written -/

/-- What an array element is written as and read back as, from what holds
for the element as a value. -/
theorem elem_spec (x : JsVal)
    (hx : ∀ (s rest : List Char) (fuel : Nat), serialize x = some s → numberEnds rest →
      cost x ≤ fuel → parseValue fuel (s ++ rest) = some (normalize x, rest)) :
    (∀ (rest : List Char) (fuel : Nat), numberEnds rest → cost x ≤ fuel → 1 ≤ fuel →
      parseValue fuel ((serialize x).getD "null".toList ++ rest) = some (normalize x, rest)) ∧
    ∃ c1 t1, (serialize x).getD "null".toList = c1 :: t1 ∧ isWs c1 = false ∧ c1 ≠ ']' := by
  cases hsx : serialize x with
  | none =>
    refine ⟨?_, 'n', _, rfl, by decide, by decide⟩
    intro rest fuel _ _ h1
    rw [normalize_of_serialize_none x hsx]
    cases fuel with
    | zero => omega
    | succ f2 => exact parse_null _ f2
  | some sx =>
    obtain ⟨c1, t1, h1, h2, h3, -⟩ := serialize_first x sx hsx
    refine ⟨?_, c1, t1, by simp [h1], h2, h3⟩
    intro rest fuel hr hf _
    exact hx sx rest fuel hsx hr hf

theorem cost_pos (v : JsVal) : 1 ≤ cost v := by
  cases v <;> simp [cost]

mutual
theorem parseValue_serialize : ∀ (v : JsVal) (s rest : List Char) (fuel : Nat),
    serialize v = some s → numberEnds rest → cost v ≤ fuel →
    parseValue fuel (s ++ rest) = some (normalize v, rest)
  | .null, s, rest, fuel, hs, _, hf => by
    cases fuel with
    | zero => simp [cost] at hf
    | succ f => simp [serialize] at hs; subst hs; simp [parseValue, skipWs_punct, expect, normalize]
  | .bool true, s, rest, fuel, hs, _, hf => by
    cases fuel with
    | zero => simp [cost] at hf
    | succ f => simp [serialize] at hs; subst hs; simp [parseValue, skipWs_punct, expect, normalize]
  | .bool false, s, rest, fuel, hs, _, hf => by
    cases fuel with
    | zero => simp [cost] at hf
    | succ f => simp [serialize] at hs; subst hs; simp [parseValue, skipWs_punct, expect, normalize]
  | .str x, s, rest, fuel, hs, _, hf => by
    cases fuel with
    | zero => simp [cost] at hf
    | succ f =>
      simp [serialize] at hs; subst hs
      have := parseString_quote x rest
      simp [parseValue, quoteJSONString, skipWs_punct, this, normalize]
  | .num x, s, rest, fuel, hs, hr, hf => by
    cases fuel with
    | zero => simp [cost] at hf
    | succ f =>
      simp [serialize] at hs; subst hs
      by_cases hx : x ≠ .nan ∧ x ≠ .posInf ∧ x ≠ .negInf
      · obtain ⟨c, t, hct, hc⟩ := numToChars_first x hx
        obtain ⟨w, a1, a2, a3, a4, a5, a6⟩ := digit_first c hc
        obtain ⟨y, hy, hp⟩ := parseNumber_numToChars x rest hr hx
        rw [hct] at hp ⊢
        simp only [List.cons_append] at hp ⊢
        simp [parseValue, skipWs_cons _ _ w, a1, a2, a3, a4, a5, a6, hp, hy]
      · cases x with
        | nan => simp [numToChars, parseValue, skipWs_punct, expect, normalize]
        | posInf => simp [numToChars, parseValue, skipWs_punct, expect, normalize]
        | negInf => simp [numToChars, parseValue, skipWs_punct, expect, normalize]
        | int n => exact absurd ⟨by simp, by simp, by simp⟩ hx
        | frac m k => exact absurd ⟨by simp, by simp, by simp⟩ hx
  | .undefined, _, _, _, hs, _, _ => by simp [serialize] at hs
  | .func, _, _, _, hs, _, _ => by simp [serialize] at hs
  | .bigint _, _, _, _, hs, _, _ => by simp [serialize] at hs
  | .cyclic, _, _, _, hs, _, _ => by simp [serialize] at hs
  | .arr [], s, rest, fuel, hs, _, hf => by
    cases fuel with
    | zero => simp [cost] at hf
    | succ f =>
      simp [serialize] at hs; subst hs
      simp [parseValue, skipWs_punct, normalize, normalizeElems]
  | .arr (x :: xs), s, rest, fuel, hs, hr, hf => by
    cases fuel with
    | zero => simp [cost] at hf
    | succ f =>
      simp only [cost, costElems] at hf
      obtain ⟨hx, c1, t1, hc1, w1, n1⟩ := elem_spec x (parseValue_serialize x)
      have he := parseElems_serialize xs x rest f hx (by omega)
      simp [serialize] at hs; subst hs
      simp only [String.toList] at hc1 he
      rw [hc1] at he ⊢
      simp only [List.append_assoc, List.cons_append] at he ⊢
      simp [parseValue, skipWs_punct, skipWs_cons _ _ w1, n1, he, normalize, normalizeElems]
  | .obj ps, s, rest, fuel, hs, hr, hf => by
    simp only [cost] at hf
    simp [serialize] at hs; subst hs
    simpa [normalize] using parseObject_serialize ps rest fuel hf
theorem parseElems_serialize : ∀ (xs : List JsVal) (x : JsVal) (rest : List Char) (fuel : Nat),
    (∀ (rest2 : List Char) (fuel2 : Nat), numberEnds rest2 → cost x ≤ fuel2 → 1 ≤ fuel2 →
      parseValue fuel2 ((serialize x).getD "null".toList ++ rest2) = some (normalize x, rest2)) →
    1 + cost x + costElems xs ≤ fuel →
    parseElems fuel ((serialize x).getD "null".toList ++ serializeElems xs ++ rest)
      = some (normalize x :: normalizeElems xs, rest)
  | [], x, rest, fuel, hx, hf => by
    cases fuel with
    | zero => omega
    | succ f =>
      have h1 := cost_pos x
      simp only [serializeElems, List.append_assoc, List.singleton_append, parseElems]
      rw [hx _ f (numberEnds_cons _ _ (by simp)) (by simp [costElems] at hf; omega) (by omega)]
      simp [skipWs_punct, normalizeElems]
  | y :: ys, x, rest, fuel, hx, hf => by
    cases fuel with
    | zero => omega
    | succ f =>
      have h1 := cost_pos x
      simp only [costElems] at hf
      obtain ⟨hy, -⟩ := elem_spec y (parseValue_serialize y)
      have he := parseElems_serialize ys y rest f hy (by omega)
      simp only [serializeElems, List.append_assoc, List.cons_append, parseElems]
      rw [hx _ f (numberEnds_cons _ _ (by simp)) (by omega) (by omega)]
      simp only [List.append_assoc, String.toList] at he
      simp [skipWs_punct, normalizeElems, he]
theorem parseObject_serialize : ∀ (ps : List (String × JsVal)) (rest : List Char) (fuel : Nat),
    1 + costProps ps ≤ fuel →
    parseValue fuel ('{' :: serializeProps true ps ++ rest)
      = some (.obj (buildProps (normalizeProps ps)), rest)
  | [], rest, fuel, hf => by
    cases fuel with
    | zero => omega
    | succ f => simp [parseValue, serializeProps, skipWs_punct, normalizeProps, buildProps]
  | (k, v) :: ps, rest, fuel, hf => by
    cases hsv : serialize v with
    | none =>
      have := parseObject_serialize ps rest fuel (by simp only [costProps, hsv] at hf; exact hf)
      simpa [serializeProps, normalizeProps, hsv] using this
    | some sv =>
      cases fuel with
      | zero => omega
      | succ f =>
        have hv := fun rest2 fuel2 => parseValue_serialize v sv rest2 fuel2 hsv
        have hm := parseMembers_serialize ps k v sv rest f hv
          (by simp only [costProps, hsv] at hf; omega)
        simp only [quoteJSONString, List.append_assoc, List.cons_append, List.nil_append] at hm
        simp [serializeProps, normalizeProps, hsv, quoteJSONString, parseValue, skipWs_punct, hm]
theorem parseMembers_serialize : ∀ (ps : List (String × JsVal)) (k : String) (v : JsVal)
    (sv rest : List Char) (fuel : Nat),
    (∀ (rest2 : List Char) (fuel2 : Nat), numberEnds rest2 → cost v ≤ fuel2 →
      parseValue fuel2 (sv ++ rest2) = some (normalize v, rest2)) →
    1 + cost v + costProps ps ≤ fuel →
    parseMembers fuel (quoteJSONString k ++ (':' :: sv) ++ serializeProps false ps ++ rest)
      = some ((k, normalize v) :: normalizeProps ps, rest)
  | [], k, v, sv, rest, fuel, hv, hf => by
    cases fuel with
    | zero => omega
    | succ f =>
      have hq := parseString_quote k (':' :: (sv ++ '}' :: rest))
      have hp := hv ('}' :: rest) f (numberEnds_cons _ _ (by simp))
        (by simp [costProps] at hf; omega)
      simp [serializeProps, quoteJSONString, parseMembers, skipWs_punct, hq, hp, normalizeProps]
  | (k2, v2) :: ps, k, v, sv, rest, fuel, hv, hf => by
    cases hs2 : serialize v2 with
    | none =>
      have := parseMembers_serialize ps k v sv rest fuel hv
        (by simp only [costProps, hs2] at hf; exact hf)
      simpa [serializeProps, normalizeProps, hs2] using this
    | some s2 =>
      cases fuel with
      | zero => omega
      | succ f =>
        simp only [costProps, hs2] at hf
        have hv2 := fun rest2 fuel2 => parseValue_serialize v2 s2 rest2 fuel2 hs2
        have hm := parseMembers_serialize ps k2 v2 s2 rest f hv2 (by omega)
        have hq := parseString_quote k
          (':' :: (sv ++ ',' :: (quoteJSONString k2 ++ (':' :: s2) ++ serializeProps false ps ++ rest)))
        have hp := hv
          (',' :: (quoteJSONString k2 ++ (':' :: s2) ++ serializeProps false ps ++ rest)) f
          (numberEnds_cons _ _ (by simp)) (by omega)
        simp only [quoteJSONString, List.append_assoc, List.cons_append, List.nil_append]
          at hm hq hp
        simp [serializeProps, hs2, quoteJSONString, parseMembers, skipWs_punct, hq, hp, hm,
          normalizeProps]
end

theorem cost_of_serialize_none (v : JsVal) (h : serialize v = none) : cost v = 1 := by
  cases v with
  | arr xs => cases xs <;> simp [serialize] at h
  | obj ps => simp [serialize] at h
  | _ => rfl

mutual
theorem cost_le_length : ∀ (v : JsVal) (s : List Char), serialize v = some s →
    cost v ≤ s.length
  | .arr [], s, h => by simp [serialize] at h; subst h; simp [cost, costElems]
  | .arr (x :: xs), s, h => by
    have h1 : cost x ≤ ((serialize x).getD "null".toList).length := by
      cases hsx : serialize x with
      | none => simp [cost_of_serialize_none x hsx]
      | some sx => simpa using cost_le_length x sx hsx
    have h2 := costElems_le_length xs
    simp [serialize] at h; subst h
    simp only [String.toList] at h1
    simp [cost, costElems]; omega
  | .obj ps, s, h => by
    have h2 := costProps_le_length ps true
    simp [serialize] at h; subst h
    simp [cost]; omega
  | .null, s, h => by
    obtain ⟨c, t, hct, -⟩ := serialize_first _ s h
    subst hct; simp [cost]
  | .bool _, s, h => by
    obtain ⟨c, t, hct, -⟩ := serialize_first _ s h
    subst hct; simp [cost]
  | .str _, s, h => by
    obtain ⟨c, t, hct, -⟩ := serialize_first _ s h
    subst hct; simp [cost]
  | .num _, s, h => by
    obtain ⟨c, t, hct, -⟩ := serialize_first _ s h
    subst hct; simp [cost]
  | .undefined, _, h => by simp [serialize] at h
  | .func, _, h => by simp [serialize] at h
  | .bigint _, _, h => by simp [serialize] at h
  | .cyclic, _, h => by simp [serialize] at h
theorem costElems_le_length : ∀ (xs : List JsVal),
    costElems xs + 1 ≤ (serializeElems xs).length
  | [] => by simp [costElems, serializeElems]
  | x :: xs => by
    have h1 : cost x ≤ ((serialize x).getD "null".toList).length := by
      cases hsx : serialize x with
      | none => simp [cost_of_serialize_none x hsx]
      | some sx => simpa using cost_le_length x sx hsx
    have h2 := costElems_le_length xs
    simp only [String.toList] at h1
    simp [costElems, serializeElems]; omega
theorem costProps_le_length : ∀ (ps : List (String × JsVal)) (first : Bool),
    costProps ps + 1 ≤ (serializeProps first ps).length
  | [], _ => by simp [costProps, serializeProps]
  | (k, v) :: ps, first => by
    cases hsv : serialize v with
    | none =>
      have h2 := costProps_le_length ps first
      simpa [costProps, serializeProps, hsv] using h2
    | some sv =>
      have h1 := cost_le_length v sv hsv
      have h2 := costProps_le_length ps false
      simp [costProps, serializeProps, hsv]; omega
end

/-- JSON.parse reads the text JSON.stringify wrote for a value back as the
JSON data of the value. -/
theorem JSONparse_serialize (v : JsVal) (s : List Char) (h : serialize v = some s) :
    JSONparse (String.mk s) = some (normalize v) ∧ String.mk s ≠ "" := by
  have hc := cost_le_length v s h
  have hp := parseValue_serialize v s [] (2 * s.length + 2) h
    (by intro d hd; simp at hd) (by omega)
  simp only [List.append_nil] at hp
  refine ⟨by simp [JSONparse, String.length, hp, skipWs], ?_⟩
  obtain ⟨c, t, hct, -⟩ := serialize_first v s h
  subst hct
  intro hh
  have := congrArg String.data hh
  simp at this

theorem serialize_isSome_of_json : ∀ (v : JsVal), isJson v = true → (serialize v).isSome = true
  | .null, _ => rfl
  | .bool true, _ => rfl
  | .bool false, _ => rfl
  | .str _, _ => rfl
  | .num _, _ => rfl
  | .arr [], _ => rfl
  | .arr (_ :: _), _ => rfl
  | .obj _, _ => rfl
  | .undefined, h => by simp [isJson] at h
  | .func, h => by simp [isJson] at h
  | .bigint _, h => by simp [isJson] at h
  | .cyclic, h => by simp [isJson] at h

mutual
theorem normalize_json : ∀ (v : JsVal), isJson v = true → normalize v = v
  | .null, _ => rfl
  | .bool _, _ => rfl
  | .str _, _ => rfl
  | .num (.int _), _ => rfl
  | .num (.frac m k), h => normalize_frac m k h
  | .num .nan, h => by simp [isJson] at h
  | .num .posInf, h => by simp [isJson] at h
  | .num .negInf, h => by simp [isJson] at h
  | .undefined, h => by simp [isJson] at h
  | .func, h => by simp [isJson] at h
  | .bigint _, h => by simp [isJson] at h
  | .cyclic, h => by simp [isJson] at h
  | .arr xs, h => by
    simp only [isJson] at h
    simp [normalize, normalizeElems_json xs h]
  | .obj ps, h => by
    simp only [isJson, Bool.and_eq_true] at h
    simp [normalize, normalizeProps_json ps h.2, buildProps_ordered ps h.1]
theorem normalizeElems_json : ∀ (xs : List JsVal), isJsonElems xs = true →
    normalizeElems xs = xs
  | [], _ => rfl
  | x :: xs, h => by
    simp only [isJsonElems, Bool.and_eq_true] at h
    simp [normalizeElems, normalize_json x h.1, normalizeElems_json xs h.2]
theorem normalizeProps_json : ∀ (ps : List (String × JsVal)), isJsonProps ps = true →
    normalizeProps ps = ps
  | [], _ => rfl
  | (k, v) :: ps, h => by
    simp only [isJsonProps, Bool.and_eq_true] at h
    have h1 := serialize_isSome_of_json v h.1
    obtain ⟨sv, hsv⟩ := Option.isSome_iff_exists.1 h1
    simp [normalizeProps, hsv, normalize_json v h.1, normalizeProps_json ps h.2]
end

mutual
theorem stringifyThrows_json : ∀ (v : JsVal), isJson v = true → stringifyThrows v = false
  | .null, _ => rfl
  | .bool _, _ => rfl
  | .str _, _ => rfl
  | .num _, _ => rfl
  | .undefined, _ => rfl
  | .func, _ => rfl
  | .bigint _, h => by simp [isJson] at h
  | .cyclic, h => by simp [isJson] at h
  | .arr xs, h => by
    simp only [isJson] at h
    simpa [stringifyThrows] using stringifyThrowsElems_json xs h
  | .obj ps, h => by
    simp only [isJson, Bool.and_eq_true] at h
    simpa [stringifyThrows] using stringifyThrowsProps_json ps h.2
theorem stringifyThrowsElems_json : ∀ (xs : List JsVal), isJsonElems xs = true →
    stringifyThrowsElems xs = false
  | [], _ => rfl
  | x :: xs, h => by
    simp only [isJsonElems, Bool.and_eq_true] at h
    simp [stringifyThrowsElems, stringifyThrows_json x h.1, stringifyThrowsElems_json xs h.2]
theorem stringifyThrowsProps_json : ∀ (ps : List (String × JsVal)), isJsonProps ps = true →
    stringifyThrowsProps ps = false
  | [], _ => rfl
  | (_, v) :: ps, h => by
    simp only [isJsonProps, Bool.and_eq_true] at h
    simp [stringifyThrowsProps, stringifyThrows_json v h.1, stringifyThrowsProps_json ps h.2]
end

/-! ### What the parser returns is JSON data -/

theorem keyBefore_asymm (a b : String) (h : keyBefore a b = true) : keyBefore b a = false := by
  unfold keyBefore at *
  cases ha : arrayIndex a <;> cases hb : arrayIndex b <;> simp_all
  omega

theorem keyBefore_trans (a b c : String) (h1 : keyBefore a b = true)
    (h2 : keyBefore b c = true) : keyBefore a c = true := by
  unfold keyBefore at *
  cases ha : arrayIndex a <;> cases hb : arrayIndex b <;> cases hc : arrayIndex c <;> simp_all
  omega

theorem keysOrdered_cons (k : String) (v : JsVal) (ps : List (String × JsVal)) :
    keysOrdered ((k, v) :: ps) = true ↔
      (∀ p ∈ ps, p.1 ≠ k ∧ keyBefore p.1 k = false) ∧ keysOrdered ps = true := by
  simp [keysOrdered]

theorem mem_insertProp (k : String) (v : JsVal) (ps : List (String × JsVal))
    (p : String × JsVal) : p ∈ insertProp k v ps ↔ p = (k, v) ∨ p ∈ ps := by
  induction ps with
  | nil => simp [insertProp]
  | cons q ps ih =>
    obtain ⟨k2, v2⟩ := q
    by_cases h : keyBefore k k2 = true
    · simp [insertProp, h]
    · simp [insertProp, h, ih]; tauto

theorem mem_replaceProp (k : String) (v : JsVal) (ps : List (String × JsVal))
    (p : String × JsVal) (h : p ∈ replaceProp k v ps) :
    (p = (k, v) ∧ hasKey ps k = true) ∨ p ∈ ps := by
  induction ps with
  | nil => simp [replaceProp] at h
  | cons q ps ih =>
    obtain ⟨k2, v2⟩ := q
    by_cases hk : k2 = k
    · subst hk
      simp [replaceProp] at h
      rcases h with h | h
      · left; exact ⟨h, by simp [hasKey]⟩
      · right; simp [h]
    · simp [replaceProp, hk] at h
      rcases h with h | h
      · right; simp [h]
      · rcases ih h with ⟨h1, h2⟩ | h1
        · left; exact ⟨h1, by simp [hasKey] at h2 ⊢; right; exact h2⟩
        · right; simp [h1]

theorem keysOrdered_insertProp (k : String) (v : JsVal) (ps : List (String × JsVal))
    (h : keysOrdered ps = true) (hk : ∀ p ∈ ps, p.1 ≠ k) :
    keysOrdered (insertProp k v ps) = true := by
  induction ps with
  | nil => simp [insertProp, keysOrdered]
  | cons q ps ih =>
    obtain ⟨k2, v2⟩ := q
    obtain ⟨h1, h2⟩ := (keysOrdered_cons k2 v2 ps).1 h
    by_cases hb : keyBefore k k2 = true
    · simp only [insertProp, hb, if_true]
      refine (keysOrdered_cons k v _).2 ⟨?_, h⟩
      intro p hp
      refine ⟨hk p hp, ?_⟩
      rcases List.mem_cons.1 hp with hp | hp
      · subst hp; exact keyBefore_asymm _ _ hb
      · cases hpk : keyBefore p.1 k with
        | false => rfl
        | true =>
          have := keyBefore_trans _ _ _ hpk hb
          rw [(h1 p hp).2] at this
          exact absurd this (by simp)
    · simp only [insertProp, hb]
      refine (keysOrdered_cons k2 v2 _).2 ⟨?_, ih h2 (fun p hp => hk p (by simp [hp]))⟩
      intro p hp
      rcases (mem_insertProp k v ps p).1 hp with hp | hp
      · subst hp
        exact ⟨fun e => hk (k2, v2) (by simp) e.symm, by simpa using hb⟩
      · exact h1 p hp

theorem keysOrdered_replaceProp (k : String) (v : JsVal) (ps : List (String × JsVal))
    (h : keysOrdered ps = true) : keysOrdered (replaceProp k v ps) = true := by
  induction ps with
  | nil => simp [replaceProp, keysOrdered]
  | cons q ps ih =>
    obtain ⟨k2, v2⟩ := q
    obtain ⟨h1, h2⟩ := (keysOrdered_cons k2 v2 ps).1 h
    by_cases hk : k2 = k
    · subst hk
      simp only [replaceProp, if_true]
      exact (keysOrdered_cons k2 v ps).2 ⟨h1, h2⟩
    · simp only [replaceProp, hk, if_false]
      refine (keysOrdered_cons k2 v2 _).2 ⟨?_, ih h2⟩
      intro p hp
      rcases mem_replaceProp k v ps p hp with ⟨hp, hh⟩ | hp
      · subst hp
        simp only [hasKey, List.any_eq_true, beq_iff_eq] at hh
        obtain ⟨q, hq, hqk⟩ := hh
        have := h1 q hq
        rw [hqk] at this
        exact this
      · exact h1 p hp

theorem keysOrdered_setProp (ps : List (String × JsVal)) (k : String) (v : JsVal)
    (h : keysOrdered ps = true) : keysOrdered (setProp ps k v) = true := by
  unfold setProp
  by_cases hk : hasKey ps k = true
  · simp only [hk, if_true]; exact keysOrdered_replaceProp k v ps h
  · simp only [hk]
    refine keysOrdered_insertProp k v ps h ?_
    intro p hp e
    exact hk (by simp only [hasKey, List.any_eq_true, beq_iff_eq]; exact ⟨p, hp, e⟩)

theorem isJsonProps_iff (ps : List (String × JsVal)) :
    isJsonProps ps = true ↔ ∀ p ∈ ps, isJson p.2 = true := by
  induction ps with
  | nil => simp [isJsonProps]
  | cons q ps ih =>
    obtain ⟨k, v⟩ := q
    simp [isJsonProps, ih]

theorem isJsonElems_iff (xs : List JsVal) :
    isJsonElems xs = true ↔ ∀ x ∈ xs, isJson x = true := by
  induction xs with
  | nil => simp [isJsonElems]
  | cons x xs ih => simp [isJsonElems, ih]

theorem isJsonProps_setProp (ps : List (String × JsVal)) (k : String) (v : JsVal)
    (h : isJsonProps ps = true) (hv : isJson v = true) : isJsonProps (setProp ps k v) = true := by
  rw [isJsonProps_iff] at h ⊢
  intro p hp
  unfold setProp at hp
  split at hp
  · rcases mem_replaceProp k v ps p hp with ⟨hp, -⟩ | hp
    · subst hp; exact hv
    · exact h p hp
  · rcases (mem_insertProp k v ps p).1 hp with hp | hp
    · subst hp; exact hv
    · exact h p hp

theorem buildProps_json (kvs : List (String × JsVal)) (h : isJsonProps kvs = true) :
    keysOrdered (buildProps kvs) = true ∧ isJsonProps (buildProps kvs) = true := by
  have key : ∀ (kvs acc : List (String × JsVal)), isJsonProps kvs = true →
      keysOrdered acc = true → isJsonProps acc = true →
      keysOrdered (kvs.foldl (fun a kv => setProp a kv.1 kv.2) acc) = true ∧
      isJsonProps (kvs.foldl (fun a kv => setProp a kv.1 kv.2) acc) = true := by
    intro kvs
    induction kvs with
    | nil => intro acc _ h1 h2; exact ⟨h1, h2⟩
    | cons q kvs ih =>
      intro acc hq h1 h2
      obtain ⟨k, v⟩ := q
      simp only [isJsonProps, Bool.and_eq_true] at hq
      exact ih _ hq.2 (keysOrdered_setProp acc k v h1) (isJsonProps_setProp acc k v h2 hq.1)
  exact key kvs [] h rfl rfl

mutual
theorem isJson_normalize : ∀ (v : JsVal), isJson (normalize v) = true
  | .null => rfl
  | .undefined => rfl
  | .func => rfl
  | .bigint _ => rfl
  | .cyclic => rfl
  | .bool _ => rfl
  | .str _ => rfl
  | .num (.int _) => rfl
  | .num (.frac m k) => by simpa [normalize] using isJson_mkNum _ _ _
  | .num .nan => rfl
  | .num .posInf => rfl
  | .num .negInf => rfl
  | .arr xs => by simpa [normalize, isJson] using isJsonElems_normalize xs
  | .obj ps => by
    have := buildProps_json _ (isJsonProps_normalize ps)
    simp [normalize, isJson, this.1, this.2]
theorem isJsonElems_normalize : ∀ (xs : List JsVal), isJsonElems (normalizeElems xs) = true
  | [] => rfl
  | x :: xs => by
    simp [normalizeElems, isJsonElems, isJson_normalize x, isJsonElems_normalize xs]
theorem isJsonProps_normalize : ∀ (ps : List (String × JsVal)),
    isJsonProps (normalizeProps ps) = true
  | [] => rfl
  | (k, v) :: ps => by
    cases hsv : serialize v with
    | none => simpa [normalizeProps, hsv] using isJsonProps_normalize ps
    | some sv =>
      simp [normalizeProps, hsv, isJsonProps, isJson_normalize v, isJsonProps_normalize ps]
end

/-! ## The recursion bound of the parser is never the reason of a failure -/

theorem skipWs_length (cs : List Char) : (skipWs cs).length ≤ cs.length := by
  induction cs with
  | nil => simp [skipWs]
  | cons c cs ih =>
    simp only [skipWs]
    split
    · simp; omega
    · simp

theorem expect_length (ps cs r : List Char) (h : expect ps cs = some r) :
    r.length + ps.length = cs.length := by
  induction ps generalizing cs with
  | nil => simp [expect] at h; subst h; simp
  | cons p ps ih =>
    cases cs with
    | nil => simp [expect] at h
    | cons c cs =>
      simp only [expect] at h
      split at h
      · have := ih cs h; simp; omega
      · cases h

theorem lowSurrogate_length (cs r : List Char) (lo : Nat)
    (h : lowSurrogate cs = some (lo, r)) : r.length < cs.length := by
  unfold lowSurrogate at h
  split at h
  · split at h
    · split at h
      · split at h
        · simp at h; obtain ⟨-, rfl⟩ := h; simp; omega
        · cases h
      · cases h
    · cases h
  · cases h

theorem readUnicode_length (cs r : List Char) (ch : Char)
    (h : readUnicode cs = some (ch, r)) : r.length < cs.length := by
  unfold readUnicode at h
  split at h
  · split at h
    · cases h
    · split at h
      · simp at h; obtain ⟨-, rfl⟩ := h; simp; omega
      · split at h
        · split at h
          · rename_i hl
            have := lowSurrogate_length _ _ _ hl
            simp at h; obtain ⟨-, rfl⟩ := h; simp; omega
          · cases h
        · cases h
  · cases h

theorem readChar_length (cs r : List Char) (ch : Char)
    (h : readChar cs = some (ch, r)) : r.length < cs.length := by
  unfold readChar at h
  split at h
  · cases h
  · split at h
    · split at h
      · cases h
      · split at h
        · have := readUnicode_length _ _ _ h; simp; omega
        · split at h
          · simp at h; obtain ⟨-, rfl⟩ := h; simp; omega
          · cases h
    · split at h
      · cases h
      · simp at h; obtain ⟨-, rfl⟩ := h; simp

theorem parseStrBody_length (fuel : Nat) (cs s r : List Char)
    (h : parseStrBody fuel cs = some (s, r)) : r.length < cs.length := by
  induction fuel generalizing cs s with
  | zero => simp [parseStrBody] at h
  | succ f ih =>
    simp only [parseStrBody] at h
    split at h
    · cases h
    · split at h
      · simp at h; obtain ⟨-, rfl⟩ := h; simp
      · split at h
        · cases h
        · rename_i hr
          have h1 := readChar_length _ _ _ hr
          split at h
          · rename_i hp
            simp at h; obtain ⟨-, rfl⟩ := h
            have h2 := ih _ _ hp
            omega
          · cases h

theorem parseString_length (cs r : List Char) (s : String)
    (h : parseString cs = some (s, r)) : r.length < cs.length := by
  unfold parseString at h
  split at h
  · rename_i hp
    have := parseStrBody_length _ _ _ _ hp
    simp at h; obtain ⟨-, rfl⟩ := h; exact this
  · cases h

theorem parseDigits_length (cs : List Char) (acc : Nat) :
    (parseDigits cs acc).2.length ≤ cs.length := by
  induction cs generalizing acc with
  | nil => simp [parseDigits]
  | cons c cs ih =>
    simp only [parseDigits]
    split
    · have := ih (acc * 10 + (c.toNat - 48)); simp; omega
    · simp

theorem parseNat_length (cs r : List Char) (n : Nat) (h : parseNat cs = some (n, r)) :
    r.length < cs.length := by
  unfold parseNat at h
  split at h
  · cases h
  · split at h
    · simp at h; obtain ⟨-, rfl⟩ := h; simp
    · split at h
      · rename_i c cs2 _ _
        have := parseDigits_length cs2 (c.toNat - 48)
        simp at h
        rw [h] at this
        simp at this ⊢
        omega
      · cases h

theorem parseFractionOpt_length (ip : Nat) (cs r : List Char) (mant c : Nat)
    (h : parseFractionOpt ip cs = some (mant, c, r)) : r.length ≤ cs.length := by
  unfold parseFractionOpt at h
  split at h
  · simp at h; obtain ⟨-, -, rfl⟩ := h; simp
  · split at h
    · rename_i c2 rest _
      unfold parseFraction at h
      split at h
      · cases h
      · split at h
        · rename_i cs2 c3 rest3 _
          have := parseDigits_length (c3 :: rest3) ip
          simp at h; obtain ⟨-, -, rfl⟩ := h
          simp at this ⊢; omega
        · cases h
    · simp at h; obtain ⟨-, -, rfl⟩ := h; simp

theorem parseDigits1_length (cs r : List Char) (n : Nat)
    (h : parseDigits1 cs = some (n, r)) : r.length ≤ cs.length := by
  unfold parseDigits1 at h
  split at h
  · cases h
  · split at h
    · rename_i c rest _
      have := parseDigits_length (c :: rest) 0
      simp at h
      rw [h] at this
      exact this
    · cases h

theorem parseExponentOpt_length (cs r : List Char) (e : Int)
    (h : parseExponentOpt cs = some (e, r)) : r.length ≤ cs.length := by
  unfold parseExponentOpt at h
  split at h
  · simp at h; obtain ⟨-, rfl⟩ := h; simp
  · split at h
    · unfold parseExponent at h
      split at h
      · cases h
      · split at h
        · split at h
          · rename_i hp
            have := parseDigits1_length _ _ _ hp
            simp at h; obtain ⟨-, rfl⟩ := h; simp; omega
          · cases h
        · split at h
          · rename_i hp
            have := parseDigits1_length _ _ _ hp
            simp at h; obtain ⟨-, rfl⟩ := h
            split at this <;> (simp at this ⊢; omega)
          · cases h
    · simp at h; obtain ⟨-, rfl⟩ := h; simp

theorem parseUnsigned_length (neg : Bool) (cs r : List Char) (n : JsNum)
    (h : parseUnsigned neg cs = some (n, r)) : r.length < cs.length := by
  unfold parseUnsigned at h
  split at h
  · cases h
  · rename_i ip r1 hn
    have h1 := parseNat_length _ _ _ hn
    split at h
    · cases h
    · rename_i mant c r2 hf
      have h2 := parseFractionOpt_length _ _ _ _ _ hf
      split at h
      · cases h
      · rename_i ex r3 he
        have h3 := parseExponentOpt_length _ _ _ he
        simp at h; obtain ⟨-, rfl⟩ := h
        omega

theorem parseNumber_length (cs r : List Char) (n : JsNum) (h : parseNumber cs = some (n, r)) :
    r.length < cs.length := by
  unfold parseNumber at h
  split at h
  · cases h
  · split at h
    · have := parseUnsigned_length _ _ _ _ h
      simp; omega
    · exact parseUnsigned_length _ _ _ _ h

/-- A successful run of the parser reads at least one character, and it
succeeds with the same result on every bound that is at least twice the
number of characters read (plus one for the element and member loops). -/
theorem parse_fuel (f : Nat) :
    (∀ cs v r, parseValue f cs = some (v, r) → r.length < cs.length ∧
      ∀ g, 2 * (cs.length - r.length) ≤ g → parseValue g cs = some (v, r)) ∧
    (∀ cs vs r, parseElems f cs = some (vs, r) → r.length < cs.length ∧
      ∀ g, 2 * (cs.length - r.length) + 1 ≤ g → parseElems g cs = some (vs, r)) ∧
    (∀ cs kvs r, parseMembers f cs = some (kvs, r) → r.length < cs.length ∧
      ∀ g, 2 * (cs.length - r.length) + 1 ≤ g → parseMembers g cs = some (kvs, r)) := by
  induction f with
  | zero => simp [parseValue, parseElems, parseMembers]
  | succ f ih =>
    obtain ⟨ihV, ihE, ihM⟩ := ih
    refine ⟨?_, ?_, ?_⟩
    · intro cs v r h
      rw [parseValue] at h
      have hws := skipWs_length cs
      cases hsk : skipWs cs with
      | nil => simp [hsk] at h
      | cons c rest =>
        rw [hsk] at hws
        simp only [List.length_cons] at hws
        simp only [hsk] at h
        by_cases h1 : c = '"'
        · simp only [h1, if_true] at h
          cases hp : parseString rest with
          | none => simp [hp] at h
          | some p =>
            obtain ⟨s, r2⟩ := p
            simp [hp] at h
            obtain ⟨rfl, rfl⟩ := h
            have := parseString_length _ _ _ hp
            refine ⟨by omega, fun g hg => ?_⟩
            obtain ⟨g2, rfl⟩ : ∃ g2, g = g2 + 1 := ⟨g - 1, by omega⟩
            simp [parseValue, hsk, h1, hp]
        · simp only [h1, if_false] at h
          by_cases h2 : c = '['
          · simp only [h2, if_true] at h
            have hws2 := skipWs_length rest
            cases hsk2 : skipWs rest with
            | nil => simp [hsk2] at h
            | cons c2 r2 =>
              rw [hsk2] at hws2
              simp only [List.length_cons] at hws2
              simp only [hsk2] at h
              by_cases h3 : c2 = ']'
              · simp [h3] at h
                obtain ⟨rfl, rfl⟩ := h
                refine ⟨by omega, fun g hg => ?_⟩
                obtain ⟨g2, rfl⟩ : ∃ g2, g = g2 + 1 := ⟨g - 1, by omega⟩
                simp [parseValue, hsk, h2, hsk2, h3]
              · simp only [h3, if_false] at h
                cases hp : parseElems f (c2 :: r2) with
                | none => simp [hp] at h
                | some p =>
                  obtain ⟨vs, r3⟩ := p
                  simp [hp] at h
                  obtain ⟨rfl, rfl⟩ := h
                  obtain ⟨hl, hg2⟩ := ihE _ _ _ hp
                  simp only [List.length_cons] at hl hg2
                  refine ⟨by omega, fun g hg => ?_⟩
                  obtain ⟨g2, rfl⟩ : ∃ g2, g = g2 + 1 := ⟨g - 1, by omega⟩
                  have := hg2 g2 (by omega)
                  simp [parseValue, hsk, h2, hsk2, h3, this]
          · simp only [h2, if_false] at h
            by_cases h4 : c = '{'
            · simp only [h4, if_true] at h
              have hws2 := skipWs_length rest
              cases hsk2 : skipWs rest with
              | nil => simp [hsk2] at h
              | cons c2 r2 =>
                rw [hsk2] at hws2
                simp only [List.length_cons] at hws2
                simp only [hsk2] at h
                by_cases h3 : c2 = '}'
                · simp [h3] at h
                  obtain ⟨rfl, rfl⟩ := h
                  refine ⟨by omega, fun g hg => ?_⟩
                  obtain ⟨g2, rfl⟩ : ∃ g2, g = g2 + 1 := ⟨g - 1, by omega⟩
                  simp [parseValue, hsk, h4, hsk2, h3]
                · simp only [h3, if_false] at h
                  cases hp : parseMembers f (c2 :: r2) with
                  | none => simp [hp] at h
                  | some p =>
                    obtain ⟨kvs, r3⟩ := p
                    simp [hp] at h
                    obtain ⟨rfl, rfl⟩ := h
                    obtain ⟨hl, hg2⟩ := ihM _ _ _ hp
                    simp only [List.length_cons] at hl hg2
                    refine ⟨by omega, fun g hg => ?_⟩
                    obtain ⟨g2, rfl⟩ : ∃ g2, g = g2 + 1 := ⟨g - 1, by omega⟩
                    have := hg2 g2 (by omega)
                    simp [parseValue, hsk, h4, hsk2, h3, this]
            · simp only [h4, if_false] at h
              by_cases h5 : c = 'n'
              · simp only [h5, if_true] at h
                cases hp : expect ['u', 'l', 'l'] rest with
                | none => simp [hp] at h
                | some r2 =>
                  simp [hp] at h
                  obtain ⟨rfl, rfl⟩ := h
                  have := expect_length _ _ _ hp
                  refine ⟨by omega, fun g hg => ?_⟩
                  obtain ⟨g2, rfl⟩ : ∃ g2, g = g2 + 1 := ⟨g - 1, by omega⟩
                  simp [parseValue, hsk, h5, hp]
              · simp only [h5, if_false] at h
                by_cases h6 : c = 't'
                · simp only [h6, if_true] at h
                  cases hp : expect ['r', 'u', 'e'] rest with
                  | none => simp [hp] at h
                  | some r2 =>
                    simp [hp] at h
                    obtain ⟨rfl, rfl⟩ := h
                    have := expect_length _ _ _ hp
                    refine ⟨by omega, fun g hg => ?_⟩
                    obtain ⟨g2, rfl⟩ : ∃ g2, g = g2 + 1 := ⟨g - 1, by omega⟩
                    simp [parseValue, hsk, h6, hp]
                · simp only [h6, if_false] at h
                  by_cases h7 : c = 'f'
                  · simp only [h7, if_true] at h
                    cases hp : expect ['a', 'l', 's', 'e'] rest with
                    | none => simp [hp] at h
                    | some r2 =>
                      simp [hp] at h
                      obtain ⟨rfl, rfl⟩ := h
                      have := expect_length _ _ _ hp
                      refine ⟨by omega, fun g hg => ?_⟩
                      obtain ⟨g2, rfl⟩ : ∃ g2, g = g2 + 1 := ⟨g - 1, by omega⟩
                      simp [parseValue, hsk, h7, hp]
                  · simp only [h7, if_false] at h
                    cases hp : parseNumber (c :: rest) with
                    | none => simp [hp] at h
                    | some p =>
                      obtain ⟨n, r2⟩ := p
                      simp [hp] at h
                      obtain ⟨rfl, rfl⟩ := h
                      have := parseNumber_length _ _ _ hp
                      simp only [List.length_cons] at this
                      refine ⟨by omega, fun g hg => ?_⟩
                      obtain ⟨g2, rfl⟩ : ∃ g2, g = g2 + 1 := ⟨g - 1, by omega⟩
                      simp [parseValue, hsk, h1, h2, h4, h5, h6, h7, hp]
    · intro cs vs r h
      rw [parseElems] at h
      cases hv : parseValue f cs with
      | none => simp [hv] at h
      | some p =>
        obtain ⟨v, rest⟩ := p
        simp only [hv] at h
        obtain ⟨hl, hg1⟩ := ihV _ _ _ hv
        have hws := skipWs_length rest
        cases hsk : skipWs rest with
        | nil => simp [hsk] at h
        | cons c r2 =>
          rw [hsk] at hws
          simp only [List.length_cons] at hws
          simp only [hsk] at h
          by_cases h1 : c = ','
          · simp only [h1, if_true] at h
            cases hp : parseElems f r2 with
            | none => simp [hp] at h
            | some p2 =>
              obtain ⟨vs2, r3⟩ := p2
              simp [hp] at h
              obtain ⟨rfl, rfl⟩ := h
              obtain ⟨hl2, hg2⟩ := ihE _ _ _ hp
              refine ⟨by omega, fun g hg => ?_⟩
              obtain ⟨g2, rfl⟩ : ∃ g2, g = g2 + 1 := ⟨g - 1, by omega⟩
              have e1 := hg1 g2 (by omega)
              have e2 := hg2 g2 (by omega)
              simp [parseElems, e1, hsk, h1, e2]
          · simp only [h1, if_false] at h
            by_cases h2 : c = ']'
            · simp [h2] at h
              obtain ⟨rfl, rfl⟩ := h
              refine ⟨by omega, fun g hg => ?_⟩
              obtain ⟨g2, rfl⟩ : ∃ g2, g = g2 + 1 := ⟨g - 1, by omega⟩
              have e1 := hg1 g2 (by omega)
              simp [parseElems, e1, hsk, h2]
            · simp [h2] at h
    · intro cs kvs r h
      rw [parseMembers] at h
      have hws0 := skipWs_length cs
      cases hsk0 : skipWs cs with
      | nil => simp [hsk0] at h
      | cons q r0 =>
        rw [hsk0] at hws0
        simp only [List.length_cons] at hws0
        simp only [hsk0] at h
        by_cases hq : q = '"'
        · simp only [hq, if_true] at h
          cases hs : parseString r0 with
          | none => simp [hs] at h
          | some p0 =>
            obtain ⟨k, r1⟩ := p0
            simp only [hs] at h
            have hl0 := parseString_length _ _ _ hs
            have hws1 := skipWs_length r1
            cases hsk1 : skipWs r1 with
            | nil => simp [hsk1] at h
            | cons col r2 =>
              rw [hsk1] at hws1
              simp only [List.length_cons] at hws1
              simp only [hsk1] at h
              by_cases hc : col = ':'
              · simp only [hc, if_true] at h
                cases hv : parseValue f r2 with
                | none => simp [hv] at h
                | some p =>
                  obtain ⟨v, r3⟩ := p
                  simp only [hv] at h
                  obtain ⟨hl, hg1⟩ := ihV _ _ _ hv
                  have hws := skipWs_length r3
                  cases hsk : skipWs r3 with
                  | nil => simp [hsk] at h
                  | cons c r4 =>
                    rw [hsk] at hws
                    simp only [List.length_cons] at hws
                    simp only [hsk] at h
                    by_cases h1 : c = ','
                    · simp only [h1, if_true] at h
                      cases hp : parseMembers f r4 with
                      | none => simp [hp] at h
                      | some p2 =>
                        obtain ⟨kvs2, r5⟩ := p2
                        simp [hp] at h
                        obtain ⟨rfl, rfl⟩ := h
                        obtain ⟨hl2, hg2⟩ := ihM _ _ _ hp
                        refine ⟨by omega, fun g hg => ?_⟩
                        obtain ⟨g2, rfl⟩ : ∃ g2, g = g2 + 1 := ⟨g - 1, by omega⟩
                        have e1 := hg1 g2 (by omega)
                        have e2 := hg2 g2 (by omega)
                        simp [parseMembers, hsk0, hq, hs, hsk1, hc, e1, hsk, h1, e2]
                    · simp only [h1, if_false] at h
                      by_cases h2 : c = '}'
                      · simp [h2] at h
                        obtain ⟨rfl, rfl⟩ := h
                        refine ⟨by omega, fun g hg => ?_⟩
                        obtain ⟨g2, rfl⟩ : ∃ g2, g = g2 + 1 := ⟨g - 1, by omega⟩
                        have e1 := hg1 g2 (by omega)
                        simp [parseMembers, hsk0, hq, hs, hsk1, hc, e1, hsk, h2]
                      · simp [h2] at h
              · simp [hc] at h
        · simp [hq] at h

/-- A text that the parser reads with some recursion bound, up to trailing
white space, is read by `JSONparse`: its own bound is large enough. -/
theorem JSONparse_of_parseValue (text : String) (f : Nat) (v : JsVal) (r : List Char)
    (h : parseValue f text.toList = some (v, r)) (hr : skipWs r = []) :
    JSONparse text = some v := by
  obtain ⟨-, hg⟩ := (parse_fuel f).1 _ _ _ h
  have hlen : text.toList.length = text.length := rfl
  have := hg (2 * text.length + 2) (by omega)
  unfold JSONparse
  rw [this]
  simp only [hr, if_true]

/-- The bound of `parseString`, the length of the input, is large enough:
a string read with any bound is read with that one. -/
theorem parseStrBody_fuel (f : Nat) (cs s r : List Char)
    (h : parseStrBody f cs = some (s, r)) :
    ∀ g, cs.length ≤ g → parseStrBody g cs = some (s, r) := by
  induction f generalizing cs s with
  | zero => simp [parseStrBody] at h
  | succ f ih =>
    intro g hg
    cases cs with
    | nil => simp [parseStrBody] at h
    | cons c rest =>
      obtain ⟨g2, rfl⟩ : ∃ g2, g = g2 + 1 := ⟨g - 1, by simp at hg; omega⟩
      simp only [parseStrBody] at h
      by_cases h1 : c = '"'
      · simp [h1] at h
        obtain ⟨rfl, rfl⟩ := h
        simp [parseStrBody, h1]
      · simp only [h1, if_false] at h
        cases hc : readChar (c :: rest) with
        | none => simp [hc] at h
        | some p =>
          obtain ⟨ch, r2⟩ := p
          simp only [hc] at h
          have hl := readChar_length _ _ _ hc
          cases hp : parseStrBody f r2 with
          | none => simp [hp] at h
          | some p2 =>
            obtain ⟨s2, r3⟩ := p2
            simp [hp] at h
            obtain ⟨rfl, rfl⟩ := h
            have := ih _ _ hp g2 (by simp at hg hl; omega)
            simp [parseStrBody, h1, hc, this]

theorem parseString_of_parseStrBody (f : Nat) (cs s r : List Char)
    (h : parseStrBody f cs = some (s, r)) : parseString cs = some (String.mk s, r) := by
  unfold parseString
  rw [parseStrBody_fuel f cs s r h cs.length (le_refl _)]

/-! ## The codec -/

/-- The three ways the setter ends: `JSON.stringify` throws and `"[]"` is
stored, it returns `undefined` and `undefined` is stored, or it returns a
string and the string is stored. -/
theorem listsSet_cases (x : JsVal) :
    (stringifyThrows (jsOr x (.arr [])) = true ∧ listsSet x = .ok (.str "[]")) ∨
    (stringifyThrows (jsOr x (.arr [])) = false ∧ serialize (jsOr x (.arr [])) = none ∧
      listsSet x = .ok .undefined) ∨
    (∃ s, stringifyThrows (jsOr x (.arr [])) = false ∧ serialize (jsOr x (.arr [])) = some s ∧
      listsSet x = .ok (.str (String.mk s))) := by
  cases ht : stringifyThrows (jsOr x (.arr [])) with
  | true => left; exact ⟨rfl, by simp [listsSet, JSONstringify, ht]; rfl⟩
  | false =>
    right
    cases hs : serialize (jsOr x (.arr [])) with
    | none => left; exact ⟨rfl, rfl, by simp [listsSet, JSONstringify, ht, hs, toRaw]⟩
    | some s => right; exact ⟨s, rfl, rfl, by simp [listsSet, JSONstringify, ht, hs, toRaw]⟩

theorem listsGet_serialize (v : JsVal) (s : List Char) (h : serialize v = some s) :
    listsGet (.str (String.mk s)) = normalize v := by
  obtain ⟨h1, h2⟩ := JSONparse_serialize v s h
  simp [listsGet, h1, h2]

/-- The getter applied to what the setter stored. -/
theorem listsGet_listsSet (x : JsVal) :
    ∃ raw, listsSet x = .ok raw ∧
      (listsGet raw = .arr [] ∨
        (stringifyThrows (jsOr x (.arr [])) = false ∧ listsGet raw = normalize (jsOr x (.arr [])))) := by
  rcases listsSet_cases x with ⟨-, h⟩ | ⟨-, -, h⟩ | ⟨s, h1, h2, h⟩
  · exact ⟨_, h, Or.inl rfl⟩
  · exact ⟨_, h, Or.inl rfl⟩
  · exact ⟨_, h, Or.inr ⟨h1, listsGet_serialize _ s h2⟩⟩

/-- What the setter stored for an array decodes to an array. -/
theorem listsSet_arr_decodes (xs : List JsVal) :
    ∃ raw ys, listsSet (.arr xs) = .ok raw ∧ listsGet raw = .arr ys := by
  obtain ⟨raw, h1, h2⟩ := listsGet_listsSet (.arr xs)
  rcases h2 with h2 | ⟨-, h2⟩
  · exact ⟨raw, [], h1, h2⟩
  · exact ⟨raw, normalizeElems xs, h1, by simpa [jsOr, truthy, normalize] using h2⟩

/-- The setter followed by the getter is the identity on truthy JSON data. -/
theorem codec_roundtrip (v : JsVal) (hj : isJson v = true) (ht : truthy v = true) :
    ∃ raw, listsSet v = .ok raw ∧ listsGet raw = v := by
  have hor : jsOr v (.arr []) = v := by simp [jsOr, ht]
  obtain ⟨s, hs⟩ := Option.isSome_iff_exists.1 (serialize_isSome_of_json v hj)
  rcases listsSet_cases v with ⟨h, -⟩ | ⟨-, h, -⟩ | ⟨s2, -, h2, h⟩
  · rw [hor, stringifyThrows_json v hj] at h; exact absurd h (by simp)
  · rw [hor, hs] at h; exact absurd h (by simp)
  · rw [hor] at h2
    exact ⟨_, h, by rw [listsGet_serialize v s2 h2, normalize_json v hj]⟩

theorem isJson_task (t : Task) : isJson t.toJs = true := by
  simp [Task.toJs, isJson, isJsonProps, keysOrdered]
  decide

theorem isJson_tasks (ts : List Task) : isJsonElems (ts.map Task.toJs) = true := by
  rw [isJsonElems_iff]
  intro x hx
  obtain ⟨t, -, rfl⟩ := List.mem_map.1 hx
  exact isJson_task t

theorem isJson_taskList (l : TaskList) : isJson l.toJs = true := by
  simp [TaskList.toJs, isJson, isJsonProps, keysOrdered, isJson_tasks]
  decide

theorem isJson_listsToJs (L : List TaskList) : isJson (listsToJs L) = true := by
  simp only [listsToJs, isJson]
  rw [isJsonElems_iff]
  intro x hx
  obtain ⟨l, -, rfl⟩ := List.mem_map.1 hx
  exact isJson_taskList l

/-! ## The claims about the codec -/

/-- C1: for every valid list sequence `L`, the getter applied to what the
setter stored for `L` returns `L`: the same lists in the same order with the
same ids, titles and tasks. -/
theorem C1_decode_encode_valid_lists (L : List TaskList) :
    ∃ raw, listsSet (listsToJs L) = .ok raw ∧ listsGet raw = listsToJs L :=
  codec_roundtrip (listsToJs L) (isJson_listsToJs L) rfl

/-- C2: for a raw value that is absent (`null`, `undefined`, the empty
string) or a string that does not parse as JSON, the getter returns the
empty sequence; the getter is a total function, it does not raise. -/
theorem C2_decode_absent_or_unparseable (raw : Raw)
    (h : raw = .undefined ∨ raw = .null ∨ raw = .str "" ∨
      ∃ s, raw = .str s ∧ JSONparse s = none) :
    listsGet raw = .arr [] := by
  rcases h with h | h | h | ⟨s, h, hp⟩ <;> subst h
  · rfl
  · rfl
  · rfl
  · simp only [listsGet, hp]
    split <;> rfl

theorem C2_decode_absent_or_unparseable_witness :
    JSONparse "invalid-json" = none ∧ listsGet (.str "invalid-json") = .arr [] :=
  ⟨by rfl, C2_decode_absent_or_unparseable (.str "invalid-json")
    (Or.inr (Or.inr (Or.inr ⟨"invalid-json", rfl, by rfl⟩)))⟩

/-- C3: the setter applied to `null` or to `undefined` stores exactly the
string `"[]"`. -/
theorem C3_encode_null_undefined :
    listsSet .null = .ok (.str "[]") ∧ listsSet .undefined = .ok (.str "[]") :=
  ⟨rfl, rfl⟩

/-- C4: the setter applied to a function (or a symbol) does not raise, and it
stores `undefined`: `JSON.stringify` returns `undefined` for such a value
instead of throwing, so the `catch` that stores `"[]"` is not reached. -/
theorem C4_setter_stores_undefined_for_function :
    JSONstringify .func = .ok none ∧ listsSet .func = .ok .undefined ∧
      listsSet .func ≠ .ok (.str "[]") :=
  ⟨rfl, rfl, by simp [listsSet, JSONstringify, jsOr, truthy, stringifyThrows, serialize, toRaw]⟩

/-- C5, counterexample: the stored text `null` decodes to `null` and the
stored text `{}` to an object, neither of which is an array. -/
theorem C5_counterexample :
    listsGet (.str "null") = .null ∧ listsGet (.str "\x7b\x7d") = .obj [] ∧
      ¬ ∀ raw, ∃ xs, listsGet raw = .arr xs := by
  refine ⟨by rfl, by rfl, ?_⟩
  intro h
  obtain ⟨xs, hx⟩ := h (.str "null")
  have : listsGet (.str "null") = .null := by rfl
  rw [this] at hx
  cases hx

/-- C5, amended: for every stored raw value the getter returns the empty
sequence when the value is absent (`undefined`, `null`, the empty string)
and when its text does not parse, and otherwise exactly the value the text
parses to, whatever that value is; every raw value is one of these three
cases. What the setter stored for an array always decodes to an array. -/
theorem C5_decode_result :
    (∀ raw : Raw, raw.absent = true → listsGet raw = .arr []) ∧
    (∀ s, s ≠ "" → JSONparse s = none → listsGet (.str s) = .arr []) ∧
    (∀ s v, s ≠ "" → JSONparse s = some v → listsGet (.str s) = v) ∧
    (∀ raw : Raw, raw.absent = true ∨ ∃ s, raw = .str s ∧ s ≠ "") ∧
    (∀ xs, ∃ raw ys, listsSet (.arr xs) = .ok raw ∧ listsGet raw = .arr ys) := by
  refine ⟨?_, ?_, ?_, ?_, listsSet_arr_decodes⟩
  · intro raw h
    cases raw with
    | undefined => rfl
    | null => rfl
    | str s =>
      have hs : s = "" := by simpa [Raw.absent] using h
      subst hs
      rfl
  · intro s hs hp
    simp [listsGet, hp, hs]
  · intro s v hs hp
    simp [listsGet, hp, hs]
  · intro raw
    cases raw with
    | undefined => exact Or.inl rfl
    | null => exact Or.inl rfl
    | str s =>
      by_cases hs : s = ""
      · left; simp [Raw.absent, hs]
      · exact Or.inr ⟨s, rfl, hs⟩

theorem C5_decode_result_witness :
    listsGet (.str "\x7b\"a\":1\x7d") = .obj [("a", .num (.int 1))] ∧
    listsGet (.str "7") = .num (.int 7) ∧
    listsGet (.str "") = .arr [] :=
  ⟨C5_decode_result.2.2.1 "\x7b\"a\":1\x7d" (.obj [("a", .num (.int 1))]) (by decide) (by rfl),
    C5_decode_result.2.2.1 "7" (.num (.int 7)) (by decide) (by rfl),
    C5_decode_result.1 (.str "") rfl⟩

/-- C7, counterexample: for `x = Infinity` the first pass stores the text
`null` and decodes to `null`; the second pass encodes `null` as `[]` and
decodes to the empty sequence. -/
theorem C7_counterexample :
    listsSet (.num .posInf) = .ok (.str "null") ∧ listsGet (.str "null") = .null ∧
      listsSet .null = .ok (.str "[]") ∧ listsGet (.str "[]") = .arr [] ∧
      listsGet (.str "null") ≠ listsGet (.str "[]") := by
  have h1 : listsGet (.str "null") = .null := by rfl
  have h2 : listsGet (.str "[]") = .arr [] := by rfl
  refine ⟨rfl, h1, rfl, h2, ?_⟩
  rw [h1, h2]
  intro h
  cases h

theorem falsy_json (v : JsVal) (hj : isJson v = true) (hf : truthy v = false) :
    v = .null ∨ v = .bool false ∨ v = .num (.int 0) ∨ v = .str "" := by
  cases v with
  | null => exact Or.inl rfl
  | bool b =>
    cases b
    · exact Or.inr (Or.inl rfl)
    · simp [truthy] at hf
  | num n =>
    cases n with
    | int k =>
      have hk : k = 0 := by simpa [truthy] using hf
      subst hk
      exact Or.inr (Or.inr (Or.inl rfl))
    | frac m k =>
      have hm : m = 0 := by simpa [truthy] using hf
      subst hm
      simp [isJson] at hj
    | nan => simp [isJson] at hj
    | posInf => simp [isJson] at hj
    | negInf => simp [isJson] at hj
  | str s =>
    have hs : s = "" := by simpa [truthy] using hf
    subst hs
    exact Or.inr (Or.inr (Or.inr rfl))
  | arr xs => simp [truthy] at hf
  | obj ps => simp [truthy] at hf
  | undefined => simp [isJson] at hj
  | bigint n => simp [isJson] at hj
  | func => simp [isJson] at hj
  | cyclic => simp [isJson] at hj

/-- C7, amended: let `r1` be what the setter stores for an input value `x`.
When the first pass `Decode(Encode(x))` is truthy, which every array and
every object is, a second encode/decode pass changes nothing. When it is
falsy it is one of `null`, `false`, `0` and `""`, not the empty sequence, and
the second pass stores the text `[]` and yields the empty sequence. -/
theorem C7_second_pass_idempotent (x : JsVal) (r1 : Raw) (h1 : listsSet x = .ok r1) :
    (truthy (listsGet r1) = true →
      ∃ r2, listsSet (listsGet r1) = .ok r2 ∧ listsGet r2 = listsGet r1) ∧
    (((∃ xs, listsGet r1 = .arr xs) ∨ ∃ ps, listsGet r1 = .obj ps) →
      truthy (listsGet r1) = true) ∧
    (truthy (listsGet r1) = false →
      (listsGet r1 = .null ∨ listsGet r1 = .bool false ∨ listsGet r1 = .num (.int 0) ∨
          listsGet r1 = .str "") ∧
        listsGet r1 ≠ .arr [] ∧
        listsSet (listsGet r1) = .ok (.str "[]") ∧ listsGet (.str "[]") = .arr []) := by
  obtain ⟨raw, h2, h3⟩ := listsGet_listsSet x
  rw [h1] at h2
  cases h2
  have hj : isJson (listsGet r1) = true := by
    rcases h3 with h3 | ⟨-, h3⟩
    · rw [h3]; rfl
    · rw [h3]; exact isJson_normalize _
  refine ⟨fun ht => codec_roundtrip _ hj ht, ?_, ?_⟩
  · rintro (⟨xs, h⟩ | ⟨ps, h⟩) <;> rw [h] <;> rfl
  · intro hf
    refine ⟨falsy_json _ hj hf, ?_, ?_, by rfl⟩
    · intro h
      rw [h] at hf
      simp [truthy] at hf
    · have hor : jsOr (listsGet r1) (.arr []) = .arr [] := by simp [jsOr, hf]
      simp only [listsSet, hor]
      rfl

theorem C7_second_pass_idempotent_witness :
    listsSet (.arr [.undefined, .str "a"]) = .ok (.str "[null,\"a\"]") ∧
    truthy (listsGet (.str "[null,\"a\"]")) = true ∧
    (∃ r2, listsSet (listsGet (.str "[null,\"a\"]")) = .ok r2 ∧
      listsGet r2 = listsGet (.str "[null,\"a\"]")) ∧
    listsSet (.num .posInf) = .ok (.str "null") ∧
    listsSet (listsGet (.str "null")) = .ok (.str "[]") :=
  ⟨rfl, by rfl,
    (C7_second_pass_idempotent (.arr [.undefined, .str "a"]) (.str "[null,\"a\"]") rfl).1
      (by rfl),
    rfl,
    ((C7_second_pass_idempotent (.num .posInf) (.str "null") rfl).2.2 (by rfl)).2.2.1⟩

/-! ## What the handlers write -/

theorem findList_arr (lists : JsVal) (listId : String) (xs : List JsVal) (r : Option Nat)
    (h : findList lists listId = .ok (xs, r)) :
    lists = .arr xs ∧ findIndexById xs listId = .ok r := by
  unfold findList at h
  cases lists <;> simp [asArray] at h
  rename_i ys
  cases hf : findIndexById ys listId with
  | error e => simp [hf] at h
  | ok r2 =>
    simp [hf] at h
    exact ⟨by rw [h.1], by rw [← h.1, hf, h.2]⟩

/-- Every operation that ends with a write hands an array to the setter. -/
theorem run_done_arr (o : Operation) (lists l : JsVal) (st : Nat) (b : JsVal)
    (h : o.run lists = .ok (.done l st b)) : ∃ xs, l = .arr xs := by
  cases o with
  | appendList now body =>
    simp only [Operation.run, appendListOp] at h
    split at h
    · cases h
    · split at h
      · cases h
      · simp at h; exact ⟨_, h.1.symm⟩
  | replaceList listId body =>
    simp only [Operation.run, replaceListOp] at h
    split at h
    · cases h
    · cases h
    · simp at h; exact ⟨_, h.1.symm⟩
  | removeList listId =>
    simp only [Operation.run, removeListOp] at h
    split at h
    · cases h
    · cases h
    · simp at h; exact ⟨_, h.1.symm⟩
  | appendTask now listId body =>
    simp only [Operation.run, appendTaskOp] at h
    split at h
    · cases h
    · cases h
    · split at h
      · split at h
        · cases h
        · split at h
          · cases h
          · simp at h; exact ⟨_, h.1.symm⟩
      · cases h
      · cases h
  | replaceTask listId taskId body =>
    simp only [Operation.run, replaceTaskOp] at h
    split at h
    · cases h
    · cases h
    · cases h
    · simp at h; exact ⟨_, h.1.symm⟩
  | removeTask listId taskId =>
    simp only [Operation.run, removeTaskOp] at h
    split at h
    · cases h
    · cases h
    · cases h
    · simp at h; exact ⟨_, h.1.symm⟩

/-- What the setter stores for an array is the text of a JSON array. -/
theorem listsSet_arr (xs : List JsVal) :
    ∃ s ys, listsSet (.arr xs) = .ok (.str s) ∧ JSONparse s = some (.arr ys) := by
  rcases listsSet_cases (.arr xs) with ⟨-, h⟩ | ⟨-, h, -⟩ | ⟨s, -, h2, h⟩
  · exact ⟨"[]", [], h, by rfl⟩
  · cases xs <;> simp [jsOr, truthy, serialize] at h
  · have h3 : serialize (.arr xs) = some s := by simpa [jsOr, truthy] using h2
    exact ⟨_, normalizeElems xs, h, by simpa [normalize] using (JSONparse_serialize _ s h3).1⟩

theorem handle_saved (o : Operation) (found : Option Board) (b : Board)
    (h : (handle o found).saved = some b) :
    ∃ board lists l st body raw, found = some board ∧
      lists = jsOr (listsGet board.lists) (.arr []) ∧
      o.run lists = .ok (.done l st body) ∧ listsSet l = .ok raw ∧
      b = { board with lists := raw } ∧ (handle o found).status = st ∧
      (handle o found).body = body := by
  cases found with
  | none => simp [handle, runHandler] at h
  | some board =>
    cases hr : o.run (jsOr (listsGet board.lists) (.arr [])) with
    | error e => simp [handle, runHandler, hr] at h
    | ok step =>
      cases step with
      | notFound m => simp [handle, runHandler, hr] at h
      | done l st body =>
        cases hs : listsSet l with
        | error e => simp [handle, runHandler, hr, hs] at h
        | ok raw =>
          simp [handle, runHandler, hr, hs] at h
          exact ⟨board, _, l, st, body, raw, rfl, rfl, hr, hs, h.symm,
            by simp [handle, runHandler, hr, hs], by simp [handle, runHandler, hr, hs]⟩

theorem update_lists_last (b : Board) (pre : List (String × JsVal)) (v : JsVal) (raw : Raw)
    (hpre : ∀ p ∈ pre, p.1 = "name" ∨ p.1 = "description" ∨ p.1 = "position")
    (hv : listsSet v = .ok raw) :
    ∃ b2, b.update (pre ++ [("lists", v)]) = .ok b2 ∧ b2.lists = raw := by
  induction pre generalizing b with
  | nil => exact ⟨{ b with lists := raw }, by simp [Board.update, Board.setAttr, hv], rfl⟩
  | cons p pre ih =>
    obtain ⟨k, w⟩ := p
    have hk := hpre (k, w) (by simp)
    have hrest := fun q hq => hpre q (List.mem_cons_of_mem _ hq)
    simp only at hk
    rcases hk with hk | hk | hk <;> subst hk
    · obtain ⟨b2, h1, h2⟩ := ih { b with name := w } hrest
      exact ⟨b2, by simpa [Board.update, Board.setAttr] using h1, h2⟩
    · obtain ⟨b2, h1, h2⟩ := ih { b with description := w } hrest
      exact ⟨b2, by simpa [Board.update, Board.setAttr] using h1, h2⟩
    · obtain ⟨b2, h1, h2⟩ := ih { b with position := w } hrest
      exact ⟨b2, by simpa [Board.update, Board.setAttr] using h1, h2⟩

theorem putBoard_lists (board : Board) (ps : List (String × JsVal)) (v : JsVal) (raw : Raw)
    (hl : lookupProp ps "lists" = v) (ht : truthy v = true) (hv : listsSet v = .ok raw) :
    ∃ b2, (putBoard (some board) (.obj ps)).saved = some b2 ∧ b2.lists = raw := by
  have hd : ∃ pre, putBoardUpdateData (.obj ps) = .ok (pre ++ [("lists", v)]) ∧
      ∀ p ∈ pre, p.1 = "name" ∨ p.1 = "description" ∨ p.1 = "position" := by
    refine ⟨(if truthy (lookupProp ps "name") = true then [("name", lookupProp ps "name")] else []) ++
      (if isDefined (lookupProp ps "description") = true
        then [("description", lookupProp ps "description")] else []) ++
      (if isDefined (lookupProp ps "position") = true
        then [("position", lookupProp ps "position")] else []),
      by simp [putBoardUpdateData, getField, hl, ht], ?_⟩
    intro p hp
    simp only [List.mem_append] at hp
    rcases hp with (hp | hp) | hp
    · split at hp <;> simp at hp; subst hp; simp
    · split at hp <;> simp at hp; subst hp; simp
    · split at hp <;> simp at hp; subst hp; simp
  obtain ⟨pre, h1, h2⟩ := hd
  obtain ⟨b2, h3, h4⟩ := update_lists_last board pre v raw h2 hv
  exact ⟨b2, by simp [putBoard, h1, h3], h4⟩

/-- C6, counterexample: the direct update `PUT /:id` with the body
`{"lists": "x"}` writes the text `"x"` (with its quotes) through the setter:
valid JSON whose top-level value is a string, not an array. -/
theorem C6_counterexample :
    (putBoard (some emptyBoard) (.obj [("lists", .str "x")])).saved.map (fun b => b.lists)
        = some (.str "\"x\"") ∧
      JSONparse "\"x\"" = some (.str "x") ∧
      ¬ ∃ ys, JSONparse "\"x\"" = some (.arr ys) := by
  have h : JSONparse "\"x\"" = some (.str "x") := by rfl
  refine ⟨by rfl, h, ?_⟩
  rintro ⟨ys, hy⟩
  rw [h] at hy
  cases hy

/-- C6, amended: the row saved by any of the six list/task handlers, and the
row saved by a direct board update whose `lists` field is an array, holds in
its `lists` column a text that parses as JSON to an array. -/
theorem C6_written_raw_is_json_array (b : Board)
    (h : (∃ o found, (handle o found).saved = some b) ∨
      (∃ board ps xs, lookupProp ps "lists" = .arr xs ∧
        (putBoard (some board) (.obj ps)).saved = some b)) :
    ∃ s ys, b.lists = .str s ∧ JSONparse s = some (.arr ys) := by
  rcases h with ⟨o, found, h⟩ | ⟨board, ps, xs, hl, h⟩
  · obtain ⟨board, lists, l, st, body, raw, -, -, hrun, hset, hb, -, -⟩ := handle_saved o found b h
    obtain ⟨xs, hx⟩ := run_done_arr o lists l st body hrun
    subst hx
    obtain ⟨s, ys, h1, h2⟩ := listsSet_arr xs
    rw [h1] at hset
    cases hset
    exact ⟨s, ys, by rw [hb], h2⟩
  · obtain ⟨s, ys, h1, h2⟩ := listsSet_arr xs
    obtain ⟨b2, h3, h4⟩ := putBoard_lists board ps (.arr xs) (.str s) hl rfl h1
    rw [h] at h3
    cases h3
    exact ⟨s, ys, h4, h2⟩

theorem C6_written_raw_is_json_array_witness :
    (handle (.appendList 1700000000000 (.obj [("title", .str "New List")]))
        (some emptyBoard)).saved
      = some { emptyBoard with
          lists := .str "[\x7b\"id\":\"1700000000000\",\"title\":\"New List\",\"tasks\":[]\x7d]" } ∧
    ∃ s ys, (Raw.str "[\x7b\"id\":\"1700000000000\",\"title\":\"New List\",\"tasks\":[]\x7d]") = .str s ∧
      JSONparse s = some (.arr ys) :=
  ⟨by rfl, C6_written_raw_is_json_array
    { emptyBoard with
      lists := .str "[\x7b\"id\":\"1700000000000\",\"title\":\"New List\",\"tasks\":[]\x7d]" }
    (Or.inl ⟨.appendList 1700000000000 (.obj [("title", .str "New List")]), some emptyBoard,
      by rfl⟩)⟩
/-! ## Append List -/

theorem stringifyThrowsElems_append (xs ys : List JsVal) :
    stringifyThrowsElems (xs ++ ys) = (stringifyThrowsElems xs || stringifyThrowsElems ys) := by
  induction xs with
  | nil => simp [stringifyThrowsElems]
  | cons x xs ih => simp [stringifyThrowsElems, ih, Bool.or_assoc]

theorem normalizeElems_append (xs ys : List JsVal) :
    normalizeElems (xs ++ ys) = normalizeElems xs ++ normalizeElems ys := by
  induction xs with
  | nil => simp [normalizeElems]
  | cons x xs ih => simp [normalizeElems, ih]

/-- The getter applied to what the setter stored for an array that
`JSON.stringify` accepts. -/
theorem listsGet_listsSet_arr (xs : List JsVal) (h : stringifyThrowsElems xs = false) :
    ∃ raw, listsSet (.arr xs) = .ok raw ∧ listsGet raw = .arr (normalizeElems xs) := by
  rcases listsSet_cases (.arr xs) with ⟨h1, -⟩ | ⟨-, h1, -⟩ | ⟨s, -, h2, h3⟩
  · simp [jsOr, truthy, stringifyThrows, h] at h1
  · cases xs <;> simp [jsOr, truthy, serialize] at h1
  · have h4 : serialize (.arr xs) = some s := by simpa [jsOr, truthy] using h2
    exact ⟨_, h3, by rw [listsGet_serialize _ s h4]; simp [normalize]⟩

theorem lookupProp_json (ps : List (String × JsVal)) (k : String)
    (h : isJsonProps ps = true) :
    lookupProp ps k = .undefined ∨ isJson (lookupProp ps k) = true := by
  unfold lookupProp
  cases hf : ps.find? (fun p => p.1 == k) with
  | none => left; rfl
  | some p =>
    right
    exact (isJsonProps_iff ps).1 h p (List.mem_of_find?_eq_some hf)

/-- The object `newList` of the handler. -/
theorem normalize_newList (id : String) (t : JsVal)
    (ht : t = .undefined ∨ isJson t = true) :
    stringifyThrows (.obj [("id", .str id), ("title", t), ("tasks", .arr [])]) = false ∧
    normalize (.obj [("id", .str id), ("title", t), ("tasks", .arr [])])
      = (if isDefined t then .obj [("id", .str id), ("title", t), ("tasks", .arr [])]
         else .obj [("id", .str id), ("tasks", .arr [])]) := by
  rcases ht with ht | ht
  · subst ht
    exact ⟨rfl, by rfl⟩
  · have h1 := stringifyThrows_json t ht
    obtain ⟨s, hs⟩ := Option.isSome_iff_exists.1 (serialize_isSome_of_json t ht)
    have hd : isDefined t = true := by cases t <;> simp [isJson] at ht <;> rfl
    refine ⟨by simp [stringifyThrows, stringifyThrowsProps, h1, stringifyThrowsElems], ?_⟩
    have hk : keysOrdered [("id", JsVal.str id), ("title", t), ("tasks", JsVal.arr [])] = true := by
      simp [keysOrdered]; decide
    simp [normalize, normalizeProps, serialize, hs, normalize_json t ht, normalizeElems, hd,
      buildProps_ordered _ hk]

theorem appendListOp_arr (now : Nat) (ps : List (String × JsVal)) (xs : List JsVal) :
    appendListOp now (.obj ps) (.arr xs)
      = .ok (.done (.arr (xs ++ [.obj [("id", .str (toString now)),
          ("title", lookupProp ps "title"), ("tasks", .arr [])]])) 201
          (.obj [("id", .str (toString now)), ("title", lookupProp ps "title"),
            ("tasks", .arr [])])) := by
  simp [appendListOp, getField, asArray]

/-- C8: on a board whose `lists` decode to the valid sequence `L`, with a
request body that is a JSON object (with or without a title), POST /:id/lists
answers 201 with the new list `{id, title, tasks: []}`, hands `L` followed by
that one list to the setter and saves the row; what is saved decodes to `L`
followed by the new list (without a `title` key when the title is absent). -/
theorem C8_append_list (L : List TaskList) (board : Board) (now : Nat)
    (ps : List (String × JsVal))
    (hL : listsGet board.lists = listsToJs L) (hbody : isJson (.obj ps) = true) :
    let newList := JsVal.obj [("id", .str (toString now)), ("title", lookupProp ps "title"),
      ("tasks", .arr [])]
    appendListOp now (.obj ps) (listsToJs L)
        = .ok (.done (.arr (L.map TaskList.toJs ++ [newList])) 201 newList) ∧
      ∃ raw, listsSet (.arr (L.map TaskList.toJs ++ [newList])) = .ok raw ∧
        postList now (some board) (.obj ps) = ⟨201, newList, some { board with lists := raw }⟩ ∧
        listsGet raw = .arr (L.map TaskList.toJs ++
          [if isDefined (lookupProp ps "title") then newList
           else .obj [("id", .str (toString now)), ("tasks", .arr [])]]) := by
  intro newList
  have hop := appendListOp_arr now ps (L.map TaskList.toJs)
  refine ⟨hop, ?_⟩
  simp only [isJson, Bool.and_eq_true] at hbody
  obtain ⟨hthrow, hnorm⟩ := normalize_newList (toString now) (lookupProp ps "title")
    (lookupProp_json ps "title" hbody.2)
  have hLj : isJsonElems (L.map TaskList.toJs) = true := by
    simpa [listsToJs, isJson] using isJson_listsToJs L
  obtain ⟨raw, h1, h2⟩ := listsGet_listsSet_arr (L.map TaskList.toJs ++ [newList])
    (by simp [stringifyThrowsElems_append, stringifyThrowsElems_json _ hLj, stringifyThrowsElems,
      newList, hthrow])
  refine ⟨raw, h1, ?_, ?_⟩
  · have hor : jsOr (listsGet board.lists) (.arr []) = .arr (L.map TaskList.toJs) := by
      rw [hL]; rfl
    simp only [postList, runHandler, hor, hop, h1]
  · rw [h2, normalizeElems_append, normalizeElems_json _ hLj]
    simp [normalizeElems, newList, hnorm]

theorem C8_append_list_witness :
    listsGet emptyBoard.lists = listsToJs [] ∧
    isJson (.obj [("title", .str "New List")]) = true ∧
    postList 1700000000000 (some emptyBoard) (.obj [("title", .str "New List")])
      = ⟨201, .obj [("id", .str "1700000000000"), ("title", .str "New List"), ("tasks", .arr [])],
          some { emptyBoard with
            lists := .str "[\x7b\"id\":\"1700000000000\",\"title\":\"New List\",\"tasks\":[]\x7d]" }⟩ ∧
    (let newList := JsVal.obj [("id", .str (toString 1700000000000)),
        ("title", lookupProp [("title", .str "New List")] "title"), ("tasks", .arr [])]
     appendListOp 1700000000000 (.obj [("title", .str "New List")]) (listsToJs [])
        = .ok (.done (.arr (([] : List TaskList).map TaskList.toJs ++ [newList])) 201 newList) ∧
      ∃ raw, listsSet (.arr (([] : List TaskList).map TaskList.toJs ++ [newList])) = .ok raw ∧
        postList 1700000000000 (some emptyBoard) (.obj [("title", .str "New List")])
          = ⟨201, newList, some { emptyBoard with lists := raw }⟩ ∧
        listsGet raw = .arr (([] : List TaskList).map TaskList.toJs ++
          [if isDefined (lookupProp [("title", .str "New List")] "title") then newList
           else .obj [("id", .str (toString 1700000000000)), ("tasks", .arr [])]])) :=
  ⟨by rfl, by rfl, by rfl,
    C8_append_list [] emptyBoard 1700000000000 [("title", .str "New List")] (by rfl) (by rfl)⟩
/-! ## The ids Append List generates -/

theorem toDigits_injective (m n : Nat) (h : Nat.toDigits 10 m = Nat.toDigits 10 n) : m = n := by
  have hm := parseNat_toDigits m [] (by intro d hd; simp at hd)
  have hn := parseNat_toDigits n [] (by intro d hd; simp at hd)
  rw [h, hn] at hm
  simpa using hm.symm

/-- The decimal strings of two clock readings are equal only for equal
readings. -/
theorem toString_nat_injective (m n : Nat) (h : toString m = toString n) : m = n := by
  apply toDigits_injective
  have := congrArg String.data h
  simpa [toString, Nat.repr, List.asString] using this

theorem postList_arr (now : Nat) (board : Board) (ps : List (String × JsVal)) (xs : List JsVal)
    (h : listsGet board.lists = .arr xs) :
    ∃ raw ys, postList now (some board) (.obj ps)
        = ⟨201, .obj [("id", .str (toString now)), ("title", lookupProp ps "title"),
            ("tasks", .arr [])], some { board with lists := raw }⟩ ∧
      listsGet raw = .arr ys := by
  obtain ⟨raw, ys, h1, h2⟩ := listsSet_arr_decodes
    (xs ++ [.obj [("id", .str (toString now)), ("title", lookupProp ps "title"),
      ("tasks", .arr [])]])
  refine ⟨raw, ys, ?_, h2⟩
  have hor : jsOr (listsGet board.lists) (.arr []) = .arr xs := by rw [h]; rfl
  simp only [postList, runHandler, hor, appendListOp_arr, h1]

/-- C9, counterexample: two Append List calls one after the other on an
empty board, both at the clock reading 1700000000000, answer with the same
id, and the board then holds two lists with that id. -/
theorem C9_counterexample :
    (postList 1700000000000 (some emptyBoard) (.obj [("title", .str "A")])).saved
      = some { emptyBoard with
          lists := .str "[\x7b\"id\":\"1700000000000\",\"title\":\"A\",\"tasks\":[]\x7d]" } ∧
    fieldOf (postList 1700000000000 (some emptyBoard) (.obj [("title", .str "A")])).body "id"
      = .str "1700000000000" ∧
    fieldOf (postList 1700000000000
      (some { emptyBoard with
        lists := .str "[\x7b\"id\":\"1700000000000\",\"title\":\"A\",\"tasks\":[]\x7d]" })
      (.obj [("title", .str "B")])).body "id" = .str "1700000000000" ∧
    (postList 1700000000000
      (some { emptyBoard with
        lists := .str "[\x7b\"id\":\"1700000000000\",\"title\":\"A\",\"tasks\":[]\x7d]" })
      (.obj [("title", .str "B")])).saved.map (fun b => listsGet b.lists)
      = some (.arr [.obj [("id", .str "1700000000000"), ("title", .str "A"), ("tasks", .arr [])],
          .obj [("id", .str "1700000000000"), ("title", .str "B"), ("tasks", .arr [])]]) ∧
    fieldOf (postList 1700000000000 (some emptyBoard) (.obj [("title", .str "A")])).body "id"
      = fieldOf (postList 1700000000000
          (some { emptyBoard with
            lists := .str "[\x7b\"id\":\"1700000000000\",\"title\":\"A\",\"tasks\":[]\x7d]" })
          (.obj [("title", .str "B")])).body "id" :=
  ⟨by rfl, by rfl, by rfl, by rfl, by rfl⟩

/-- C9, amended: two Append List calls one after the other on a board whose
`lists` decode to an array both answer 201, each with the decimal string of
its clock reading as id; the two ids are distinct exactly when the two clock
readings are distinct. -/
theorem C9_distinct_ids_iff_distinct_clock (board : Board) (xs : List JsVal) (now1 now2 : Nat)
    (ps1 ps2 : List (String × JsVal)) (h : listsGet board.lists = .arr xs) :
    ∃ b1, (postList now1 (some board) (.obj ps1)).saved = some b1 ∧
      (postList now1 (some board) (.obj ps1)).status = 201 ∧
      (postList now2 (some b1) (.obj ps2)).status = 201 ∧
      fieldOf (postList now1 (some board) (.obj ps1)).body "id" = .str (toString now1) ∧
      fieldOf (postList now2 (some b1) (.obj ps2)).body "id" = .str (toString now2) ∧
      (fieldOf (postList now1 (some board) (.obj ps1)).body "id"
          ≠ fieldOf (postList now2 (some b1) (.obj ps2)).body "id" ↔ now1 ≠ now2) := by
  obtain ⟨raw, ys, h1, h2⟩ := postList_arr now1 board ps1 xs h
  obtain ⟨raw2, ys2, h3, -⟩ := postList_arr now2 { board with lists := raw } ps2 ys h2
  refine ⟨{ board with lists := raw }, by rw [h1], by rw [h1], by rw [h3], by rw [h1]; rfl,
    by rw [h3]; rfl, ?_⟩
  rw [h1, h3]
  simp only [fieldOf, lookupProp, List.find?, beq_self_eq_true]
  constructor
  · intro hne he
    exact hne (by rw [he])
  · intro hne he
    simp at he
    exact hne (toString_nat_injective _ _ he)

theorem C9_distinct_ids_iff_distinct_clock_witness :
    listsGet emptyBoard.lists = .arr [] ∧
    ∃ b1, (postList 1700000000000 (some emptyBoard) (.obj [])).saved = some b1 ∧
      (postList 1700000000000 (some emptyBoard) (.obj [])).status = 201 ∧
      (postList 1700000000001 (some b1) (.obj [])).status = 201 ∧
      fieldOf (postList 1700000000000 (some emptyBoard) (.obj [])).body "id"
        = .str (toString 1700000000000) ∧
      fieldOf (postList 1700000000001 (some b1) (.obj [])).body "id"
        = .str (toString 1700000000001) ∧
      (fieldOf (postList 1700000000000 (some emptyBoard) (.obj [])).body "id"
          ≠ fieldOf (postList 1700000000001 (some b1) (.obj [])).body "id"
        ↔ 1700000000000 ≠ 1700000000001) :=
  ⟨by rfl, C9_distinct_ids_iff_distinct_clock emptyBoard [] 1700000000000 1700000000001 [] []
    (by rfl)⟩
/-! ## Lookup by id -/

theorem set_split {α : Type} (pre post : List α) (x y : α) :
    (pre ++ x :: post).set pre.length y = pre ++ y :: post := by
  induction pre with
  | nil => rfl
  | cons a pre ih => simp [List.set, ih]

theorem eraseIdx_split {α : Type} (pre post : List α) (x : α) :
    (pre ++ x :: post).eraseIdx pre.length = pre ++ post := by
  induction pre with
  | nil => rfl
  | cons a pre ih => simp [List.eraseIdx, ih]

theorem getD_split {α : Type} (pre post : List α) (x d : α) :
    (pre ++ x :: post).getD pre.length d = x := by
  induction pre with
  | nil => rfl
  | cons a pre ih => simpa [List.getD] using ih

theorem lookupProp_cons (k : String) (v : JsVal) (ps : List (String × JsVal)) (k2 : String) :
    lookupProp ((k, v) :: ps) k2 = if k = k2 then v else lookupProp ps k2 := by
  by_cases h : k = k2
  · simp [lookupProp, List.find?, h]
  · have hb : (k == k2) = false := by simp [h]
    simp only [lookupProp, List.find?_cons, hb, h, if_false]

/-- What `findIndex` finds: the first element whose `id` is the string, an
object. -/
theorem findIndexById_some (xs : List JsVal) (id : String) (i : Nat)
    (h : findIndexById xs id = .ok (some i)) :
    ∃ pre ps post, xs = pre ++ .obj ps :: post ∧ i = pre.length ∧
      lookupProp ps "id" = .str id ∧ ∀ y ∈ pre, fieldOf y "id" ≠ .str id := by
  induction xs generalizing i with
  | nil => simp [findIndexById] at h
  | cons x xs ih =>
    simp only [findIndexById] at h
    cases hg : getField x "id" with
    | error e => simp [hg] at h
    | ok v =>
      simp only [hg] at h
      by_cases hv : strictEqStr v id = true
      · simp [hv] at h
        subst h
        cases x <;> simp [getField] at hg <;> subst hg <;> simp [strictEqStr] at hv
        rename_i ps
        refine ⟨[], ps, xs, rfl, rfl, ?_, by simp⟩
        cases hl : lookupProp ps "id" <;> rw [hl] at hv <;> simp at hv
        rw [hv]
      · simp only [hv] at h
        cases hr : findIndexById xs id with
        | error e => simp [hr] at h
        | ok r =>
          simp [hr] at h
          cases r with
          | none => simp at h
          | some j =>
            simp at h
            obtain ⟨pre, ps, post, h1, h2, h3, h4⟩ := ih j hr
            refine ⟨x :: pre, ps, post, by simp [h1], by simp [← h, h2], h3, ?_⟩
            intro y hy
            rcases List.mem_cons.1 hy with hy | hy
            · subst hy
              intro he
              apply hv
              cases y <;> simp [getField] at hg <;> subst hg <;> simp [fieldOf] at he
              simp [he, strictEqStr]
            · exact h4 y hy

theorem lookupProp_replaceProp (ps : List (String × JsVal)) (k : String) (v : JsVal)
    (k2 : String) (h : hasKey ps k = true) :
    lookupProp (replaceProp k v ps) k2 = if k = k2 then v else lookupProp ps k2 := by
  induction ps with
  | nil => simp [hasKey] at h
  | cons p ps ih =>
    obtain ⟨k3, v3⟩ := p
    by_cases h3 : k3 = k
    · subst h3
      simp only [replaceProp, if_true, lookupProp_cons]
      by_cases h4 : k3 = k2 <;> simp [h4]
    · have hk : hasKey ps k = true := by
        simp only [hasKey, List.any_cons, Bool.or_eq_true, beq_iff_eq] at h ⊢
        rcases h with h | h
        · exact absurd h h3
        · exact h
      simp only [replaceProp, h3, if_false, lookupProp_cons, ih hk]
      by_cases h4 : k3 = k2
      · have : ¬ k = k2 := fun e => h3 (by rw [h4, e])
        simp [h4, this]
      · simp [h4]

theorem lookupProp_insertProp (ps : List (String × JsVal)) (k : String) (v : JsVal)
    (k2 : String) (h : hasKey ps k = false) :
    lookupProp (insertProp k v ps) k2 = if k = k2 then v else lookupProp ps k2 := by
  induction ps with
  | nil => simp [insertProp, lookupProp_cons]
  | cons p ps ih =>
    obtain ⟨k3, v3⟩ := p
    have h3 : ¬ k3 = k := by
      intro e; simp [hasKey, e] at h
    have hk : hasKey ps k = false := by
      simp only [hasKey, List.any_cons, Bool.or_eq_false_iff] at h ⊢
      exact h.2
    by_cases hb : keyBefore k k3 = true
    · simp only [insertProp, hb, if_true, lookupProp_cons]
    · simp only [insertProp, hb, Bool.false_eq_true, if_false]
      rw [lookupProp_cons, ih hk, lookupProp_cons]
      by_cases h4 : k3 = k2
      · have : ¬ k = k2 := fun e => h3 (by rw [h4, e])
        simp [h4, this]
      · simp [h4]

/-- Reading a property after CreateDataProperty. -/
theorem lookupProp_setProp (ps : List (String × JsVal)) (k : String) (v : JsVal) (k2 : String) :
    lookupProp (setProp ps k v) k2 = if k = k2 then v else lookupProp ps k2 := by
  unfold setProp
  cases h : hasKey ps k with
  | true => simpa using lookupProp_replaceProp ps k v k2 h
  | false => simpa using lookupProp_insertProp ps k v k2 h

theorem lookupProp_foldl_setProp (kvs acc : List (String × JsVal)) (k : String)
    (h : hasKey kvs k = false) :
    lookupProp (kvs.foldl (fun a kv => setProp a kv.1 kv.2) acc) k = lookupProp acc k := by
  induction kvs generalizing acc with
  | nil => rfl
  | cons p kvs ih =>
    obtain ⟨k3, v3⟩ := p
    simp only [hasKey, List.any_cons, Bool.or_eq_false_iff, beq_eq_false_iff_ne] at h
    have hk : hasKey kvs k = false := h.2
    simp only [List.foldl_cons]
    rw [ih _ hk, lookupProp_setProp]
    simp [h.1]

/-- A property the payload does not carry keeps its value in `{...o, ...payload}`. -/
theorem fieldOf_objectSpread (ps : List (String × JsVal)) (payload : JsVal) (k : String)
    (ho : keysOrdered ps = true) (hb : hasKey (spreadProps payload) k = false) :
    fieldOf (objectSpread (.obj ps) payload) k = lookupProp ps k := by
  simp only [fieldOf, objectSpread, buildProps, List.foldl_append]
  rw [lookupProp_foldl_setProp _ _ _ hb]
  simp only [spreadProps]
  have := buildProps_ordered ps ho
  simp only [buildProps] at this
  rw [this]

/-! ## What the operations do on a sequence -/

theorem findList_some (lists : JsVal) (listId : String) (xs : List JsVal) (i : Nat)
    (h : findList lists listId = .ok (xs, some i)) :
    ∃ pre ps post, lists = .arr xs ∧ xs = pre ++ .obj ps :: post ∧ i = pre.length ∧
      lookupProp ps "id" = .str listId ∧ ∀ y ∈ pre, fieldOf y "id" ≠ .str listId := by
  obtain ⟨h1, h2⟩ := findList_arr lists listId xs (some i) h
  obtain ⟨pre, ps, post, h3, h4, h5, h6⟩ := findIndexById_some xs listId i h2
  exact ⟨pre, ps, post, h1, h3, h4, h5, h6⟩

theorem replaceListOp_done (listId : String) (payload lists l : JsVal) (st : Nat) (b : JsVal)
    (h : replaceListOp listId payload lists = .ok (.done l st b)) :
    ∃ pre ps post, lists = .arr (pre ++ .obj ps :: post) ∧
      lookupProp ps "id" = .str listId ∧ (∀ y ∈ pre, fieldOf y "id" ≠ .str listId) ∧
      l = .arr (pre ++ objectSpread (.obj ps) payload :: post) ∧ st = 200 ∧
      b = objectSpread (.obj ps) payload := by
  simp only [replaceListOp] at h
  split at h
  · cases h
  · cases h
  · rename_i xs i hf
    obtain ⟨pre, ps, post, h1, h2, h3, h4, h5⟩ := findList_some lists listId xs i hf
    subst h2 h3
    simp only [getD_split, set_split] at h
    simp at h
    exact ⟨pre, ps, post, h1, h4, h5, h.1.symm, h.2.1.symm, h.2.2.symm⟩

theorem removeListOp_done (listId : String) (lists l : JsVal) (st : Nat) (b : JsVal)
    (h : removeListOp listId lists = .ok (.done l st b)) :
    ∃ pre ps post, lists = .arr (pre ++ .obj ps :: post) ∧
      lookupProp ps "id" = .str listId ∧ (∀ y ∈ pre, fieldOf y "id" ≠ .str listId) ∧
      l = .arr (pre ++ post) ∧ st = 200 ∧ b = message "List deleted" := by
  simp only [removeListOp] at h
  split at h
  · cases h
  · cases h
  · rename_i xs i hf
    obtain ⟨pre, ps, post, h1, h2, h3, h4, h5⟩ := findList_some lists listId xs i hf
    subst h2 h3
    simp only [eraseIdx_split] at h
    simp at h
    exact ⟨pre, ps, post, h1, h4, h5, h.1.symm, h.2.1.symm, h.2.2.symm⟩

theorem appendTaskOp_done (now : Nat) (listId : String) (payload lists l : JsVal) (st : Nat)
    (b : JsVal) (h : appendTaskOp now listId payload lists = .ok (.done l st b)) :
    ∃ pre ps post ts title description, lists = .arr (pre ++ .obj ps :: post) ∧
      lookupProp ps "id" = .str listId ∧ (∀ y ∈ pre, fieldOf y "id" ≠ .str listId) ∧
      lookupProp ps "tasks" = .arr ts ∧
      getField payload "title" = .ok title ∧ getField payload "description" = .ok description ∧
      b = .obj [("id", .str (toString now)), ("title", title),
        ("description", jsOr description (.str "")), ("completed", .bool false)] ∧
      l = .arr (pre ++ .obj (setProp ps "tasks" (.arr (ts ++ [b]))) :: post) ∧ st = 201 := by
  simp only [appendTaskOp] at h
  split at h
  · cases h
  · cases h
  · rename_i xs i hf
    obtain ⟨pre, ps, post, h1, h2, h3, h4, h5⟩ := findList_some lists listId xs i hf
    subst h2 h3
    simp only [getD_split, set_split] at h
    split at h
    · rename_i title description ht hd
      simp only [getField] at h
      cases hts : lookupProp ps "tasks" <;> rw [hts] at h <;> simp [asArray] at h
      rename_i ts
      exact ⟨pre, ps, post, ts, title, description, h1, h4, h5, hts, ht, hd, h.2.2.symm,
        by rw [← h.2.2]; exact h.1.symm, h.2.1.symm⟩
    · cases h
    · cases h

theorem findTask_some (lists : JsVal) (listId taskId : String) (xs ts : List JsVal) (i j : Nat)
    (h : findTask lists listId taskId = .ok (some (xs, i, some (ts, j)))) :
    ∃ pre ps post tpre qs tpost, lists = .arr xs ∧ xs = pre ++ .obj ps :: post ∧
      i = pre.length ∧ lookupProp ps "id" = .str listId ∧
      (∀ y ∈ pre, fieldOf y "id" ≠ .str listId) ∧
      lookupProp ps "tasks" = .arr ts ∧ ts = tpre ++ .obj qs :: tpost ∧ j = tpre.length ∧
      lookupProp qs "id" = .str taskId ∧ ∀ y ∈ tpre, fieldOf y "id" ≠ .str taskId := by
  simp only [findTask] at h
  split at h
  · cases h
  · cases h
  · rename_i xs2 i2 hf
    obtain ⟨pre, ps, post, h1, h2, h3, h4, h5⟩ := findList_some lists listId xs2 i2 hf
    subst h2 h3
    simp only [getD_split, getField] at h
    cases hts : lookupProp ps "tasks" <;> rw [hts] at h <;> simp [asArray] at h
    rename_i ts2
    cases hfi : findIndexById ts2 taskId with
    | error e => simp [hfi] at h
    | ok r =>
      cases r with
      | none => simp [hfi] at h
      | some j2 =>
        simp [hfi] at h
        obtain ⟨tpre, qs, tpost, g1, g2, g3, g4⟩ := findIndexById_some ts2 taskId j2 hfi
        obtain ⟨e1, e2, e3, e4⟩ := h
        subst e1 e2 e3 e4
        exact ⟨pre, ps, post, tpre, qs, tpost, h1, rfl, rfl, h4, h5, hts, g1, g2, g3, g4⟩

theorem replaceTaskOp_done (listId taskId : String) (payload lists l : JsVal) (st : Nat)
    (b : JsVal) (h : replaceTaskOp listId taskId payload lists = .ok (.done l st b)) :
    ∃ pre ps post tpre qs tpost, lists = .arr (pre ++ .obj ps :: post) ∧
      lookupProp ps "id" = .str listId ∧ (∀ y ∈ pre, fieldOf y "id" ≠ .str listId) ∧
      lookupProp ps "tasks" = .arr (tpre ++ .obj qs :: tpost) ∧
      lookupProp qs "id" = .str taskId ∧ (∀ y ∈ tpre, fieldOf y "id" ≠ .str taskId) ∧
      b = objectSpread (.obj qs) payload ∧
      l = .arr (pre ++ .obj (setProp ps "tasks" (.arr (tpre ++ b :: tpost))) :: post) ∧
      st = 200 := by
  simp only [replaceTaskOp] at h
  split at h
  · cases h
  · cases h
  · cases h
  · rename_i xs i ts j hf
    obtain ⟨pre, ps, post, tpre, qs, tpost, h1, h2, h3, h4, h5, h6, h7, h8, h9, h10⟩ :=
      findTask_some lists listId taskId xs ts i j hf
    subst h2 h3 h7 h8
    simp only [getD_split, set_split, setField] at h
    simp at h
    exact ⟨pre, ps, post, tpre, qs, tpost, h1, h4, h5, h6, h9, h10, h.2.2.symm,
      by rw [← h.2.2]; exact h.1.symm, h.2.1.symm⟩

theorem removeTaskOp_done (listId taskId : String) (lists l : JsVal) (st : Nat)
    (b : JsVal) (h : removeTaskOp listId taskId lists = .ok (.done l st b)) :
    ∃ pre ps post tpre qs tpost, lists = .arr (pre ++ .obj ps :: post) ∧
      lookupProp ps "id" = .str listId ∧ (∀ y ∈ pre, fieldOf y "id" ≠ .str listId) ∧
      lookupProp ps "tasks" = .arr (tpre ++ .obj qs :: tpost) ∧
      lookupProp qs "id" = .str taskId ∧ (∀ y ∈ tpre, fieldOf y "id" ≠ .str taskId) ∧
      l = .arr (pre ++ .obj (setProp ps "tasks" (.arr (tpre ++ tpost))) :: post) ∧
      st = 200 ∧ b = message "Task deleted" := by
  simp only [removeTaskOp] at h
  split at h
  · cases h
  · cases h
  · cases h
  · rename_i xs i ts j hf
    obtain ⟨pre, ps, post, tpre, qs, tpost, h1, h2, h3, h4, h5, h6, h7, h8, h9, h10⟩ :=
      findTask_some lists listId taskId xs ts i j hf
    subst h2 h3 h7 h8
    simp only [getD_split, set_split, eraseIdx_split, setField] at h
    simp at h
    exact ⟨pre, ps, post, tpre, qs, tpost, h1, h4, h5, h6, h9, h10, h.1.symm, h.2.1.symm,
      h.2.2.symm⟩

/-! ## Uniqueness of ids -/

theorem idsOf_append (xs ys : List JsVal) : idsOf (xs ++ ys) = idsOf xs ++ idsOf ys := by
  simp [idsOf]

theorem idsOf_cons (x : JsVal) (xs : List JsVal) : idsOf (x :: xs) = fieldOf x "id" :: idsOf xs :=
  rfl

theorem UniqueIds_replace (pre post : List JsVal) (x y : JsVal)
    (hu : UniqueIds (.arr (pre ++ x :: post))) (hid : fieldOf y "id" = fieldOf x "id")
    (ht : ∃ ts, fieldOf y "tasks" = .arr ts ∧ (idsOf ts).Nodup) :
    UniqueIds (.arr (pre ++ y :: post)) := by
  obtain ⟨xs, h1, h2, h3⟩ := hu
  cases h1
  refine ⟨_, rfl, ?_, ?_⟩
  · simpa [idsOf_append, idsOf_cons, hid] using h2
  · intro z hz
    rcases List.mem_append.1 hz with hz | hz
    · exact h3 z (by simp [hz])
    · rcases List.mem_cons.1 hz with hz | hz
      · subst hz; exact ht
      · exact h3 z (by simp [hz])

theorem UniqueIds_remove (pre post : List JsVal) (x : JsVal)
    (hu : UniqueIds (.arr (pre ++ x :: post))) : UniqueIds (.arr (pre ++ post)) := by
  obtain ⟨xs, h1, h2, h3⟩ := hu
  cases h1
  refine ⟨_, rfl, ?_, ?_⟩
  · rw [idsOf_append, idsOf_cons, List.nodup_middle] at h2
    rw [idsOf_append]
    exact h2.of_cons
  · intro z hz
    rcases List.mem_append.1 hz with hz | hz
    · exact h3 z (by simp [hz])
    · exact h3 z (by simp [hz])

theorem UniqueIds_mem (pre post : List JsVal) (x : JsVal)
    (hu : UniqueIds (.arr (pre ++ x :: post))) :
    ∃ ts, fieldOf x "tasks" = .arr ts ∧ (idsOf ts).Nodup := by
  obtain ⟨xs, h1, -, h3⟩ := hu
  cases h1
  exact h3 x (by simp)

theorem isJson_mem (pre post : List JsVal) (x : JsVal)
    (h : isJson (.arr (pre ++ x :: post)) = true) : isJson x = true := by
  simp only [isJson] at h
  exact (isJsonElems_iff _).1 h x (by simp)

theorem nodup_snoc_of_not_mem (ids : List JsVal) (a : JsVal) (h : ids.Nodup) (ha : a ∉ ids) :
    (ids ++ [a]).Nodup := by
  rw [List.nodup_append]
  refine ⟨h, by simp, ?_⟩
  intro z hz hz2
  simp at hz2
  subst hz2
  exact ha hz

/-- C10, counterexample: the sequence with the single list of id
`1700000000000` has unique ids; Append List at the clock reading
1700000000000 succeeds on it and yields two lists with the same id. -/
theorem C10_counterexample :
    UniqueIds (.arr [.obj [("id", .str "1700000000000"), ("title", .str "A"), ("tasks", .arr [])]]) ∧
    (Operation.appendList 1700000000000 (.obj [("title", .str "B")])).run
        (.arr [.obj [("id", .str "1700000000000"), ("title", .str "A"), ("tasks", .arr [])]])
      = .ok (.done
          (.arr [.obj [("id", .str "1700000000000"), ("title", .str "A"), ("tasks", .arr [])],
            .obj [("id", .str "1700000000000"), ("title", .str "B"), ("tasks", .arr [])]]) 201
          (.obj [("id", .str "1700000000000"), ("title", .str "B"), ("tasks", .arr [])])) ∧
    ¬ UniqueIds
        (.arr [.obj [("id", .str "1700000000000"), ("title", .str "A"), ("tasks", .arr [])],
          .obj [("id", .str "1700000000000"), ("title", .str "B"), ("tasks", .arr [])]]) := by
  refine ⟨⟨_, rfl, by simp [idsOf], ?_⟩, by rfl, ?_⟩
  · intro x hx
    simp at hx
    subst hx
    exact ⟨[], by rfl, by simp [idsOf]⟩
  · rintro ⟨xs, h1, h2, -⟩
    cases h1
    simp [idsOf, fieldOf, lookupProp, List.find?] at h2

/-- C10, amended: on a decoded sequence (JSON data) with unique list ids and
unique task ids in each list, every successful operation keeps the ids
unique provided the id it generates from the clock is not the id of a
sibling (Append List, Append Task) and the payload carries no `id` field
(Replace List, Replace Task) and no `tasks` field (Replace List); Remove List
and Remove Task need no condition. -/
theorem C10_ids_stay_unique (o : Operation) (lists l : JsVal) (st : Nat) (b : JsVal)
    (hj : isJson lists = true) (hu : UniqueIds lists) (hk : o.keepsIds lists)
    (h : o.run lists = .ok (.done l st b)) : UniqueIds l := by
  cases o with
  | appendList now payload =>
    obtain ⟨xs, h1, h2, h3⟩ := hu
    subst h1
    simp only [Operation.run, appendListOp] at h
    cases hg : getField payload "title" with
    | error e => simp [hg] at h
    | ok title =>
      simp [hg, asArray] at h
      obtain ⟨hl, -, -⟩ := h
      subst hl
      refine ⟨_, rfl, ?_, ?_⟩
      · rw [idsOf_append]
        exact nodup_snoc_of_not_mem _ _ h2 (hk xs rfl)
      · intro z hz
        rcases List.mem_append.1 hz with hz | hz
        · exact h3 z hz
        · simp at hz; subst hz
          exact ⟨[], by rfl, by simp [idsOf]⟩
  | replaceList listId payload =>
    obtain ⟨pre, ps, post, h1, -, -, h4, -, -⟩ := replaceListOp_done listId payload lists l st b h
    subst h1 h4
    have ho : keysOrdered ps = true := by
      have := isJson_mem pre post _ hj
      simp only [isJson, Bool.and_eq_true] at this
      exact this.1
    refine UniqueIds_replace pre post (.obj ps) _ hu ?_ ?_
    · rw [fieldOf_objectSpread ps payload "id" ho hk.1]; rfl
    · rw [fieldOf_objectSpread ps payload "tasks" ho hk.2]
      exact UniqueIds_mem pre post _ hu
  | removeList listId =>
    obtain ⟨pre, ps, post, h1, -, -, h4, -, -⟩ := removeListOp_done listId lists l st b h
    subst h1 h4
    exact UniqueIds_remove pre post _ hu
  | appendTask now listId payload =>
    obtain ⟨pre, ps, post, ts, title, description, h1, h2, -, h4, -, -, h7, h8, -⟩ :=
      appendTaskOp_done now listId payload lists l st b h
    subst h1 h8
    obtain ⟨ts2, g1, g2⟩ := UniqueIds_mem pre post _ hu
    have hts : ts2 = ts := by
      simp only [fieldOf, h4] at g1
      cases g1; rfl
    subst hts
    refine UniqueIds_replace pre post (.obj ps) _ hu ?_ ⟨ts2 ++ [b], ?_, ?_⟩
    · simp [fieldOf, lookupProp_setProp]
    · simp [fieldOf, lookupProp_setProp]
    · rw [idsOf_append]
      have hb : idsOf [b] = [JsVal.str (toString now)] := by
        rw [h7]; rfl
      rw [hb]
      exact nodup_snoc_of_not_mem _ _ g2
        (hk _ (.obj ps) ts2 rfl (by simp) (by simpa [fieldOf] using h2) (by simpa [fieldOf] using h4))
  | replaceTask listId taskId payload =>
    obtain ⟨pre, ps, post, tpre, qs, tpost, h1, -, -, h4, -, -, h7, h8, -⟩ :=
      replaceTaskOp_done listId taskId payload lists l st b h
    subst h1 h8
    obtain ⟨ts2, g1, g2⟩ := UniqueIds_mem pre post _ hu
    have hts : ts2 = tpre ++ .obj qs :: tpost := by
      simp only [fieldOf, h4] at g1
      cases g1; rfl
    subst hts
    have hq : keysOrdered qs = true := by
      have hp := isJson_mem pre post _ hj
      simp only [isJson, Bool.and_eq_true] at hp
      rcases lookupProp_json ps "tasks" hp.2 with hh | hh
      · rw [h4] at hh; cases hh
      · rw [h4] at hh
        have := isJson_mem tpre tpost _ hh
        simp only [isJson, Bool.and_eq_true] at this
        exact this.1
    refine UniqueIds_replace pre post (.obj ps) _ hu ?_ ⟨tpre ++ b :: tpost, ?_, ?_⟩
    · simp [fieldOf, lookupProp_setProp]
    · simp [fieldOf, lookupProp_setProp]
    · have hb : fieldOf b "id" = fieldOf (.obj qs) "id" := by
        rw [h7, fieldOf_objectSpread qs payload "id" hq hk]; rfl
      simpa [idsOf_append, idsOf_cons, hb] using g2
  | removeTask listId taskId =>
    obtain ⟨pre, ps, post, tpre, qs, tpost, h1, -, -, h4, -, -, h7, -, -⟩ :=
      removeTaskOp_done listId taskId lists l st b h
    subst h1 h7
    obtain ⟨ts2, g1, g2⟩ := UniqueIds_mem pre post _ hu
    have hts : ts2 = tpre ++ .obj qs :: tpost := by
      simp only [fieldOf, h4] at g1
      cases g1; rfl
    subst hts
    refine UniqueIds_replace pre post (.obj ps) _ hu ?_ ⟨tpre ++ tpost, ?_, ?_⟩
    · simp [fieldOf, lookupProp_setProp]
    · simp [fieldOf, lookupProp_setProp]
    · rw [idsOf_append, idsOf_cons, List.nodup_middle] at g2
      rw [idsOf_append]
      exact g2.of_cons

theorem C10_ids_stay_unique_witness :
    isJson (.arr [.obj [("id", .str "list1"), ("title", .str "A"),
      ("tasks", .arr [.obj [("id", .str "task1"), ("title", .str "T"),
        ("description", .str ""), ("completed", .bool false)]])]]) = true ∧
    (Operation.replaceTask "list1" "task1" (.obj [("completed", .bool true)])).run
      (.arr [.obj [("id", .str "list1"), ("title", .str "A"),
        ("tasks", .arr [.obj [("id", .str "task1"), ("title", .str "T"),
          ("description", .str ""), ("completed", .bool false)]])]])
      = .ok (.done
        (.arr [.obj [("id", .str "list1"), ("title", .str "A"),
          ("tasks", .arr [.obj [("id", .str "task1"), ("title", .str "T"),
            ("description", .str ""), ("completed", .bool true)]])]]) 200
        (.obj [("id", .str "task1"), ("title", .str "T"),
            ("description", .str ""), ("completed", .bool true)])) ∧
    UniqueIds (.arr [.obj [("id", .str "list1"), ("title", .str "A"),
          ("tasks", .arr [.obj [("id", .str "task1"), ("title", .str "T"),
            ("description", .str ""), ("completed", .bool true)]])]]) := by
  have hu : UniqueIds (.arr [.obj [("id", .str "list1"), ("title", .str "A"),
      ("tasks", .arr [.obj [("id", .str "task1"), ("title", .str "T"),
        ("description", .str ""), ("completed", .bool false)]])]]) := by
    refine ⟨_, rfl, by simp [idsOf], ?_⟩
    intro x hx
    simp at hx
    subst hx
    exact ⟨_, by rfl, by simp [idsOf]⟩
  exact ⟨by rfl, by rfl,
    C10_ids_stay_unique (.replaceTask "list1" "task1" (.obj [("completed", .bool true)])) _ _ 200 _
      (by rfl) hu (by rfl) (by rfl)⟩

theorem strictEqStr_iff (v : JsVal) (s : String) : strictEqStr v s = true ↔ v = .str s := by
  cases v <;> simp [strictEqStr]

theorem findIndexById_none_of (xs : List JsVal) (id : String)
    (h : ∀ y ∈ xs, ∃ ps, y = .obj ps ∧ lookupProp ps "id" ≠ .str id) :
    findIndexById xs id = .ok none := by
  induction xs with
  | nil => rfl
  | cons x xs ih =>
    obtain ⟨ps, hx, hne⟩ := h x (by simp)
    subst hx
    have hs : strictEqStr (lookupProp ps "id") id = false := by
      rw [Bool.eq_false_iff]
      intro e
      exact hne ((strictEqStr_iff _ _).1 e)
    have := ih (fun y hy => h y (by simp [hy]))
    simp [findIndexById, getField, hs, this]

theorem findIndexById_split (pre post : List JsVal) (ps : List (String × JsVal)) (id : String)
    (h : ∀ y ∈ pre, ∃ qs, y = .obj qs ∧ lookupProp qs "id" ≠ .str id)
    (hid : lookupProp ps "id" = .str id) :
    findIndexById (pre ++ .obj ps :: post) id = .ok (some pre.length) := by
  induction pre with
  | nil => simp [findIndexById, getField, hid, strictEqStr]
  | cons x pre ih =>
    obtain ⟨qs, hx, hne⟩ := h x (by simp)
    subst hx
    have hs : strictEqStr (lookupProp qs "id") id = false := by
      rw [Bool.eq_false_iff]
      intro e
      exact hne ((strictEqStr_iff _ _).1 e)
    have := ih (fun y hy => h y (by simp [hy]))
    simp [findIndexById, getField, hs, this]

theorem exists_first_split {α : Type} (p : α → Prop) (L : List α) (h : ∃ l ∈ L, p l) :
    ∃ pre x post, L = pre ++ x :: post ∧ p x ∧ ∀ y ∈ pre, ¬ p y := by
  induction L with
  | nil => simp at h
  | cons a L ih =>
    by_cases ha : p a
    · exact ⟨[], a, L, rfl, ha, by simp⟩
    · obtain ⟨l, hl, hp⟩ := h
      rcases List.mem_cons.1 hl with hl | hl
      · subst hl; exact absurd hp ha
      · obtain ⟨pre, x, post, h1, h2, h3⟩ := ih ⟨l, hl, hp⟩
        refine ⟨a :: pre, x, post, by simp [h1], h2, ?_⟩
        intro y hy
        rcases List.mem_cons.1 hy with hy | hy
        · subst hy; exact ha
        · exact h3 y hy

theorem hasKey_of_keysOrdered (k : String) (v : JsVal) (ps : List (String × JsVal))
    (h : keysOrdered ((k, v) :: ps) = true) : hasKey ps k = false ∧ keysOrdered ps = true := by
  simp only [keysOrdered, Bool.and_eq_true, List.all_eq_true] at h
  refine ⟨?_, h.2⟩
  rw [Bool.eq_false_iff]
  intro hk
  simp only [hasKey, List.any_eq_true] at hk
  obtain ⟨p, hp, he⟩ := hk
  have := h.1 p hp
  simp at this he
  exact this.1 he

/-- A property the payload carries has the value of the payload in
`{...o, ...payload}`. -/
theorem lookupProp_foldl_setProp_key (kvs acc : List (String × JsVal)) (k : String)
    (ho : keysOrdered kvs = true) (h : hasKey kvs k = true) :
    lookupProp (kvs.foldl (fun a kv => setProp a kv.1 kv.2) acc) k = lookupProp kvs k := by
  induction kvs generalizing acc with
  | nil => simp [hasKey] at h
  | cons p kvs ih =>
    obtain ⟨k3, v3⟩ := p
    obtain ⟨hno, ho2⟩ := hasKey_of_keysOrdered k3 v3 kvs ho
    simp only [List.foldl_cons, lookupProp_cons]
    by_cases hk : k3 = k
    · subst hk
      rw [lookupProp_foldl_setProp _ _ _ hno, lookupProp_setProp]
      simp
    · have hk2 : hasKey kvs k = true := by
        simp only [hasKey, List.any_cons, Bool.or_eq_true, beq_iff_eq] at h ⊢
        rcases h with h | h
        · exact absurd h hk
        · exact h
      rw [ih _ ho2 hk2]
      simp [hk]

/-- The merge law of `{...o, ...payload}` for two objects. -/
theorem fieldOf_objectSpread_obj (es ps : List (String × JsVal)) (k : String)
    (he : keysOrdered es = true) (hp : keysOrdered ps = true) :
    fieldOf (objectSpread (.obj es) (.obj ps)) k
      = if hasKey ps k = true then lookupProp ps k else lookupProp es k := by
  by_cases hk : hasKey ps k = true
  · simp only [hk, if_true, fieldOf, objectSpread, buildProps, List.foldl_append, spreadProps]
    exact lookupProp_foldl_setProp_key ps _ k hp hk
  · have hk2 : hasKey (spreadProps (.obj ps)) k = false := by
      simpa [spreadProps] using hk
    rw [fieldOf_objectSpread es (.obj ps) k he hk2]
    simp [hk]

theorem isJson_objectSpread (es ps : List (String × JsVal))
    (he : isJson (.obj es) = true) (hp : isJson (.obj ps) = true) :
    isJson (objectSpread (.obj es) (.obj ps)) = true := by
  simp only [isJson, Bool.and_eq_true] at he hp
  have h : isJsonProps (es ++ ps) = true := by
    rw [isJsonProps_iff]
    intro p hp2
    rcases List.mem_append.1 hp2 with h | h
    · exact (isJsonProps_iff es).1 he.2 p h
    · exact (isJsonProps_iff ps).1 hp.2 p h
  have := buildProps_json (es ++ ps) h
  simp only [objectSpread, spreadProps, isJson, Bool.and_eq_true]
  exact this

/-! ## The frame of the handlers -/

theorem handle_of_notFound (o : Operation) (board : Board) (xs : List JsVal) (m : String)
    (hdec : listsGet board.lists = .arr xs) (hrun : o.run (.arr xs) = .ok (.notFound m)) :
    handle o (some board) = ⟨404, message m, none⟩ := by
  have hor : jsOr (listsGet board.lists) (.arr []) = .arr xs := by rw [hdec]; rfl
  simp only [handle, runHandler, hor, hrun]

theorem handle_of_error (o : Operation) (board : Board) (xs : List JsVal) (e : JsError)
    (hdec : listsGet board.lists = .arr xs) (hrun : o.run (.arr xs) = .error e) :
    handle o (some board) = ⟨500, message o.errorMessage, none⟩ := by
  have hor : jsOr (listsGet board.lists) (.arr []) = .arr xs := by rw [hdec]; rfl
  simp only [handle, runHandler, hor, hrun]

/-- A successful operation whose result is JSON data: the handler answers
with the status and body of the operation and saves a row whose column
decodes to the result. -/
theorem handle_of_done (o : Operation) (board : Board) (xs : List JsVal) (l : JsVal) (st : Nat)
    (body : JsVal) (hdec : listsGet board.lists = .arr xs)
    (hrun : o.run (.arr xs) = .ok (.done l st body)) (hj : isJson l = true) :
    ∃ raw, listsSet l = .ok raw ∧
      handle o (some board) = ⟨st, body, some { board with lists := raw }⟩ ∧
      listsGet raw = l := by
  obtain ⟨ys, hl⟩ := run_done_arr o _ l st body hrun
  obtain ⟨raw, h1, h2⟩ := codec_roundtrip l hj (by rw [hl]; rfl)
  have hor : jsOr (listsGet board.lists) (.arr []) = .arr xs := by rw [hdec]; rfl
  exact ⟨raw, h1, by simp only [handle, runHandler, hor, hrun, h1], h2⟩

/-- The handler answers 404 with a message exactly when the operation
signals it. -/
theorem handle_notFound_iff (o : Operation) (board : Board) (m : String) :
    handle o (some board) = ⟨404, message m, none⟩ ↔
      o.run (jsOr (listsGet board.lists) (.arr [])) = .ok (.notFound m) := by
  simp only [handle, runHandler]
  cases hr : o.run (jsOr (listsGet board.lists) (.arr [])) with
  | error e => simp
  | ok s =>
    cases s with
    | notFound m2 => simp [message]
    | done l st body =>
      simp only
      cases hs : listsSet l with
      | error e => simp
      | ok raw => simp

/-! ## Lookup by id in a well-formed sequence -/

theorem lists_obj (L : List TaskList) (id : String) (h : ∀ l ∈ L, l.id ≠ id) :
    ∀ y ∈ L.map TaskList.toJs, ∃ ps, y = .obj ps ∧ lookupProp ps "id" ≠ .str id := by
  intro y hy
  obtain ⟨l, hl, rfl⟩ := List.mem_map.1 hy
  refine ⟨_, rfl, ?_⟩
  have := h l hl
  simpa [lookupProp, List.find?] using this

theorem tasks_obj (ts : List Task) (id : String) (h : ∀ t ∈ ts, t.id ≠ id) :
    ∀ y ∈ ts.map Task.toJs, ∃ ps, y = .obj ps ∧ lookupProp ps "id" ≠ .str id := by
  intro y hy
  obtain ⟨t, ht, rfl⟩ := List.mem_map.1 hy
  refine ⟨_, rfl, ?_⟩
  have := h t ht
  simpa [lookupProp, List.find?] using this

theorem findList_lists_none (L : List TaskList) (listId : String) (h : ∀ l ∈ L, l.id ≠ listId) :
    findList (listsToJs L) listId = .ok (L.map TaskList.toJs, none) := by
  simp [findList, listsToJs, asArray, findIndexById_none_of _ _ (lists_obj L listId h)]

theorem findList_lists_some (pre post : List TaskList) (x : TaskList) (listId : String)
    (hx : x.id = listId) (h : ∀ l ∈ pre, l.id ≠ listId) :
    findList (listsToJs (pre ++ x :: post)) listId
      = .ok (pre.map TaskList.toJs ++ x.toJs :: post.map TaskList.toJs,
          some (pre.map TaskList.toJs).length) := by
  have := findIndexById_split (pre.map TaskList.toJs) (post.map TaskList.toJs)
    [("id", .str x.id), ("title", .str x.title), ("tasks", .arr (x.tasks.map Task.toJs))] listId
    (lists_obj pre listId h) (by simp [lookupProp, List.find?, hx])
  simp only [findList, listsToJs, asArray, List.map_append, List.map_cons]
  simp only [TaskList.toJs] at this ⊢
  rw [this]

theorem findTask_lists_none (pre post : List TaskList) (x : TaskList) (listId taskId : String)
    (hx : x.id = listId) (h : ∀ l ∈ pre, l.id ≠ listId) (ht : ∀ t ∈ x.tasks, t.id ≠ taskId) :
    findTask (listsToJs (pre ++ x :: post)) listId taskId
      = .ok (some (pre.map TaskList.toJs ++ x.toJs :: post.map TaskList.toJs,
          (pre.map TaskList.toJs).length, none)) := by
  simp only [findTask, findList_lists_some pre post x listId hx h, getD_split]
  have := findIndexById_none_of _ _ (tasks_obj x.tasks taskId ht)
  simp [TaskList.toJs, getField, lookupProp, List.find?, asArray, this]

theorem findTask_lists_some (pre post : List TaskList) (x : TaskList) (tpre tpost : List Task)
    (t : Task) (listId taskId : String)
    (hx : x.id = listId) (h : ∀ l ∈ pre, l.id ≠ listId) (hts : x.tasks = tpre ++ t :: tpost)
    (ht : t.id = taskId) (htp : ∀ y ∈ tpre, y.id ≠ taskId) :
    findTask (listsToJs (pre ++ x :: post)) listId taskId
      = .ok (some (pre.map TaskList.toJs ++ x.toJs :: post.map TaskList.toJs,
          (pre.map TaskList.toJs).length,
          some (tpre.map Task.toJs ++ t.toJs :: tpost.map Task.toJs,
            (tpre.map Task.toJs).length))) := by
  simp only [findTask, findList_lists_some pre post x listId hx h, getD_split]
  have := findIndexById_split (tpre.map Task.toJs) (tpost.map Task.toJs)
    [("id", .str t.id), ("title", .str t.title), ("description", .str t.description),
      ("completed", .bool t.completed)] taskId
    (tasks_obj tpre taskId htp) (by simp [lookupProp, List.find?, ht])
  simp only [Task.toJs] at this ⊢
  simp [TaskList.toJs, getField, lookupProp, List.find?, asArray, hts, Task.toJs, this]

/-! ## The operations on a well-formed sequence -/

theorem replaceListOp_lists (pre post : List TaskList) (x : TaskList) (listId : String)
    (payload : JsVal) (hx : x.id = listId) (h : ∀ l ∈ pre, l.id ≠ listId) :
    replaceListOp listId payload (listsToJs (pre ++ x :: post))
      = .ok (.done (.arr (pre.map TaskList.toJs ++ objectSpread x.toJs payload ::
          post.map TaskList.toJs)) 200 (objectSpread x.toJs payload)) := by
  simp only [replaceListOp, findList_lists_some pre post x listId hx h, getD_split, set_split]

theorem removeListOp_lists (pre post : List TaskList) (x : TaskList) (listId : String)
    (hx : x.id = listId) (h : ∀ l ∈ pre, l.id ≠ listId) :
    removeListOp listId (listsToJs (pre ++ x :: post))
      = .ok (.done (listsToJs (pre ++ post)) 200 (message "List deleted")) := by
  simp only [removeListOp, findList_lists_some pre post x listId hx h, eraseIdx_split]
  simp [listsToJs]

theorem setProp_tasks (i t : String) (ts v : JsVal) :
    setProp [("id", .str i), ("title", .str t), ("tasks", ts)] "tasks" v
      = [("id", .str i), ("title", .str t), ("tasks", v)] := by
  simp [setProp, hasKey, replaceProp]

theorem appendTaskOp_lists (pre post : List TaskList) (x : TaskList) (now : Nat)
    (listId : String) (ps : List (String × JsVal))
    (hx : x.id = listId) (h : ∀ l ∈ pre, l.id ≠ listId) :
    appendTaskOp now listId (.obj ps) (listsToJs (pre ++ x :: post))
      = .ok (.done (.arr (pre.map TaskList.toJs ++
            .obj [("id", .str x.id), ("title", .str x.title),
              ("tasks", .arr (x.tasks.map Task.toJs ++
                [.obj [("id", .str (toString now)), ("title", lookupProp ps "title"),
                  ("description", jsOr (lookupProp ps "description") (.str "")),
                  ("completed", .bool false)]]))] ::
            post.map TaskList.toJs)) 201
          (.obj [("id", .str (toString now)), ("title", lookupProp ps "title"),
            ("description", jsOr (lookupProp ps "description") (.str "")),
            ("completed", .bool false)])) := by
  simp only [appendTaskOp, findList_lists_some pre post x listId hx h, getD_split, set_split,
    getField]
  simp [TaskList.toJs, lookupProp, List.find?, asArray, setField, setProp_tasks]

theorem replaceTaskOp_lists (pre post : List TaskList) (x : TaskList) (tpre tpost : List Task)
    (t : Task) (listId taskId : String) (payload : JsVal)
    (hx : x.id = listId) (h : ∀ l ∈ pre, l.id ≠ listId) (hts : x.tasks = tpre ++ t :: tpost)
    (ht : t.id = taskId) (htp : ∀ y ∈ tpre, y.id ≠ taskId) :
    replaceTaskOp listId taskId payload (listsToJs (pre ++ x :: post))
      = .ok (.done (.arr (pre.map TaskList.toJs ++
            .obj [("id", .str x.id), ("title", .str x.title),
              ("tasks", .arr (tpre.map Task.toJs ++ objectSpread t.toJs payload ::
                tpost.map Task.toJs))] ::
            post.map TaskList.toJs)) 200 (objectSpread t.toJs payload)) := by
  simp only [replaceTaskOp,
    findTask_lists_some pre post x tpre tpost t listId taskId hx h hts ht htp, getD_split,
    set_split]
  simp [TaskList.toJs, setField, setProp_tasks]

theorem removeTaskOp_lists (pre post : List TaskList) (x : TaskList) (tpre tpost : List Task)
    (t : Task) (listId taskId : String)
    (hx : x.id = listId) (h : ∀ l ∈ pre, l.id ≠ listId) (hts : x.tasks = tpre ++ t :: tpost)
    (ht : t.id = taskId) (htp : ∀ y ∈ tpre, y.id ≠ taskId) :
    removeTaskOp listId taskId (listsToJs (pre ++ x :: post))
      = .ok (.done (listsToJs (pre ++ { x with tasks := tpre ++ tpost } :: post)) 200
          (message "Task deleted")) := by
  simp only [removeTaskOp,
    findTask_lists_some pre post x tpre tpost t listId taskId hx h hts ht htp, getD_split,
    set_split, eraseIdx_split]
  simp [TaskList.toJs, setField, setProp_tasks, listsToJs]

theorem isJson_arr_replace (pre post : List JsVal) (x y : JsVal)
    (h : isJson (.arr (pre ++ x :: post)) = true) (hy : isJson y = true) :
    isJson (.arr (pre ++ y :: post)) = true := by
  simp only [isJson, isJsonElems_iff] at h ⊢
  intro z hz
  rcases List.mem_append.1 hz with hz | hz
  · exact h z (by simp [hz])
  · rcases List.mem_cons.1 hz with hz | hz
    · subst hz; exact hy
    · exact h z (by simp [hz])

theorem isJson_lists_replace (pre post : List TaskList) (x : TaskList) (y : JsVal)
    (hy : isJson y = true) :
    isJson (.arr (pre.map TaskList.toJs ++ y :: post.map TaskList.toJs)) = true := by
  have := isJson_listsToJs (pre ++ x :: post)
  simp only [listsToJs, List.map_append, List.map_cons] at this
  exact isJson_arr_replace _ _ _ y this hy

theorem isJson_list_obj (i t : String) (ts : List JsVal) (h : isJsonElems ts = true) :
    isJson (.obj [("id", .str i), ("title", .str t), ("tasks", .arr ts)]) = true := by
  have hk : keysOrdered [("id", JsVal.str i), ("title", .str t), ("tasks", .arr ts)] = true := by
    simp [keysOrdered]; decide
  simp [isJson, isJsonProps, hk, h]

/-! ## Replace List -/

/-- C11: on a board whose `lists` decode to the valid sequence `L`, if some
list of `L` has the id `listId` then, for every payload that is a JSON
object, PUT /:id/lists/:listId matches the first such list `x`, answers 200
with `merged = { ...x, ...payload }`, in which every key of the payload has
the value of the payload and every other key the value it has in `x`, puts
`merged` where `x` was with the lists before and after it as they were, and
saves a row whose column decodes to that sequence. -/
theorem C11_replace_list (L : List TaskList) (board : Board) (listId : String)
    (ps : List (String × JsVal))
    (hL : listsGet board.lists = listsToJs L) (hbody : isJson (.obj ps) = true)
    (hm : ∃ l ∈ L, l.id = listId) :
    ∃ pre x post, L = pre ++ x :: post ∧ x.id = listId ∧ (∀ y ∈ pre, y.id ≠ listId) ∧
      (∀ k, fieldOf (objectSpread x.toJs (.obj ps)) k
          = if hasKey ps k = true then lookupProp ps k else fieldOf x.toJs k) ∧
      replaceListOp listId (.obj ps) (listsToJs L)
        = .ok (.done (.arr (pre.map TaskList.toJs ++ objectSpread x.toJs (.obj ps) ::
            post.map TaskList.toJs)) 200 (objectSpread x.toJs (.obj ps))) ∧
      (pre.map TaskList.toJs ++ objectSpread x.toJs (.obj ps) :: post.map TaskList.toJs).length
        = L.length ∧
      ∃ raw, putList (some board) listId (.obj ps)
          = ⟨200, objectSpread x.toJs (.obj ps), some { board with lists := raw }⟩ ∧
        listsGet raw = .arr (pre.map TaskList.toJs ++ objectSpread x.toJs (.obj ps) ::
          post.map TaskList.toJs) := by
  obtain ⟨pre, x, post, h1, h2, h3⟩ := exists_first_split (fun l => l.id = listId) L hm
  subst h1
  have hop := replaceListOp_lists pre post x listId (.obj ps) h2 h3
  have hxj : isJson x.toJs = true := isJson_taskList x
  have hmj : isJson (objectSpread x.toJs (.obj ps)) = true :=
    isJson_objectSpread _ ps hxj hbody
  have hlaw : ∀ k, fieldOf (objectSpread x.toJs (.obj ps)) k
      = if hasKey ps k = true then lookupProp ps k else fieldOf x.toJs k := by
    intro k
    simp only [isJson, Bool.and_eq_true] at hbody
    simp only [TaskList.toJs, isJson, Bool.and_eq_true] at hxj
    exact fieldOf_objectSpread_obj _ ps k hxj.1 hbody.1
  obtain ⟨raw, -, hh, hg⟩ := handle_of_done (.replaceList listId (.obj ps)) board _ _ 200 _
    hL hop (isJson_lists_replace pre post x _ hmj)
  exact ⟨pre, x, post, rfl, h2, h3, hlaw, hop, by simp, raw, hh, hg⟩

theorem C11_replace_list_witness :
    putList (some { emptyBoard with
        lists := .str "[\x7b\"id\":\"list1\",\"title\":\"Old\",\"tasks\":[]\x7d]" })
      "list1" (.obj [("title", .str "Updated")])
      = ⟨200, .obj [("id", .str "list1"), ("title", .str "Updated"), ("tasks", .arr [])],
          some { emptyBoard with
            lists := .str "[\x7b\"id\":\"list1\",\"title\":\"Updated\",\"tasks\":[]\x7d]" }⟩ ∧
    ∃ pre x post, [(⟨"list1", "Old", []⟩ : TaskList)] = pre ++ x :: post ∧ x.id = "list1" ∧
      (∀ y ∈ pre, y.id ≠ "list1") ∧
      (∀ k, fieldOf (objectSpread x.toJs (.obj [("title", .str "Updated")])) k
          = if hasKey [("title", JsVal.str "Updated")] k = true
            then lookupProp [("title", .str "Updated")] k else fieldOf x.toJs k) ∧
      replaceListOp "list1" (.obj [("title", .str "Updated")])
          (listsToJs [(⟨"list1", "Old", []⟩ : TaskList)])
        = .ok (.done (.arr (pre.map TaskList.toJs ++
            objectSpread x.toJs (.obj [("title", .str "Updated")]) ::
            post.map TaskList.toJs)) 200
            (objectSpread x.toJs (.obj [("title", .str "Updated")]))) ∧
      (pre.map TaskList.toJs ++ objectSpread x.toJs (.obj [("title", .str "Updated")]) ::
          post.map TaskList.toJs).length = [(⟨"list1", "Old", []⟩ : TaskList)].length ∧
      ∃ raw, putList (some { emptyBoard with
            lists := .str "[\x7b\"id\":\"list1\",\"title\":\"Old\",\"tasks\":[]\x7d]" })
          "list1" (.obj [("title", .str "Updated")])
          = ⟨200, objectSpread x.toJs (.obj [("title", .str "Updated")]),
              some { { emptyBoard with
                lists := .str "[\x7b\"id\":\"list1\",\"title\":\"Old\",\"tasks\":[]\x7d]" } with
                lists := raw }⟩ ∧
        listsGet raw = .arr (pre.map TaskList.toJs ++
          objectSpread x.toJs (.obj [("title", .str "Updated")]) :: post.map TaskList.toJs) :=
  ⟨by rfl,
    C11_replace_list [⟨"list1", "Old", []⟩]
      { emptyBoard with
        lists := .str "[\x7b\"id\":\"list1\",\"title\":\"Old\",\"tasks\":[]\x7d]" }
      "list1" [("title", .str "Updated")] (by rfl) (by rfl) ⟨⟨"list1", "Old", []⟩, by simp, rfl⟩⟩

/-! ## Remove List -/

/-- C14: on a board whose `lists` decode to the valid sequence `L`, if some
list of `L` has the id `listId` then DELETE /:id/lists/:listId removes the
first such list: it answers 200 with `List deleted` and saves a row whose
column decodes to the lists before it followed by the lists after it, one
element fewer and each as it was. -/
theorem C14_remove_list (L : List TaskList) (board : Board) (listId : String)
    (hL : listsGet board.lists = listsToJs L) (hm : ∃ l ∈ L, l.id = listId) :
    ∃ pre x post, L = pre ++ x :: post ∧ x.id = listId ∧ (∀ y ∈ pre, y.id ≠ listId) ∧
      removeListOp listId (listsToJs L)
        = .ok (.done (listsToJs (pre ++ post)) 200 (message "List deleted")) ∧
      (pre ++ post).length + 1 = L.length ∧
      ∃ raw, deleteList (some board) listId
          = ⟨200, message "List deleted", some { board with lists := raw }⟩ ∧
        listsGet raw = listsToJs (pre ++ post) := by
  obtain ⟨pre, x, post, h1, h2, h3⟩ := exists_first_split (fun l => l.id = listId) L hm
  subst h1
  have hop := removeListOp_lists pre post x listId h2 h3
  obtain ⟨raw, -, hh, hg⟩ := handle_of_done (.removeList listId) board _ _ 200 _
    hL hop (isJson_listsToJs _)
  exact ⟨pre, x, post, rfl, h2, h3, hop, by simp; omega, raw, hh, hg⟩

theorem C14_remove_list_witness :
    deleteList (some { emptyBoard with
        lists := .str "[\x7b\"id\":\"a\",\"title\":\"A\",\"tasks\":[]\x7d,\x7b\"id\":\"b\",\"title\":\"B\",\"tasks\":[]\x7d,\x7b\"id\":\"c\",\"title\":\"C\",\"tasks\":[]\x7d]" })
      "b"
      = ⟨200, message "List deleted", some { emptyBoard with
          lists := .str "[\x7b\"id\":\"a\",\"title\":\"A\",\"tasks\":[]\x7d,\x7b\"id\":\"c\",\"title\":\"C\",\"tasks\":[]\x7d]" }⟩ ∧
    ∃ pre x post, [(⟨"a", "A", []⟩ : TaskList), ⟨"b", "B", []⟩, ⟨"c", "C", []⟩] = pre ++ x :: post ∧
      x.id = "b" ∧ (∀ y ∈ pre, y.id ≠ "b") ∧
      removeListOp "b" (listsToJs [⟨"a", "A", []⟩, ⟨"b", "B", []⟩, ⟨"c", "C", []⟩])
        = .ok (.done (listsToJs (pre ++ post)) 200 (message "List deleted")) ∧
      (pre ++ post).length + 1
        = [(⟨"a", "A", []⟩ : TaskList), ⟨"b", "B", []⟩, ⟨"c", "C", []⟩].length ∧
      ∃ raw, deleteList (some { emptyBoard with
            lists := .str "[\x7b\"id\":\"a\",\"title\":\"A\",\"tasks\":[]\x7d,\x7b\"id\":\"b\",\"title\":\"B\",\"tasks\":[]\x7d,\x7b\"id\":\"c\",\"title\":\"C\",\"tasks\":[]\x7d]" })
          "b"
          = ⟨200, message "List deleted", some { { emptyBoard with
              lists := .str "[\x7b\"id\":\"a\",\"title\":\"A\",\"tasks\":[]\x7d,\x7b\"id\":\"b\",\"title\":\"B\",\"tasks\":[]\x7d,\x7b\"id\":\"c\",\"title\":\"C\",\"tasks\":[]\x7d]" } with
              lists := raw }⟩ ∧
        listsGet raw = listsToJs (pre ++ post) :=
  ⟨by rfl,
    C14_remove_list [⟨"a", "A", []⟩, ⟨"b", "B", []⟩, ⟨"c", "C", []⟩]
      { emptyBoard with
        lists := .str "[\x7b\"id\":\"a\",\"title\":\"A\",\"tasks\":[]\x7d,\x7b\"id\":\"b\",\"title\":\"B\",\"tasks\":[]\x7d,\x7b\"id\":\"c\",\"title\":\"C\",\"tasks\":[]\x7d]" }
      "b" (by rfl) ⟨⟨"b", "B", []⟩, by simp, rfl⟩⟩

/-! ## The "not found" outcome -/

theorem run_done_status (o : Operation) (lists l : JsVal) (st : Nat) (b : JsVal)
    (h : o.run lists = .ok (.done l st b)) : st = 200 ∨ st = 201 := by
  cases o with
  | appendList now payload =>
    simp only [Operation.run, appendListOp] at h
    split at h
    · cases h
    · split at h
      · cases h
      · simp at h; exact Or.inr h.2.1.symm
  | replaceList listId payload =>
    obtain ⟨_, _, _, _, _, _, _, h5, _⟩ := replaceListOp_done listId payload lists l st b h
    exact Or.inl h5
  | removeList listId =>
    obtain ⟨_, _, _, _, _, _, _, h5, _⟩ := removeListOp_done listId lists l st b h
    exact Or.inl h5
  | appendTask now listId payload =>
    obtain ⟨_, _, _, _, _, _, _, _, _, _, _, _, _, _, h9⟩ :=
      appendTaskOp_done now listId payload lists l st b h
    exact Or.inr h9
  | replaceTask listId taskId payload =>
    obtain ⟨_, _, _, _, _, _, _, _, _, _, _, _, _, _, h9⟩ :=
      replaceTaskOp_done listId taskId payload lists l st b h
    exact Or.inl h9
  | removeTask listId taskId =>
    obtain ⟨_, _, _, _, _, _, _, _, _, _, _, _, _, h8, _⟩ :=
      removeTaskOp_done listId taskId lists l st b h
    exact Or.inl h8

theorem run_notFound_message (o : Operation) (lists : JsVal) (m : String)
    (h : o.run lists = .ok (.notFound m)) : m = "List not found" ∨ m = "Task not found" := by
  cases o with
  | appendList now payload =>
    simp only [Operation.run, appendListOp] at h
    split at h
    · cases h
    · split at h
      · cases h
      · simp at h
  | replaceList listId payload =>
    simp only [Operation.run, replaceListOp] at h
    split at h
    · cases h
    · simp at h; exact Or.inl h.symm
    · simp at h
  | removeList listId =>
    simp only [Operation.run, removeListOp] at h
    split at h
    · cases h
    · simp at h; exact Or.inl h.symm
    · simp at h
  | appendTask now listId payload =>
    simp only [Operation.run, appendTaskOp] at h
    split at h
    · cases h
    · simp at h; exact Or.inl h.symm
    · split at h
      · split at h
        · cases h
        · split at h
          · cases h
          · simp at h
      · cases h
      · cases h
  | replaceTask listId taskId payload =>
    simp only [Operation.run, replaceTaskOp] at h
    split at h
    · cases h
    · simp at h; exact Or.inl h.symm
    · simp at h; exact Or.inr h.symm
    · simp at h
  | removeTask listId taskId =>
    simp only [Operation.run, removeTaskOp] at h
    split at h
    · cases h
    · simp at h; exact Or.inl h.symm
    · simp at h; exact Or.inr h.symm
    · simp at h

/-- C12: whenever one of the handlers of the list and task operations
answers 404, `board.lists` has not been assigned and `board.save()` has not
been called, so the stored row is as it was; the body is the message `Board
not found`, `List not found` or `Task not found`. -/
theorem C12_not_found_saves_nothing (o : Operation) (found : Option Board)
    (h : (handle o found).status = 404) :
    (handle o found).saved = none ∧
      ∃ m, handle o found = ⟨404, message m, none⟩ ∧
        (m = "Board not found" ∨ m = "List not found" ∨ m = "Task not found") := by
  cases found with
  | none => exact ⟨rfl, "Board not found", rfl, Or.inl rfl⟩
  | some board =>
    simp only [handle, runHandler] at h ⊢
    cases hr : o.run (jsOr (listsGet board.lists) (.arr [])) with
    | error e => simp [hr] at h
    | ok s =>
      cases s with
      | notFound m =>
        have := run_notFound_message o _ m hr
        exact ⟨rfl, m, rfl, Or.inr this⟩
      | done l st body =>
        exfalso
        have hst := run_done_status o _ l st body hr
        simp only [hr] at h
        cases hs : listsSet l with
        | error e => simp [hs] at h
        | ok raw =>
          simp [hs] at h
          omega

theorem C12_not_found_saves_nothing_witness :
    handle (.replaceList "nonexistent" (.obj [("title", .str "Updated Title")])) (some emptyBoard)
      = ⟨404, message "List not found", none⟩ ∧
    (handle (.replaceList "nonexistent" (.obj [("title", .str "Updated Title")]))
        (some emptyBoard)).saved = none :=
  ⟨by rfl,
    (C12_not_found_saves_nothing
      (.replaceList "nonexistent" (.obj [("title", .str "Updated Title")])) (some emptyBoard)
      (by rfl)).1⟩

theorem appendTaskOp_lists_found (pre post : List TaskList) (x : TaskList) (now : Nat)
    (listId : String) (payload : JsVal) (m : String)
    (hx : x.id = listId) (h : ∀ l ∈ pre, l.id ≠ listId) :
    appendTaskOp now listId payload (listsToJs (pre ++ x :: post)) ≠ .ok (.notFound m) := by
  simp only [appendTaskOp, findList_lists_some pre post x listId hx h, getD_split, set_split]
  intro hc
  split at hc
  · simp [TaskList.toJs, getField, lookupProp, List.find?, asArray] at hc
  · cases hc
  · cases hc

/-- What the list-addressed operations return when no list has the id. -/
theorem run_lists_none (L : List TaskList) (o : Operation) (listId : String)
    (ho : o.listId = some listId) (h : ∀ l ∈ L, l.id ≠ listId) :
    o.run (listsToJs L) = .ok (.notFound "List not found") := by
  cases o with
  | appendList now payload => simp [Operation.listId] at ho
  | replaceList id payload =>
    simp only [Operation.listId, Option.some.injEq] at ho; subst ho
    simp only [Operation.run, replaceListOp, findList_lists_none L _ h]
  | removeList id =>
    simp only [Operation.listId, Option.some.injEq] at ho; subst ho
    simp only [Operation.run, removeListOp, findList_lists_none L _ h]
  | appendTask now id payload =>
    simp only [Operation.listId, Option.some.injEq] at ho; subst ho
    simp only [Operation.run, appendTaskOp, findList_lists_none L _ h]
  | replaceTask id taskId payload =>
    simp only [Operation.listId, Option.some.injEq] at ho; subst ho
    simp only [Operation.run, replaceTaskOp, findTask, findList_lists_none L _ h]
  | removeTask id taskId =>
    simp only [Operation.listId, Option.some.injEq] at ho; subst ho
    simp only [Operation.run, removeTaskOp, findTask, findList_lists_none L _ h]

/-- What the list-addressed operations return when a list has the id: never
`List not found`. -/
theorem run_lists_some (pre post : List TaskList) (x : TaskList) (o : Operation)
    (listId : String) (ho : o.listId = some listId)
    (hx : x.id = listId) (h : ∀ l ∈ pre, l.id ≠ listId) :
    o.run (listsToJs (pre ++ x :: post)) ≠ .ok (.notFound "List not found") := by
  cases o with
  | appendList now payload => simp [Operation.listId] at ho
  | replaceList id payload =>
    simp only [Operation.listId, Option.some.injEq] at ho; subst ho
    simp [Operation.run, replaceListOp_lists pre post x id payload hx h]
  | removeList id =>
    simp only [Operation.listId, Option.some.injEq] at ho; subst ho
    simp [Operation.run, removeListOp_lists pre post x id hx h]
  | appendTask now id payload =>
    simp only [Operation.listId, Option.some.injEq] at ho; subst ho
    exact appendTaskOp_lists_found pre post x now id payload _ hx h
  | replaceTask id taskId payload =>
    simp only [Operation.listId, Option.some.injEq] at ho; subst ho
    by_cases ht : ∃ t ∈ x.tasks, t.id = taskId
    · obtain ⟨tpre, t, tpost, h1, h2, h3⟩ := exists_first_split (fun t => t.id = taskId) _ ht
      simp [Operation.run, replaceTaskOp_lists pre post x tpre tpost t id taskId payload hx h h1 h2 h3]
    · have ht2 : ∀ t ∈ x.tasks, t.id ≠ taskId := fun t ht3 e => ht ⟨t, ht3, e⟩
      simp [Operation.run, replaceTaskOp, findTask_lists_none pre post x id taskId hx h ht2]
  | removeTask id taskId =>
    simp only [Operation.listId, Option.some.injEq] at ho; subst ho
    by_cases ht : ∃ t ∈ x.tasks, t.id = taskId
    · obtain ⟨tpre, t, tpost, h1, h2, h3⟩ := exists_first_split (fun t => t.id = taskId) _ ht
      simp [Operation.run, removeTaskOp_lists pre post x tpre tpost t id taskId hx h h1 h2 h3]
    · have ht2 : ∀ t ∈ x.tasks, t.id ≠ taskId := fun t ht3 e => ht ⟨t, ht3, e⟩
      simp [Operation.run, removeTaskOp, findTask_lists_none pre post x id taskId hx h ht2]

/-- What the task-addressed operations return on the first list with the id:
`Task not found` exactly when that list has no task with the task id. -/
theorem run_tasks (pre post : List TaskList) (x : TaskList) (o : Operation)
    (listId taskId : String) (ho : o.listId = some listId) (hot : o.taskId = some taskId)
    (hx : x.id = listId) (h : ∀ l ∈ pre, l.id ≠ listId) :
    o.run (listsToJs (pre ++ x :: post)) = .ok (.notFound "Task not found") ↔
      ∀ t ∈ x.tasks, t.id ≠ taskId := by
  cases o with
  | appendList now payload => simp [Operation.listId] at ho
  | replaceList id payload => simp [Operation.taskId] at hot
  | removeList id => simp [Operation.taskId] at hot
  | appendTask now id payload => simp [Operation.taskId] at hot
  | replaceTask id tid payload =>
    simp only [Operation.listId, Operation.taskId, Option.some.injEq] at ho hot; subst ho hot
    by_cases ht : ∃ t ∈ x.tasks, t.id = tid
    · obtain ⟨tpre, t, tpost, h1, h2, h3⟩ := exists_first_split (fun t => t.id = tid) _ ht
      simp only [Operation.run,
        replaceTaskOp_lists pre post x tpre tpost t id tid payload hx h h1 h2 h3]
      constructor
      · intro hc; simp at hc
      · intro hc
        obtain ⟨t2, ht2, e⟩ := ht
        exact absurd e (hc t2 ht2)
    · have ht2 : ∀ t ∈ x.tasks, t.id ≠ tid := fun t ht3 e => ht ⟨t, ht3, e⟩
      simp only [Operation.run, replaceTaskOp, findTask_lists_none pre post x id tid hx h ht2]
      exact ⟨fun _ => ht2, fun _ => trivial⟩
  | removeTask id tid =>
    simp only [Operation.listId, Operation.taskId, Option.some.injEq] at ho hot; subst ho hot
    by_cases ht : ∃ t ∈ x.tasks, t.id = tid
    · obtain ⟨tpre, t, tpost, h1, h2, h3⟩ := exists_first_split (fun t => t.id = tid) _ ht
      simp only [Operation.run,
        removeTaskOp_lists pre post x tpre tpost t id tid hx h h1 h2 h3]
      constructor
      · intro hc; simp at hc
      · intro hc
        obtain ⟨t2, ht2, e⟩ := ht
        exact absurd e (hc t2 ht2)
    · have ht2 : ∀ t ∈ x.tasks, t.id ≠ tid := fun t ht3 e => ht ⟨t, ht3, e⟩
      simp only [Operation.run, removeTaskOp, findTask_lists_none pre post x id tid hx h ht2]
      exact ⟨fun _ => ht2, fun _ => trivial⟩

theorem split_unique {α : Type} (p : α → Prop) (pre1 pre2 post1 post2 : List α) (x1 x2 : α)
    (h : pre1 ++ x1 :: post1 = pre2 ++ x2 :: post2) (hx1 : p x1) (hx2 : p x2)
    (h1 : ∀ y ∈ pre1, ¬ p y) (h2 : ∀ y ∈ pre2, ¬ p y) :
    pre1 = pre2 ∧ x1 = x2 ∧ post1 = post2 := by
  induction pre1 generalizing pre2 with
  | nil =>
    cases pre2 with
    | nil => simp at h; exact ⟨rfl, h.1, h.2⟩
    | cons b pre2 =>
      simp at h
      exact absurd (h.1 ▸ hx1) (h2 b (by simp))
  | cons a pre1 ih =>
    cases pre2 with
    | nil =>
      simp at h
      exact absurd (h.1 ▸ hx2) (h1 a (by simp))
    | cons b pre2 =>
      simp at h
      obtain ⟨e1, e2, e3⟩ := ih pre2 h.2 (fun y hy => h1 y (by simp [hy]))
        (fun y hy => h2 y (by simp [hy]))
      exact ⟨by rw [h.1, e1], e2, e3⟩

/-- C13: on a board whose `lists` decode to the valid sequence `L`, each of
the five handlers with a `listId` answers 404 `List not found` exactly when
no list of `L` has that id; the two handlers with a `taskId` answer 404 `Task
not found` exactly when the first list with the id `listId` has no task with
the id `taskId`, whatever tasks the other lists hold. -/
theorem C13_not_found_exactly (L : List TaskList) (board : Board) (o : Operation)
    (listId : String) (hL : listsGet board.lists = listsToJs L) (ho : o.listId = some listId) :
    (handle o (some board) = ⟨404, message "List not found", none⟩ ↔ ∀ l ∈ L, l.id ≠ listId) ∧
    ∀ taskId, o.taskId = some taskId →
      (handle o (some board) = ⟨404, message "Task not found", none⟩ ↔
        ∃ pre x post, L = pre ++ x :: post ∧ x.id = listId ∧ (∀ y ∈ pre, y.id ≠ listId) ∧
          ∀ t ∈ x.tasks, t.id ≠ taskId) := by
  have hor : jsOr (listsGet board.lists) (.arr []) = listsToJs L := by rw [hL]; rfl
  simp only [handle_notFound_iff, hor]
  by_cases hm : ∃ l ∈ L, l.id = listId
  · obtain ⟨pre, x, post, h1, h2, h3⟩ := exists_first_split (fun l => l.id = listId) L hm
    subst h1
    refine ⟨⟨fun hc => absurd hc (run_lists_some pre post x o listId ho h2 h3), ?_⟩, ?_⟩
    · intro hc
      exact absurd h2 (hc x (by simp))
    · intro taskId hot
      rw [run_tasks pre post x o listId taskId ho hot h2 h3]
      constructor
      · intro hc
        exact ⟨pre, x, post, rfl, h2, h3, hc⟩
      · rintro ⟨pre2, x2, post2, e, g1, g2, g3⟩
        obtain ⟨-, e2, -⟩ := split_unique (fun l => l.id = listId) _ _ _ _ _ _ e h2 g1 h3 g2
        rw [e2]; exact g3
  · have hn : ∀ l ∈ L, l.id ≠ listId := fun l hl e => hm ⟨l, hl, e⟩
    have hr := run_lists_none L o listId ho hn
    refine ⟨⟨fun _ => hn, fun _ => hr⟩, ?_⟩
    intro taskId _
    rw [hr]
    constructor
    · intro hc; simp at hc
    · rintro ⟨pre, x, post, e, g1, -, -⟩
      exact absurd g1 (hn x (by rw [e]; simp))

set_option maxRecDepth 2000 in
theorem C13_not_found_exactly_witness :
    handle (.removeTask "a" "t")
        (some { emptyBoard with
          lists := .str "[\x7b\"id\":\"a\",\"title\":\"\",\"tasks\":[]\x7d,\x7b\"id\":\"b\",\"title\":\"\",\"tasks\":[\x7b\"id\":\"t\",\"title\":\"\",\"description\":\"\",\"completed\":false\x7d]\x7d]" })
      = ⟨404, message "Task not found", none⟩ ∧
    ((handle (.removeTask "a" "t")
        (some { emptyBoard with
          lists := .str "[\x7b\"id\":\"a\",\"title\":\"\",\"tasks\":[]\x7d,\x7b\"id\":\"b\",\"title\":\"\",\"tasks\":[\x7b\"id\":\"t\",\"title\":\"\",\"description\":\"\",\"completed\":false\x7d]\x7d]" })
      = ⟨404, message "List not found", none⟩) ↔
      ∀ l ∈ [(⟨"a", "", []⟩ : TaskList), ⟨"b", "", [⟨"t", "", "", false⟩]⟩], l.id ≠ "a") :=
  ⟨by rfl,
    (C13_not_found_exactly [⟨"a", "", []⟩, ⟨"b", "", [⟨"t", "", "", false⟩]⟩]
      { emptyBoard with
          lists := .str "[\x7b\"id\":\"a\",\"title\":\"\",\"tasks\":[]\x7d,\x7b\"id\":\"b\",\"title\":\"\",\"tasks\":[\x7b\"id\":\"t\",\"title\":\"\",\"description\":\"\",\"completed\":false\x7d]\x7d]" }
      (.removeTask "a" "t") "a" (by rfl) rfl).1⟩

/-! ## Append Task -/

theorem isJson_jsOr (a b : JsVal) (ha : a = .undefined ∨ isJson a = true) (hb : isJson b = true) :
    isJson (jsOr a b) = true := by
  unfold jsOr
  split
  · rcases ha with ha | ha
    · subst ha; simp [truthy] at *
    · exact ha
  · exact hb

theorem serialize_arr_some (xs : List JsVal) : ∃ s, serialize (.arr xs) = some s := by
  cases xs <;> simp [serialize]

/-- The object `newTask` of the handler. -/
theorem normalize_newTask (id : String) (t d : JsVal)
    (ht : t = .undefined ∨ isJson t = true) (hd : isJson d = true) :
    stringifyThrows (.obj [("id", .str id), ("title", t), ("description", d),
        ("completed", .bool false)]) = false ∧
    normalize (.obj [("id", .str id), ("title", t), ("description", d),
        ("completed", .bool false)])
      = (if isDefined t then .obj [("id", .str id), ("title", t), ("description", d),
          ("completed", .bool false)]
         else .obj [("id", .str id), ("description", d), ("completed", .bool false)]) := by
  have h2 := stringifyThrows_json d hd
  obtain ⟨sd, hsd⟩ := Option.isSome_iff_exists.1 (serialize_isSome_of_json d hd)
  rcases ht with ht | ht
  · subst ht
    have hk : keysOrdered [("id", JsVal.str id), ("description", d),
        ("completed", JsVal.bool false)] = true := by
      simp [keysOrdered]; decide
    refine ⟨by simp [stringifyThrows, stringifyThrowsProps, h2], ?_⟩
    simp [normalize, normalizeProps, serialize, hsd, normalize_json d hd, isDefined,
      buildProps_ordered _ hk]
  · have h1 := stringifyThrows_json t ht
    obtain ⟨s, hs⟩ := Option.isSome_iff_exists.1 (serialize_isSome_of_json t ht)
    have hdef : isDefined t = true := by cases t <;> simp [isJson] at ht <;> rfl
    refine ⟨by simp [stringifyThrows, stringifyThrowsProps, h1, h2], ?_⟩
    have hk : keysOrdered [("id", JsVal.str id), ("title", t), ("description", d),
        ("completed", JsVal.bool false)] = true := by
      simp [keysOrdered]; decide
    simp [normalize, normalizeProps, serialize, hs, hsd, normalize_json t ht,
      normalize_json d hd, hdef, buildProps_ordered _ hk]

/-- A list object whose tasks need not all be JSON data. -/
theorem normalize_list_obj (i t : String) (ts : List JsVal) :
    normalize (.obj [("id", .str i), ("title", .str t), ("tasks", .arr ts)])
      = .obj [("id", .str i), ("title", .str t), ("tasks", .arr (normalizeElems ts))] := by
  obtain ⟨s, hs⟩ := serialize_arr_some ts
  have hk : keysOrdered [("id", JsVal.str i), ("title", JsVal.str t),
      ("tasks", JsVal.arr (normalizeElems ts))] = true := by
    simp [keysOrdered]; decide
  simp only [normalize, normalizeProps, serialize, hs]
  rw [buildProps_ordered _ hk]

/-- A successful operation whose result `JSON.stringify` accepts: the
handler answers with the status and body of the operation and saves a row
whose column decodes to the result as JSON data. -/
theorem handle_of_done_arr (o : Operation) (board : Board) (xs ys : List JsVal) (st : Nat)
    (body : JsVal) (hdec : listsGet board.lists = .arr xs)
    (hrun : o.run (.arr xs) = .ok (.done (.arr ys) st body))
    (hy : stringifyThrowsElems ys = false) :
    ∃ raw, handle o (some board) = ⟨st, body, some { board with lists := raw }⟩ ∧
      listsGet raw = .arr (normalizeElems ys) := by
  obtain ⟨raw, h1, h2⟩ := listsGet_listsSet_arr ys hy
  have hor : jsOr (listsGet board.lists) (.arr []) = .arr xs := by rw [hdec]; rfl
  exact ⟨raw, by simp only [handle, runHandler, hor, hrun, h1], h2⟩

theorem lists_elems_json (L : List TaskList) : isJsonElems (L.map TaskList.toJs) = true := by
  simpa [listsToJs, isJson] using isJson_listsToJs L

theorem tasks_elems_json (ts : List Task) : isJsonElems (ts.map Task.toJs) = true :=
  isJson_tasks ts

/-- C15, counterexample: the list `list1` holds a task with the id
`1700000000000`; POST /:id/lists/list1/tasks at the clock reading
1700000000000 answers 201 with a task of that same id and saves the list
with two tasks of one id. -/
theorem C15_counterexample :
    postTask 1700000000000
        (some { emptyBoard with
          lists := .str "[\x7b\"id\":\"list1\",\"title\":\"A\",\"tasks\":[\x7b\"id\":\"1700000000000\",\"title\":\"T\",\"description\":\"\",\"completed\":false\x7d]\x7d]" })
        "list1" (.obj [("title", .str "New Task")])
      = ⟨201, .obj [("id", .str "1700000000000"), ("title", .str "New Task"),
            ("description", .str ""), ("completed", .bool false)],
          some { emptyBoard with
            lists := .str "[\x7b\"id\":\"list1\",\"title\":\"A\",\"tasks\":[\x7b\"id\":\"1700000000000\",\"title\":\"T\",\"description\":\"\",\"completed\":false\x7d,\x7b\"id\":\"1700000000000\",\"title\":\"New Task\",\"description\":\"\",\"completed\":false\x7d]\x7d]" }⟩ ∧
    fieldOf (.obj [("id", .str "1700000000000"), ("title", .str "New Task"),
        ("description", .str ""), ("completed", .bool false)]) "id"
      = fieldOf (Task.toJs ⟨"1700000000000", "T", "", false⟩) "id" := by
  exact ⟨by rfl, by rfl⟩

/-- C15, amended: on a board whose `lists` decode to the valid sequence `L`,
if some list of `L` has the id `listId` then, for every payload that is a
JSON object, POST /:id/lists/:listId/tasks matches the first such list `x`
and answers 201 with the new task: its id is the decimal string of the clock
reading, its title the `title` of the payload, its description the
`description` of the payload or `""` when that is absent or falsy, and
`completed` is false. The task is appended after the tasks of `x`, which stay
as they were like every other list, and the saved column decodes to that
sequence (without a `title` key in the new task when the payload has no
title). The id differs from the ids of the tasks of `x` exactly when none of
them is the decimal string of the clock reading. -/
theorem C15_append_task (L : List TaskList) (board : Board) (now : Nat) (listId : String)
    (ps : List (String × JsVal))
    (hL : listsGet board.lists = listsToJs L) (hbody : isJson (.obj ps) = true)
    (hm : ∃ l ∈ L, l.id = listId) :
    ∃ pre x post, L = pre ++ x :: post ∧ x.id = listId ∧ (∀ y ∈ pre, y.id ≠ listId) ∧
      appendTaskOp now listId (.obj ps) (listsToJs L)
        = .ok (.done (.arr (pre.map TaskList.toJs ++
            .obj [("id", .str x.id), ("title", .str x.title),
              ("tasks", .arr (x.tasks.map Task.toJs ++
                [.obj [("id", .str (toString now)), ("title", lookupProp ps "title"),
                  ("description", jsOr (lookupProp ps "description") (.str "")),
                  ("completed", .bool false)]]))] ::
            post.map TaskList.toJs)) 201
          (.obj [("id", .str (toString now)), ("title", lookupProp ps "title"),
            ("description", jsOr (lookupProp ps "description") (.str "")),
            ("completed", .bool false)])) ∧
      (JsVal.str (toString now) ∉ idsOf (x.tasks.map Task.toJs) ↔
        ∀ t ∈ x.tasks, t.id ≠ toString now) ∧
      ∃ raw, postTask now (some board) listId (.obj ps)
          = ⟨201, .obj [("id", .str (toString now)), ("title", lookupProp ps "title"),
              ("description", jsOr (lookupProp ps "description") (.str "")),
              ("completed", .bool false)], some { board with lists := raw }⟩ ∧
        listsGet raw = .arr (pre.map TaskList.toJs ++
            .obj [("id", .str x.id), ("title", .str x.title),
              ("tasks", .arr (x.tasks.map Task.toJs ++
                [if isDefined (lookupProp ps "title") then
                  .obj [("id", .str (toString now)), ("title", lookupProp ps "title"),
                    ("description", jsOr (lookupProp ps "description") (.str "")),
                    ("completed", .bool false)]
                 else
                  .obj [("id", .str (toString now)),
                    ("description", jsOr (lookupProp ps "description") (.str "")),
                    ("completed", .bool false)]]))] ::
            post.map TaskList.toJs) := by
  obtain ⟨pre, x, post, h1, h2, h3⟩ := exists_first_split (fun l => l.id = listId) L hm
  subst h1
  have hop := appendTaskOp_lists pre post x now listId ps h2 h3
  simp only [isJson, Bool.and_eq_true] at hbody
  obtain ⟨hthrow, hnorm⟩ := normalize_newTask (toString now) (lookupProp ps "title")
    (jsOr (lookupProp ps "description") (.str ""))
    (lookupProp_json ps "title" hbody.2)
    (isJson_jsOr _ _ (lookupProp_json ps "description" hbody.2) rfl)
  have hids : JsVal.str (toString now) ∉ idsOf (x.tasks.map Task.toJs) ↔
      ∀ t ∈ x.tasks, t.id ≠ toString now := by
    simp only [idsOf, List.map_map, List.mem_map, Function.comp, not_exists, not_and]
    constructor
    · intro hc t ht e
      exact hc t ht (by simp [Task.toJs, fieldOf, lookupProp, List.find?, e])
    · intro hc t ht e
      apply hc t ht
      simpa [Task.toJs, fieldOf, lookupProp, List.find?] using e
  have hpre := lists_elems_json pre
  have hpost := lists_elems_json post
  have hts := tasks_elems_json x.tasks
  obtain ⟨raw, hh, hg⟩ := handle_of_done_arr (.appendTask now listId (.obj ps)) board _ _ 201 _
    hL hop (by
      simp [stringifyThrowsElems_append, stringifyThrowsElems, stringifyThrows,
        stringifyThrowsProps, stringifyThrowsElems_json _ hpre, stringifyThrowsElems_json _ hpost,
        stringifyThrowsElems_json _ hts]
      simpa [stringifyThrows, stringifyThrowsProps] using hthrow)
  refine ⟨pre, x, post, rfl, h2, h3, hop, hids, raw, hh, ?_⟩
  rw [hg, normalizeElems_append, normalizeElems_json _ hpre]
  simp only [normalizeElems, normalize_list_obj, normalizeElems_append, normalizeElems_json _ hpost,
    normalizeElems_json _ hts, hnorm]

theorem C15_append_task_witness :
    postTask 1700000000000
        (some { emptyBoard with
          lists := .str "[\x7b\"id\":\"list1\",\"title\":\"Test List\",\"tasks\":[]\x7d]" })
        "list1" (.obj [("title", .str "New Task")])
      = ⟨201, .obj [("id", .str "1700000000000"), ("title", .str "New Task"),
            ("description", .str ""), ("completed", .bool false)],
          some { emptyBoard with
            lists := .str "[\x7b\"id\":\"list1\",\"title\":\"Test List\",\"tasks\":[\x7b\"id\":\"1700000000000\",\"title\":\"New Task\",\"description\":\"\",\"completed\":false\x7d]\x7d]" }⟩ ∧
    ∃ pre x post, [(⟨"list1", "Test List", []⟩ : TaskList)] = pre ++ x :: post ∧ x.id = "list1" ∧
      (∀ y ∈ pre, y.id ≠ "list1") ∧
      (JsVal.str (toString 1700000000000) ∉ idsOf (x.tasks.map Task.toJs) ↔
        ∀ t ∈ x.tasks, t.id ≠ toString 1700000000000) := by
  obtain ⟨pre, x, post, h1, h2, h3, -, h5, -⟩ :=
    C15_append_task [⟨"list1", "Test List", []⟩]
      { emptyBoard with
        lists := .str "[\x7b\"id\":\"list1\",\"title\":\"Test List\",\"tasks\":[]\x7d]" }
      1700000000000 "list1" [("title", .str "New Task")] (by rfl) (by rfl)
      ⟨⟨"list1", "Test List", []⟩, by simp, rfl⟩
  exact ⟨by rfl, pre, x, post, h1, h2, h3, h5⟩

/-! ## Replace Task -/

theorem isJson_list_replace (pre post : List TaskList) (i t : String) (ts : List JsVal)
    (h : isJsonElems ts = true) :
    isJson (.arr (pre.map TaskList.toJs ++
      .obj [("id", .str i), ("title", .str t), ("tasks", .arr ts)] ::
      post.map TaskList.toJs)) = true :=
  isJson_lists_replace pre post ⟨i, t, []⟩ _ (isJson_list_obj i t ts h)

/-- C16: on a board whose `lists` decode to a valid sequence in which the
first list with the id `listId` holds the tasks `tpre`, `t`, `tpost`, `t`
being its first task with the id `taskId`, and for every payload that is a
JSON object, PUT /:id/lists/:listId/tasks/:taskId answers 200 with
`merged = { ...t, ...payload }`, in which every key of the payload has the
value of the payload and every other key the value it has in `t`, puts
`merged` where `t` was, with the other tasks of the list and the other lists
as they were, and saves a row whose column decodes to that sequence. -/
theorem C16_replace_task (pre post : List TaskList) (title : String) (tpre tpost : List Task)
    (t : Task) (board : Board) (listId taskId : String) (ps : List (String × JsVal))
    (hL : listsGet board.lists
      = listsToJs (pre ++ ⟨listId, title, tpre ++ t :: tpost⟩ :: post))
    (hbody : isJson (.obj ps) = true)
    (hpre : ∀ y ∈ pre, y.id ≠ listId) (ht : t.id = taskId) (htpre : ∀ y ∈ tpre, y.id ≠ taskId) :
    (∀ k, fieldOf (objectSpread t.toJs (.obj ps)) k
        = if hasKey ps k = true then lookupProp ps k else fieldOf t.toJs k) ∧
    replaceTaskOp listId taskId (.obj ps)
        (listsToJs (pre ++ ⟨listId, title, tpre ++ t :: tpost⟩ :: post))
      = .ok (.done (.arr (pre.map TaskList.toJs ++
          .obj [("id", .str listId), ("title", .str title),
            ("tasks", .arr (tpre.map Task.toJs ++ objectSpread t.toJs (.obj ps) ::
              tpost.map Task.toJs))] ::
          post.map TaskList.toJs)) 200 (objectSpread t.toJs (.obj ps))) ∧
    ∃ raw, putTask (some board) listId taskId (.obj ps)
        = ⟨200, objectSpread t.toJs (.obj ps), some { board with lists := raw }⟩ ∧
      listsGet raw = .arr (pre.map TaskList.toJs ++
          .obj [("id", .str listId), ("title", .str title),
            ("tasks", .arr (tpre.map Task.toJs ++ objectSpread t.toJs (.obj ps) ::
              tpost.map Task.toJs))] ::
          post.map TaskList.toJs) := by
  have hop := replaceTaskOp_lists pre post ⟨listId, title, tpre ++ t :: tpost⟩ tpre tpost t
    listId taskId (.obj ps) rfl hpre rfl ht htpre
  have htj : isJson t.toJs = true := isJson_task t
  have hmj : isJson (objectSpread t.toJs (.obj ps)) = true :=
    isJson_objectSpread _ ps htj hbody
  have hlaw : ∀ k, fieldOf (objectSpread t.toJs (.obj ps)) k
      = if hasKey ps k = true then lookupProp ps k else fieldOf t.toJs k := by
    intro k
    simp only [isJson, Bool.and_eq_true] at hbody
    simp only [Task.toJs, isJson, Bool.and_eq_true] at htj
    exact fieldOf_objectSpread_obj _ ps k htj.1 hbody.1
  have hts : isJsonElems (tpre.map Task.toJs ++ objectSpread t.toJs (.obj ps) ::
      tpost.map Task.toJs) = true := by
    have := tasks_elems_json (tpre ++ t :: tpost)
    rw [isJsonElems_iff] at this ⊢
    intro z hz
    rcases List.mem_append.1 hz with hz | hz
    · exact this z (by simp only [List.map_append, List.mem_append]; exact Or.inl hz)
    · rcases List.mem_cons.1 hz with hz | hz
      · subst hz; exact hmj
      · exact this z (by
          simp only [List.map_append, List.map_cons, List.mem_append, List.mem_cons]
          exact Or.inr (Or.inr hz))
  obtain ⟨raw, -, hh, hg⟩ := handle_of_done (.replaceTask listId taskId (.obj ps)) board _ _ 200 _
    hL hop (isJson_list_replace pre post listId title _ hts)
  exact ⟨hlaw, hop, raw, hh, hg⟩

theorem C16_replace_task_witness :
    putTask (some { emptyBoard with
        lists := .str "[\x7b\"id\":\"list1\",\"title\":\"A\",\"tasks\":[\x7b\"id\":\"task1\",\"title\":\"Old\",\"description\":\"\",\"completed\":false\x7d]\x7d]" })
      "list1" "task1" (.obj [("title", .str "New"), ("completed", .bool true)])
      = ⟨200, .obj [("id", .str "task1"), ("title", .str "New"), ("description", .str ""),
            ("completed", .bool true)],
          some { emptyBoard with
            lists := .str "[\x7b\"id\":\"list1\",\"title\":\"A\",\"tasks\":[\x7b\"id\":\"task1\",\"title\":\"New\",\"description\":\"\",\"completed\":true\x7d]\x7d]" }⟩ ∧
    ∀ k, fieldOf (objectSpread (Task.toJs ⟨"task1", "Old", "", false⟩)
          (.obj [("title", .str "New"), ("completed", .bool true)])) k
        = if hasKey [("title", JsVal.str "New"), ("completed", JsVal.bool true)] k = true
          then lookupProp [("title", .str "New"), ("completed", .bool true)] k
          else fieldOf (Task.toJs ⟨"task1", "Old", "", false⟩) k :=
  ⟨by rfl,
    (C16_replace_task [] [] "A" [] [] ⟨"task1", "Old", "", false⟩
      { emptyBoard with
        lists := .str "[\x7b\"id\":\"list1\",\"title\":\"A\",\"tasks\":[\x7b\"id\":\"task1\",\"title\":\"Old\",\"description\":\"\",\"completed\":false\x7d]\x7d]" }
      "list1" "task1" [("title", .str "New"), ("completed", .bool true)]
      (by rfl) (by rfl) (by simp) rfl (by simp)).1⟩

/-! ## Remove Task -/

/-- C17: on a board whose `lists` decode to a valid sequence in which the
first list with the id `listId` holds the tasks `tpre`, `t`, `tpost`, `t`
being its first task with the id `taskId`, DELETE
/:id/lists/:listId/tasks/:taskId answers 200 with `Task deleted` and saves a
row whose column decodes to the same sequence with the tasks of that list
being `tpre` followed by `tpost`: one task fewer, the others as they were and
in their order, and every other list as it was. -/
theorem C17_remove_task (pre post : List TaskList) (title : String) (tpre tpost : List Task)
    (t : Task) (board : Board) (listId taskId : String)
    (hL : listsGet board.lists
      = listsToJs (pre ++ ⟨listId, title, tpre ++ t :: tpost⟩ :: post))
    (hpre : ∀ y ∈ pre, y.id ≠ listId) (ht : t.id = taskId) (htpre : ∀ y ∈ tpre, y.id ≠ taskId) :
    removeTaskOp listId taskId
        (listsToJs (pre ++ ⟨listId, title, tpre ++ t :: tpost⟩ :: post))
      = .ok (.done (listsToJs (pre ++ ⟨listId, title, tpre ++ tpost⟩ :: post)) 200
          (message "Task deleted")) ∧
    (tpre ++ tpost).length + 1 = (tpre ++ t :: tpost).length ∧
    ∃ raw, deleteTask (some board) listId taskId
        = ⟨200, message "Task deleted", some { board with lists := raw }⟩ ∧
      listsGet raw = listsToJs (pre ++ ⟨listId, title, tpre ++ tpost⟩ :: post) := by
  have hop := removeTaskOp_lists pre post ⟨listId, title, tpre ++ t :: tpost⟩ tpre tpost t
    listId taskId rfl hpre rfl ht htpre
  obtain ⟨raw, -, hh, hg⟩ := handle_of_done (.removeTask listId taskId) board _ _ 200 _
    hL hop (isJson_listsToJs _)
  exact ⟨hop, by simp; omega, raw, hh, hg⟩

set_option maxRecDepth 2000 in
theorem C17_remove_task_witness :
    deleteTask (some { emptyBoard with
        lists := .str "[\x7b\"id\":\"a\",\"title\":\"\",\"tasks\":[\x7b\"id\":\"s\",\"title\":\"\",\"description\":\"\",\"completed\":false\x7d,\x7b\"id\":\"t\",\"title\":\"\",\"description\":\"\",\"completed\":true\x7d]\x7d]" })
      "a" "s"
      = ⟨200, message "Task deleted", some { emptyBoard with
          lists := .str "[\x7b\"id\":\"a\",\"title\":\"\",\"tasks\":[\x7b\"id\":\"t\",\"title\":\"\",\"description\":\"\",\"completed\":true\x7d]\x7d]" }⟩ ∧
    removeTaskOp "a" "s"
        (listsToJs ([] ++ ⟨"a", "", [] ++ ⟨"s", "", "", false⟩ :: [⟨"t", "", "", true⟩]⟩ :: []))
      = .ok (.done (listsToJs ([] ++ ⟨"a", "", [] ++ [⟨"t", "", "", true⟩]⟩ :: [])) 200
          (message "Task deleted")) :=
  ⟨by rfl,
    (C17_remove_task [] [] "" [] [⟨"t", "", "", true⟩] ⟨"s", "", "", false⟩
      { emptyBoard with
        lists := .str "[\x7b\"id\":\"a\",\"title\":\"\",\"tasks\":[\x7b\"id\":\"s\",\"title\":\"\",\"description\":\"\",\"completed\":false\x7d,\x7b\"id\":\"t\",\"title\":\"\",\"description\":\"\",\"completed\":true\x7d]\x7d]" }
      "a" "s" (by rfl) (by simp) rfl (by simp)).1⟩

/-! ## The merge of Replace List and Replace Task -/

theorem findList_split (pre post : List JsVal) (es : List (String × JsVal)) (listId : String)
    (hpre : ∀ y ∈ pre, ∃ qs, y = .obj qs ∧ lookupProp qs "id" ≠ .str listId)
    (hid : lookupProp es "id" = .str listId) :
    findList (.arr (pre ++ .obj es :: post)) listId
      = .ok (pre ++ .obj es :: post, some pre.length) := by
  simp only [findList, asArray, findIndexById_split pre post es listId hpre hid]

theorem replaceListOp_split (pre post : List JsVal) (es : List (String × JsVal))
    (listId : String) (payload : JsVal)
    (hpre : ∀ y ∈ pre, ∃ qs, y = .obj qs ∧ lookupProp qs "id" ≠ .str listId)
    (hid : lookupProp es "id" = .str listId) :
    replaceListOp listId payload (.arr (pre ++ .obj es :: post))
      = .ok (.done (.arr (pre ++ objectSpread (.obj es) payload :: post)) 200
          (objectSpread (.obj es) payload)) := by
  simp only [replaceListOp, findList_split pre post es listId hpre hid, getD_split, set_split]

theorem replaceTaskOp_split (pre post tpre tpost : List JsVal) (es qs : List (String × JsVal))
    (listId taskId : String) (payload : JsVal)
    (hpre : ∀ y ∈ pre, ∃ rs, y = .obj rs ∧ lookupProp rs "id" ≠ .str listId)
    (hid : lookupProp es "id" = .str listId)
    (hts : lookupProp es "tasks" = .arr (tpre ++ .obj qs :: tpost))
    (htpre : ∀ y ∈ tpre, ∃ rs, y = .obj rs ∧ lookupProp rs "id" ≠ .str taskId)
    (htid : lookupProp qs "id" = .str taskId) :
    replaceTaskOp listId taskId payload (.arr (pre ++ .obj es :: post))
      = .ok (.done (.arr (pre ++
          .obj (setProp es "tasks" (.arr (tpre ++ objectSpread (.obj qs) payload :: tpost))) ::
          post)) 200 (objectSpread (.obj qs) payload)) := by
  simp only [replaceTaskOp, findTask, findList_split pre post es listId hpre hid, getD_split,
    getField, hts, asArray, findIndexById_split tpre tpost qs taskId htpre htid, set_split,
    setField]

theorem keysOrdered_of_json (ps : List (String × JsVal)) (h : isJson (.obj ps) = true) :
    keysOrdered ps = true := by
  simp only [isJson, Bool.and_eq_true] at h
  exact h.1

/-- C18: in a decoded sequence (JSON data) whose first list with the id
`listId` is the object `es`, and for every payload `ps` that is a JSON
object, whatever its keys: PUT /:id/lists/:listId answers 200 with
`{ ...es, ...ps }` and stores it in the place of `es`; in it every key of the
payload has the value of the payload, a `tasks` key included, and every other
key has the value it has in `es`. The same holds for PUT
/:id/lists/:listId/tasks/:taskId and the first task `qs` with the id `taskId`
of that list. -/
theorem C18_permissive_merge (board : Board) (pre post : List JsVal)
    (es ps : List (String × JsVal)) (listId : String)
    (hL : listsGet board.lists = .arr (pre ++ .obj es :: post))
    (hj : isJson (.arr (pre ++ .obj es :: post)) = true) (hbody : isJson (.obj ps) = true)
    (hpre : ∀ y ∈ pre, ∃ qs, y = .obj qs ∧ lookupProp qs "id" ≠ .str listId)
    (hid : lookupProp es "id" = .str listId) :
    ((∃ raw, putList (some board) listId (.obj ps)
          = ⟨200, objectSpread (.obj es) (.obj ps), some { board with lists := raw }⟩ ∧
        listsGet raw = .arr (pre ++ objectSpread (.obj es) (.obj ps) :: post)) ∧
      (∀ k, fieldOf (objectSpread (.obj es) (.obj ps)) k
          = if hasKey ps k = true then lookupProp ps k else lookupProp es k) ∧
      (hasKey ps "tasks" = true →
        fieldOf (objectSpread (.obj es) (.obj ps)) "tasks" = lookupProp ps "tasks")) ∧
    ∀ tpre qs tpost taskId, lookupProp es "tasks" = .arr (tpre ++ .obj qs :: tpost) →
      (∀ y ∈ tpre, ∃ rs, y = .obj rs ∧ lookupProp rs "id" ≠ .str taskId) →
      lookupProp qs "id" = .str taskId →
      (∃ raw, putTask (some board) listId taskId (.obj ps)
          = ⟨200, objectSpread (.obj qs) (.obj ps), some { board with lists := raw }⟩ ∧
        listsGet raw = .arr (pre ++
          .obj (setProp es "tasks" (.arr (tpre ++ objectSpread (.obj qs) (.obj ps) :: tpost))) ::
          post)) ∧
      ∀ k, fieldOf (objectSpread (.obj qs) (.obj ps)) k
          = if hasKey ps k = true then lookupProp ps k else lookupProp qs k := by
  have hes : isJson (.obj es) = true := isJson_mem pre post _ hj
  have hlaw : ∀ k, fieldOf (objectSpread (.obj es) (.obj ps)) k
      = if hasKey ps k = true then lookupProp ps k else lookupProp es k :=
    fun k => fieldOf_objectSpread_obj es ps k (keysOrdered_of_json es hes)
      (keysOrdered_of_json ps hbody)
  refine ⟨⟨?_, hlaw, ?_⟩, ?_⟩
  · obtain ⟨raw, -, hh, hg⟩ := handle_of_done (.replaceList listId (.obj ps)) board _ _ 200 _
      hL (replaceListOp_split pre post es listId (.obj ps) hpre hid)
      (isJson_arr_replace pre post _ _ hj (isJson_objectSpread es ps hes hbody))
    exact ⟨raw, hh, hg⟩
  · intro hk
    rw [hlaw, if_pos hk]
  · intro tpre qs tpost taskId hts htpre htid
    have hesp : isJsonProps es = true := by
      simp only [isJson, Bool.and_eq_true] at hes
      exact hes.2
    have htsj : isJson (.arr (tpre ++ .obj qs :: tpost)) = true := by
      rcases lookupProp_json es "tasks" hesp with h | h
      · rw [hts] at h; cases h
      · rw [hts] at h; exact h
    have hqs : isJson (.obj qs) = true := isJson_mem tpre tpost _ htsj
    have hnew : isJson (.obj (setProp es "tasks"
        (.arr (tpre ++ objectSpread (.obj qs) (.obj ps) :: tpost)))) = true := by
      simp only [isJson, Bool.and_eq_true]
      exact ⟨keysOrdered_setProp es _ _ (keysOrdered_of_json es hes),
        isJsonProps_setProp es _ _ hesp
          (isJson_arr_replace tpre tpost _ _ htsj (isJson_objectSpread qs ps hqs hbody))⟩
    obtain ⟨raw, -, hh, hg⟩ := handle_of_done (.replaceTask listId taskId (.obj ps)) board _ _
      200 _ hL
      (replaceTaskOp_split pre post tpre tpost es qs listId taskId (.obj ps) hpre hid hts htpre
        htid)
      (isJson_arr_replace pre post _ _ hj hnew)
    exact ⟨⟨raw, hh, hg⟩, fun k => fieldOf_objectSpread_obj qs ps k (keysOrdered_of_json qs hqs)
      (keysOrdered_of_json ps hbody)⟩

theorem C18_permissive_merge_witness :
    putList (some { emptyBoard with
        lists := .str "[\x7b\"id\":\"a\",\"title\":\"A\",\"tasks\":[]\x7d]" })
      "a" (.obj [("color", .str "red"), ("tasks", .arr [.str "x"])])
      = ⟨200, .obj [("id", .str "a"), ("title", .str "A"), ("tasks", .arr [.str "x"]),
            ("color", .str "red")],
          some { emptyBoard with
            lists := .str "[\x7b\"id\":\"a\",\"title\":\"A\",\"tasks\":[\"x\"],\"color\":\"red\"\x7d]" }⟩ ∧
    (∀ k, fieldOf (objectSpread
          (.obj [("id", .str "a"), ("title", .str "A"), ("tasks", .arr [])])
          (.obj [("color", .str "red"), ("tasks", .arr [.str "x"])])) k
        = if hasKey [("color", JsVal.str "red"), ("tasks", JsVal.arr [.str "x"])] k = true
          then lookupProp [("color", .str "red"), ("tasks", .arr [.str "x"])] k
          else lookupProp [("id", .str "a"), ("title", .str "A"), ("tasks", .arr [])] k) :=
  ⟨by rfl,
    (C18_permissive_merge
      { emptyBoard with lists := .str "[\x7b\"id\":\"a\",\"title\":\"A\",\"tasks\":[]\x7d]" }
      [] [] [("id", .str "a"), ("title", .str "A"), ("tasks", .arr [])]
      [("color", .str "red"), ("tasks", .arr [.str "x"])] "a"
      (by rfl) (by rfl) (by rfl) (by simp) (by rfl)).1.2.1⟩

/-! ## The outcomes of the handlers -/

theorem listsSet_ok (x : JsVal) : ∃ raw, listsSet x = .ok raw := by
  rcases listsSet_cases x with ⟨-, h⟩ | ⟨-, -, h⟩ | ⟨s, -, -, h⟩
  · exact ⟨_, h⟩
  · exact ⟨_, h⟩
  · exact ⟨_, h⟩

/-- On a valid sequence an operation whose request body is an object signals
`not found` or succeeds. -/
theorem run_lists_outcome (L : List TaskList) (o : Operation)
    (hb : ∀ p, o.reqBody = some p → ∃ ps, p = .obj ps) :
    (∃ m, o.run (listsToJs L) = .ok (.notFound m)) ∨
      ∃ l st b, o.run (listsToJs L) = .ok (.done l st b) := by
  cases o with
  | appendList now payload =>
    obtain ⟨ps, rfl⟩ := hb payload rfl
    exact Or.inr ⟨_, _, _, appendListOp_arr now ps _⟩
  | replaceList id payload =>
    by_cases hm : ∃ l ∈ L, l.id = id
    · obtain ⟨pre, x, post, h1, h2, h3⟩ := exists_first_split (fun l => l.id = id) L hm
      subst h1
      exact Or.inr ⟨_, _, _, replaceListOp_lists pre post x id payload h2 h3⟩
    · exact Or.inl ⟨_, run_lists_none L (.replaceList id payload) id rfl
        (fun l hl e => hm ⟨l, hl, e⟩)⟩
  | removeList id =>
    by_cases hm : ∃ l ∈ L, l.id = id
    · obtain ⟨pre, x, post, h1, h2, h3⟩ := exists_first_split (fun l => l.id = id) L hm
      subst h1
      exact Or.inr ⟨_, _, _, removeListOp_lists pre post x id h2 h3⟩
    · exact Or.inl ⟨_, run_lists_none L (.removeList id) id rfl (fun l hl e => hm ⟨l, hl, e⟩)⟩
  | appendTask now id payload =>
    obtain ⟨ps, rfl⟩ := hb payload rfl
    by_cases hm : ∃ l ∈ L, l.id = id
    · obtain ⟨pre, x, post, h1, h2, h3⟩ := exists_first_split (fun l => l.id = id) L hm
      subst h1
      exact Or.inr ⟨_, _, _, appendTaskOp_lists pre post x now id ps h2 h3⟩
    · exact Or.inl ⟨_, run_lists_none L (.appendTask now id (.obj ps)) id rfl
        (fun l hl e => hm ⟨l, hl, e⟩)⟩
  | replaceTask id tid payload =>
    by_cases hm : ∃ l ∈ L, l.id = id
    · obtain ⟨pre, x, post, h1, h2, h3⟩ := exists_first_split (fun l => l.id = id) L hm
      subst h1
      by_cases ht : ∃ t ∈ x.tasks, t.id = tid
      · obtain ⟨tpre, t, tpost, g1, g2, g3⟩ := exists_first_split (fun t => t.id = tid) _ ht
        exact Or.inr ⟨_, _, _,
          replaceTaskOp_lists pre post x tpre tpost t id tid payload h2 h3 g1 g2 g3⟩
      · exact Or.inl ⟨_, (run_tasks pre post x (.replaceTask id tid payload) id tid rfl rfl h2
          h3).2 (fun t ht2 e => ht ⟨t, ht2, e⟩)⟩
    · exact Or.inl ⟨_, run_lists_none L (.replaceTask id tid payload) id rfl
        (fun l hl e => hm ⟨l, hl, e⟩)⟩
  | removeTask id tid =>
    by_cases hm : ∃ l ∈ L, l.id = id
    · obtain ⟨pre, x, post, h1, h2, h3⟩ := exists_first_split (fun l => l.id = id) L hm
      subst h1
      by_cases ht : ∃ t ∈ x.tasks, t.id = tid
      · obtain ⟨tpre, t, tpost, g1, g2, g3⟩ := exists_first_split (fun t => t.id = tid) _ ht
        exact Or.inr ⟨_, _, _, removeTaskOp_lists pre post x tpre tpost t id tid h2 h3 g1 g2 g3⟩
      · exact Or.inl ⟨_, (run_tasks pre post x (.removeTask id tid) id tid rfl rfl h2
          h3).2 (fun t ht2 e => ht ⟨t, ht2, e⟩)⟩
    · exact Or.inl ⟨_, run_lists_none L (.removeTask id tid) id rfl
        (fun l hl e => hm ⟨l, hl, e⟩)⟩

/-! ## The outcomes of the handlers on every decoded value -/

theorem getField_of_nullish (x : JsVal) (k : String) (h : isNullish x = true) :
    getField x k = .error .typeError := by
  cases x <;> simp [isNullish] at h <;> rfl

theorem getField_of_not_nullish (x : JsVal) (k : String) (h : isNullish x = false) :
    getField x k = .ok (fieldOf x k) := by
  cases x <;> simp [isNullish] at h <;> rfl

theorem asArray_of_not_array (v : JsVal) (h : isArray v = false) :
    asArray v = .error .typeError := by
  cases v <;> simp [isArray] at h <;> rfl

theorem isArray_iff (v : JsVal) : isArray v = true ↔ ∃ xs, v = .arr xs := by
  cases v <;> simp [isArray]

/-- The lookup `findIndex` against the element at which it stops. -/
theorem findIndexById_firstStop (xs : List JsVal) (id : String) :
    (firstStop xs id = none ∧ findIndexById xs id = .ok none) ∨
    (∃ x, firstStop xs id = some x ∧ isNullish x = true ∧
      findIndexById xs id = .error .typeError) ∨
    (∃ x i, firstStop xs id = some x ∧ isNullish x = false ∧
      findIndexById xs id = .ok (some i) ∧ xs.getD i .undefined = x) := by
  induction xs with
  | nil => exact Or.inl ⟨rfl, rfl⟩
  | cons y ys ih =>
    cases hn : isNullish y with
    | true =>
      refine Or.inr (Or.inl ⟨y, ?_, hn, ?_⟩)
      · simp [firstStop, hn]
      · simp [findIndexById, getField_of_nullish y "id" hn]
    | false =>
      have hg := getField_of_not_nullish y "id" hn
      cases hs : strictEqStr (fieldOf y "id") id with
      | true =>
        refine Or.inr (Or.inr ⟨y, 0, ?_, hn, ?_, rfl⟩)
        · simp [firstStop, hn, hs]
        · simp [findIndexById, hg, hs]
      | false =>
        have hfs : firstStop (y :: ys) id = firstStop ys id := by
          simp [firstStop, hn, hs]
        rcases ih with ⟨h1, h2⟩ | ⟨x, h1, h2, h3⟩ | ⟨x, i, h1, h2, h3, h4⟩
        · exact Or.inl ⟨by rw [hfs, h1], by simp [findIndexById, hg, hs, h2]⟩
        · exact Or.inr (Or.inl ⟨x, by rw [hfs, h1], h2, by simp [findIndexById, hg, hs, h3]⟩)
        · exact Or.inr (Or.inr ⟨x, i + 1, by rw [hfs, h1], h2,
            by simp [findIndexById, hg, hs, h3], by simpa using h4⟩)

/-- The lookup of a list on every value. -/
theorem findList_cases (v : JsVal) (id : String) :
    (isArray v = false ∧ findList v id = .error .typeError) ∨
    (∃ xs, v = .arr xs ∧ firstStop xs id = none ∧ findList v id = .ok (xs, none)) ∨
    (∃ xs x, v = .arr xs ∧ firstStop xs id = some x ∧ isNullish x = true ∧
      findList v id = .error .typeError) ∨
    (∃ xs x i, v = .arr xs ∧ firstStop xs id = some x ∧ isNullish x = false ∧
      findList v id = .ok (xs, some i) ∧ xs.getD i .undefined = x) := by
  cases ha : isArray v with
  | false => exact Or.inl ⟨rfl, by simp [findList, asArray_of_not_array v ha]⟩
  | true =>
    obtain ⟨xs, rfl⟩ := (isArray_iff v).1 ha
    rcases findIndexById_firstStop xs id with ⟨h1, h2⟩ | ⟨x, h1, h2, h3⟩ | ⟨x, i, h1, h2, h3, h4⟩
    · exact Or.inr (Or.inl ⟨xs, rfl, h1, by simp [findList, asArray, h2]⟩)
    · exact Or.inr (Or.inr (Or.inl ⟨xs, x, rfl, h1, h2, by simp [findList, asArray, h3]⟩))
    · exact Or.inr (Or.inr (Or.inr ⟨xs, x, i, rfl, h1, h2, by simp [findList, asArray, h3], h4⟩))

/-- The lookup of a task in the `tasks` of a found list. -/
theorem findTask_found (xs : List JsVal) (x : JsVal) (i : Nat) (id tid : String)
    (hfl : findList (.arr xs) id = .ok (xs, some i)) (hx : xs.getD i .undefined = x)
    (hn : isNullish x = false) :
    (lookupThrows (fieldOf x "tasks") tid = true ∧
      findTask (.arr xs) id tid = .error .typeError) ∨
    (lookupThrows (fieldOf x "tasks") tid = false ∧
      ∃ r, findTask (.arr xs) id tid = .ok (some (xs, i, r))) := by
  have hg : getField (xs.getD i .undefined) "tasks" = .ok (fieldOf x "tasks") := by
    rw [hx]; exact getField_of_not_nullish x "tasks" hn
  cases ha : isArray (fieldOf x "tasks") with
  | false =>
    left
    have hl : lookupThrows (fieldOf x "tasks") tid = true := by
      cases hv : fieldOf x "tasks" <;> simp [hv, isArray] at ha <;> rfl
    exact ⟨hl, by simp only [findTask, hfl, hg, asArray_of_not_array _ ha]⟩
  | true =>
    obtain ⟨ts, hts⟩ := (isArray_iff _).1 ha
    rw [hts] at hg ⊢
    rcases findIndexById_firstStop ts tid with ⟨h1, h2⟩ | ⟨t, h1, h2, h3⟩ | ⟨t, j, h1, h2, h3, h4⟩
    · exact Or.inr ⟨by simp [lookupThrows, h1], none, by simp only [findTask, hfl, hg, asArray, h2]⟩
    · exact Or.inl ⟨by simp [lookupThrows, h1, h2], by simp only [findTask, hfl, hg, asArray, h3]⟩
    · exact Or.inr ⟨by simp [lookupThrows, h1, h2], some (ts, j),
        by simp only [findTask, hfl, hg, asArray, h3]⟩

/-- The lookups of the task handlers on every value. -/
theorem findTask_cases (v : JsVal) (id tid : String) :
    (taskLookupThrows v id tid = true ∧ findTask v id tid = .error .typeError) ∨
    (taskLookupThrows v id tid = false ∧ ∃ r, findTask v id tid = .ok r) := by
  rcases findList_cases v id with ⟨h1, h2⟩ | ⟨xs, rfl, h1, h2⟩ | ⟨xs, x, rfl, h1, h2, h3⟩ |
    ⟨xs, x, i, rfl, h1, h2, h3, h4⟩
  · left
    refine ⟨?_, by simp [findTask, h2]⟩
    cases v <;> simp [isArray] at h1 <;> rfl
  · exact Or.inr ⟨by simp [taskLookupThrows, h1], none, by simp [findTask, h2]⟩
  · exact Or.inl ⟨by simp [taskLookupThrows, h1, h2], by simp [findTask, h3]⟩
  · rcases findTask_found xs x i id tid h3 h4 h2 with ⟨g1, g2⟩ | ⟨g1, r, g2⟩
    · exact Or.inl ⟨by simp [taskLookupThrows, h1, h2, g1], g2⟩
    · exact Or.inr ⟨by simp [taskLookupThrows, h1, h2, g1], _, g2⟩

/-- An operation throws exactly on the shapes of `throwsOn`. -/
theorem run_throwsOn (o : Operation) (v : JsVal) :
    (o.throwsOn v = true ∧ o.run v = .error .typeError) ∨
    (o.throwsOn v = false ∧ ∃ s, o.run v = .ok s) := by
  cases o with
  | appendList now payload =>
    cases hp : isNullish payload with
    | true =>
      exact Or.inl ⟨by simp [Operation.throwsOn, hp],
        by simp [Operation.run, appendListOp, getField_of_nullish payload "title" hp]⟩
    | false =>
      have hg := getField_of_not_nullish payload "title" hp
      cases ha : isArray v with
      | false =>
        exact Or.inl ⟨by simp [Operation.throwsOn, hp, ha],
          by simp [Operation.run, appendListOp, hg, asArray_of_not_array v ha]⟩
      | true =>
        obtain ⟨xs, rfl⟩ := (isArray_iff v).1 ha
        exact Or.inr ⟨by simp [Operation.throwsOn, hp, isArray],
          by simp [Operation.run, appendListOp, hg, asArray]⟩
  | replaceList id payload =>
    rcases findList_cases v id with ⟨h1, h2⟩ | ⟨xs, rfl, h1, h2⟩ | ⟨xs, x, rfl, h1, h2, h3⟩ |
      ⟨xs, x, i, rfl, h1, h2, h3, h4⟩
    · left
      refine ⟨?_, by simp [Operation.run, replaceListOp, h2]⟩
      cases v <;> simp [isArray] at h1 <;> rfl
    · exact Or.inr ⟨by simp [Operation.throwsOn, lookupThrows, h1],
        by simp [Operation.run, replaceListOp, h2]⟩
    · exact Or.inl ⟨by simp [Operation.throwsOn, lookupThrows, h1, h2],
        by simp [Operation.run, replaceListOp, h3]⟩
    · exact Or.inr ⟨by simp [Operation.throwsOn, lookupThrows, h1, h2],
        by simp [Operation.run, replaceListOp, h3]⟩
  | removeList id =>
    rcases findList_cases v id with ⟨h1, h2⟩ | ⟨xs, rfl, h1, h2⟩ | ⟨xs, x, rfl, h1, h2, h3⟩ |
      ⟨xs, x, i, rfl, h1, h2, h3, h4⟩
    · left
      refine ⟨?_, by simp [Operation.run, removeListOp, h2]⟩
      cases v <;> simp [isArray] at h1 <;> rfl
    · exact Or.inr ⟨by simp [Operation.throwsOn, lookupThrows, h1],
        by simp [Operation.run, removeListOp, h2]⟩
    · exact Or.inl ⟨by simp [Operation.throwsOn, lookupThrows, h1, h2],
        by simp [Operation.run, removeListOp, h3]⟩
    · exact Or.inr ⟨by simp [Operation.throwsOn, lookupThrows, h1, h2],
        by simp [Operation.run, removeListOp, h3]⟩
  | appendTask now id payload =>
    rcases findList_cases v id with ⟨h1, h2⟩ | ⟨xs, rfl, h1, h2⟩ | ⟨xs, x, rfl, h1, h2, h3⟩ |
      ⟨xs, x, i, rfl, h1, h2, h3, h4⟩
    · left
      refine ⟨?_, by simp [Operation.run, appendTaskOp, h2]⟩
      cases v <;> simp [isArray] at h1 <;> rfl
    · exact Or.inr ⟨by simp [Operation.throwsOn, h1],
        by simp [Operation.run, appendTaskOp, h2]⟩
    · exact Or.inl ⟨by simp [Operation.throwsOn, h1, h2],
        by simp [Operation.run, appendTaskOp, h3]⟩
    · cases hp : isNullish payload with
      | true =>
        exact Or.inl ⟨by simp [Operation.throwsOn, h1, h2, hp],
          by simp [Operation.run, appendTaskOp, h3, getField_of_nullish payload _ hp]⟩
      | false =>
        have hg1 := getField_of_not_nullish payload "title" hp
        have hg2 := getField_of_not_nullish payload "description" hp
        have hg3 : getField (xs.getD i .undefined) "tasks" = .ok (fieldOf x "tasks") := by
          rw [h4]; exact getField_of_not_nullish x "tasks" h2
        cases ha : isArray (fieldOf x "tasks") with
        | false =>
          exact Or.inl ⟨by simp [Operation.throwsOn, h1, h2, hp, ha],
            by simp only [Operation.run, appendTaskOp, h3, hg1, hg2, hg3,
              asArray_of_not_array _ ha]⟩
        | true =>
          obtain ⟨ts, hts⟩ := (isArray_iff _).1 ha
          rw [hts] at hg3
          exact Or.inr ⟨by simp [Operation.throwsOn, h1, h2, hp, ha],
            by simp only [Operation.run, appendTaskOp, h3, hg1, hg2, hg3, asArray]; exact ⟨_, rfl⟩⟩
  | replaceTask id tid payload =>
    rcases findTask_cases v id tid with ⟨h1, h2⟩ | ⟨h1, r, h2⟩
    · exact Or.inl ⟨by simp [Operation.throwsOn, h1],
        by simp [Operation.run, replaceTaskOp, h2]⟩
    · refine Or.inr ⟨by simp [Operation.throwsOn, h1], ?_⟩
      simp only [Operation.run, replaceTaskOp, h2]
      rcases r with _ | ⟨xs, i, _ | ⟨ts, j⟩⟩ <;> exact ⟨_, rfl⟩
  | removeTask id tid =>
    rcases findTask_cases v id tid with ⟨h1, h2⟩ | ⟨h1, r, h2⟩
    · exact Or.inl ⟨by simp [Operation.throwsOn, h1],
        by simp [Operation.run, removeTaskOp, h2]⟩
    · refine Or.inr ⟨by simp [Operation.throwsOn, h1], ?_⟩
      simp only [Operation.run, removeTaskOp, h2]
      rcases r with _ | ⟨xs, i, _ | ⟨ts, j⟩⟩ <;> exact ⟨_, rfl⟩

/-- C19, counterexample: a column that decodes to the object `{}`, and a
column that decodes to a sequence whose list `a` has no `tasks`, are values
the getter returns; POST /:id/lists on the first and POST
/:id/lists/a/tasks on the second answer 500 and save nothing. -/
theorem C19_counterexample :
    listsGet (.str "\x7b\x7d") = .obj [] ∧
    handle (.appendList 1700000000000 (.obj [("title", .str "T")]))
        (some { emptyBoard with lists := .str "\x7b\x7d" })
      = ⟨500, message "Error adding list", none⟩ ∧
    listsGet (.str "[\x7b\"id\":\"a\"\x7d]") = .arr [.obj [("id", .str "a")]] ∧
    handle (.appendTask 1700000000000 "a" (.obj [("title", .str "T")]))
        (some { emptyBoard with lists := .str "[\x7b\"id\":\"a\"\x7d]" })
      = ⟨500, message "Error adding task", none⟩ := by
  exact ⟨by rfl, by rfl, by rfl, by rfl⟩

/-- C19, amended: for every board and every operation, with any ids and any
payload, the handler answers 500 and saves nothing exactly when the operation
throws on `board.lists || []`, and that is exactly on the shapes of
`throwsOn`; on every other shape it ends in `List not found` or `Task not
found` (404, nothing saved) or in success (200 or 201, the row saved). A
decoded value that is falsy is replaced by the empty sequence; on a decoded
value that is truthy and not an array every operation throws. -/
theorem C19_outcome (board : Board) (o : Operation) :
    (o.throwsOn (jsOr (listsGet board.lists) (.arr [])) = true →
      handle o (some board) = ⟨500, message o.errorMessage, none⟩) ∧
    (o.throwsOn (jsOr (listsGet board.lists) (.arr [])) = false →
      (∃ m, handle o (some board) = ⟨404, message m, none⟩ ∧
          (m = "List not found" ∨ m = "Task not found")) ∨
      ∃ st body raw, (st = 200 ∨ st = 201) ∧
        handle o (some board) = ⟨st, body, some { board with lists := raw }⟩) ∧
    ((handle o (some board)).status = 500 ↔
      o.throwsOn (jsOr (listsGet board.lists) (.arr [])) = true) ∧
    (truthy (listsGet board.lists) = false →
      jsOr (listsGet board.lists) (.arr []) = .arr []) ∧
    (truthy (listsGet board.lists) = true → isArray (listsGet board.lists) = false →
      o.throwsOn (jsOr (listsGet board.lists) (.arr [])) = true) := by
  have hlast : truthy (listsGet board.lists) = true → isArray (listsGet board.lists) = false →
      o.throwsOn (jsOr (listsGet board.lists) (.arr [])) = true := by
    intro ht ha
    have hor : jsOr (listsGet board.lists) (.arr []) = listsGet board.lists := by
      simp [jsOr, ht]
    rw [hor]
    generalize listsGet board.lists = v at ha
    cases o <;> cases v <;> simp [isArray] at ha <;>
      simp [Operation.throwsOn, lookupThrows, taskLookupThrows, isArray]
  have hfalsy : truthy (listsGet board.lists) = false →
      jsOr (listsGet board.lists) (.arr []) = .arr [] := by
    intro hf
    simp [jsOr, hf]
  rcases run_throwsOn o (jsOr (listsGet board.lists) (.arr [])) with ⟨h1, h2⟩ | ⟨h1, s, h2⟩
  · have hh : handle o (some board) = ⟨500, message o.errorMessage, none⟩ := by
      simp only [handle, runHandler, h2]
    refine ⟨fun _ => hh, ?_, ⟨fun _ => h1, fun _ => by rw [hh]⟩, hfalsy, hlast⟩
    intro h
    rw [h1] at h
    cases h
  · have hout : ((∃ m, handle o (some board) = ⟨404, message m, none⟩ ∧
          (m = "List not found" ∨ m = "Task not found")) ∨
        ∃ st body raw, (st = 200 ∨ st = 201) ∧
          handle o (some board) = ⟨st, body, some { board with lists := raw }⟩) ∧
        (handle o (some board)).status ≠ 500 := by
      cases s with
      | notFound m =>
        have hh : handle o (some board) = ⟨404, message m, none⟩ := by
          simp only [handle, runHandler, h2]
        exact ⟨Or.inl ⟨m, hh, run_notFound_message o _ m h2⟩, by rw [hh]; simp⟩
      | done l st b =>
        obtain ⟨raw, hs⟩ := listsSet_ok l
        have hst := run_done_status o _ l st b h2
        have hh : handle o (some board) = ⟨st, b, some { board with lists := raw }⟩ := by
          simp only [handle, runHandler, h2, hs]
        refine ⟨Or.inr ⟨st, b, raw, hst, hh⟩, ?_⟩
        rw [hh]
        rcases hst with h | h <;> simp [h]
    refine ⟨?_, fun _ => hout.1, ⟨fun h => absurd h hout.2, ?_⟩, hfalsy, hlast⟩
    · intro h
      rw [h1] at h
      cases h
    · intro h
      rw [h1] at h
      cases h

theorem C19_outcome_witness :
    handle (.replaceTask "a" "t" (.obj [("title", .str "T")]))
        (some { emptyBoard with lists := .str "[\x7b\"id\":\"a\"\x7d]" })
      = ⟨500, message "Error updating task", none⟩ ∧
    (handle (.removeList "a")
        (some { emptyBoard with lists := .str "[\x7b\"id\":\"a\"\x7d]" })).status ≠ 500 ∧
    handle (.removeList "a") (some { emptyBoard with lists := .str "[\x7b\"id\":\"a\"\x7d]" })
      = ⟨200, message "List deleted", some { emptyBoard with lists := .str "[]" }⟩ ∧
    handle (.appendList 1 (.arr [])) (some { emptyBoard with lists := .str "null" })
      = ⟨201, .obj [("id", .str "1"), ("title", .undefined), ("tasks", .arr [])],
          some { emptyBoard with lists := .str "[\x7b\"id\":\"1\",\"tasks\":[]\x7d]" }⟩ ∧
    handle (.removeList "a") (some { emptyBoard with lists := .str "[null]" })
      = ⟨500, message "Error deleting list", none⟩ :=
  ⟨(C19_outcome { emptyBoard with lists := .str "[\x7b\"id\":\"a\"\x7d]" }
      (.replaceTask "a" "t" (.obj [("title", .str "T")]))).1 (by rfl),
    fun h => Bool.noConfusion
      (((C19_outcome { emptyBoard with lists := .str "[\x7b\"id\":\"a\"\x7d]" }
        (.removeList "a")).2.2.1.1 h).symm.trans (by rfl : Operation.throwsOn (.removeList "a")
          (jsOr (listsGet (Raw.str "[\x7b\"id\":\"a\"\x7d]")) (.arr [])) = false)),
    by rfl, by rfl, by rfl⟩

/-! ## The creation of a board -/

/-- C20: POST / with a body that is an object; `accepts` is the verdict of
the store on the new row. When the `name` of the body is absent or falsy
(`undefined`, `null`, the empty string) the answer is 400 `Board name is
required` and no row is created. Otherwise the handler hands to the store the
row whose owner is the authenticated user, whose name is the name of the
body, whose description is the description of the body or `null`, whose
position is the position of the body or 0, and whose `lists` column is the
text `[]`, which decodes to the empty sequence, whatever `lists` the body
carries: when the store takes the row the answer is 201 with that row, which
is saved, and when it does not the answer is 500 `Error creating board` and
no row is created. -/
theorem C20_create_board (accepts : Board → Bool) (userId newId : Nat)
    (ps : List (String × JsVal)) :
    postBoard accepts userId newId (.obj ps)
      = (if truthy (lookupProp ps "name") then
          (if accepts ⟨newId, userId, lookupProp ps "name",
              jsOr (lookupProp ps "description") .null, .undefined,
              jsOr (lookupProp ps "position") (.num (.int 0)), .str "[]"⟩ = true then
            ⟨201,
              Board.toJSON ⟨newId, userId, lookupProp ps "name",
                jsOr (lookupProp ps "description") .null, .undefined,
                jsOr (lookupProp ps "position") (.num (.int 0)), .str "[]"⟩,
              some ⟨newId, userId, lookupProp ps "name",
                jsOr (lookupProp ps "description") .null, .undefined,
                jsOr (lookupProp ps "position") (.num (.int 0)), .str "[]"⟩⟩
          else ⟨500, message "Error creating board", none⟩)
         else ⟨400, message "Board name is required", none⟩) ∧
    (lookupProp ps "name" = .undefined →
      postBoard accepts userId newId (.obj ps)
        = ⟨400, message "Board name is required", none⟩) ∧
    listsGet (.str "[]") = .arr [] ∧
    fieldOf (Board.toJSON ⟨newId, userId, lookupProp ps "name",
        jsOr (lookupProp ps "description") .null, .undefined,
        jsOr (lookupProp ps "position") (.num (.int 0)), .str "[]"⟩) "lists" = .arr [] := by
  have hs : listsSet (.arr []) = .ok (.str "[]") := by rfl
  have h1 : postBoard accepts userId newId (.obj ps)
      = (if truthy (lookupProp ps "name") then
          (if accepts ⟨newId, userId, lookupProp ps "name",
              jsOr (lookupProp ps "description") .null, .undefined,
              jsOr (lookupProp ps "position") (.num (.int 0)), .str "[]"⟩ = true then
            ⟨201,
              Board.toJSON ⟨newId, userId, lookupProp ps "name",
                jsOr (lookupProp ps "description") .null, .undefined,
                jsOr (lookupProp ps "position") (.num (.int 0)), .str "[]"⟩,
              some ⟨newId, userId, lookupProp ps "name",
                jsOr (lookupProp ps "description") .null, .undefined,
                jsOr (lookupProp ps "position") (.num (.int 0)), .str "[]"⟩⟩
          else ⟨500, message "Error creating board", none⟩)
         else ⟨400, message "Board name is required", none⟩) := by
    simp only [postBoard, getField]
    split
    · by_cases hacc : accepts ⟨newId, userId, lookupProp ps "name",
          jsOr (lookupProp ps "description") .null, .undefined,
          jsOr (lookupProp ps "position") (.num (.int 0)), .str "[]"⟩ = true
      · simp [Board.create, Board.update, Board.setAttr, hs, hacc]
      · simp [Board.create, Board.update, Board.setAttr, hs, hacc]
    · rfl
  refine ⟨h1, ?_, by rfl, by rfl⟩
  intro hn
  rw [h1, hn]
  rfl

theorem C20_create_board_witness :
    postBoard (fun _ => true) 1 7 (.obj [("description", .str "Board description"),
        ("lists", .arr [.obj [("id", .str "x")]])])
      = ⟨400, message "Board name is required", none⟩ ∧
    postBoard (fun _ => true) 1 7
        (.obj [("name", .str "New Board"), ("lists", .arr [.obj [("id", .str "x")]])])
      = ⟨201, .obj [("id", .num (.int 7)), ("name", .str "New Board"), ("description", .null),
            ("customTitle", .undefined), ("userId", .num (.int 1)),
            ("position", .num (.int 0)), ("lists", .arr [])],
          some ⟨7, 1, .str "New Board", .null, .undefined, .num (.int 0), .str "[]"⟩⟩ ∧
    postBoard (fun _ => false) 1 7 (.obj [("name", .obj [])])
      = ⟨500, message "Error creating board", none⟩ :=
  ⟨(C20_create_board (fun _ => true) 1 7 [("description", .str "Board description"),
      ("lists", .arr [.obj [("id", .str "x")]])]).2.1 (by rfl), by rfl, by rfl⟩

/-! ## The data of the direct board update -/

theorem hasKey_append (xs ys : List (String × JsVal)) (k : String) :
    hasKey (xs ++ ys) k = (hasKey xs k || hasKey ys k) := by
  simp [hasKey]

theorem hasKey_cond (c : Bool) (k0 : String) (v : JsVal) (k : String) :
    hasKey (if c = true then [(k0, v)] else []) k = (c && k0 == k) := by
  cases c <;> simp [hasKey]

theorem lookupProp_append (xs ys : List (String × JsVal)) (k : String) :
    lookupProp (xs ++ ys) k = if hasKey xs k = true then lookupProp xs k else lookupProp ys k := by
  induction xs with
  | nil => simp [hasKey]
  | cons p xs ih =>
    obtain ⟨k1, v1⟩ := p
    rw [List.cons_append, lookupProp_cons, lookupProp_cons, ih]
    by_cases h : k1 = k
    · simp [h, hasKey]
    · have hb : (k1 == k) = false := by simp [h]
      simp only [h, if_false, hasKey, List.any_cons, hb, Bool.false_or]

theorem lookupProp_cond (c : Bool) (k0 : String) (v : JsVal) (k : String) :
    lookupProp (if c = true then [(k0, v)] else []) k
      = if (c && k0 == k) = true then v else .undefined := by
  cases c
  · simp [lookupProp]
  · by_cases h : k0 = k
    · simp [lookupProp_cons, h]
    · simp [lookupProp_cons, h, lookupProp]

/-- C21, counterexample: a body that provides `name` and `description` with
the same value, the empty string, passes `description` to `board.update` and
not `name`; a body that provides `position` and `lists` as `null` passes
`position` and not `lists`. -/
theorem C21_counterexample :
    putBoardUpdateData (.obj [("name", .str ""), ("description", .str "")])
      = .ok [("description", .str "")] ∧
    putBoardUpdateData (.obj [("position", .null), ("lists", .null)])
      = .ok [("position", .null)] := by
  exact ⟨by rfl, by rfl⟩

/-- C21, amended: for every body that is an object, the data PUT /:id passes
to `board.update` holds no key other than `name`, `description`, `position`
and `lists`; it holds `name` exactly when the `name` of the body is truthy,
`lists` exactly when the `lists` of the body is truthy, `description` and
`position` exactly when the body defines them (`null`, `0` and the empty
string included); each key it holds has the value of the body. -/
theorem C21_update_data (ps : List (String × JsVal)) :
    ∃ data, putBoardUpdateData (.obj ps) = .ok data ∧
      (∀ k, hasKey data k = true →
        k = "name" ∨ k = "description" ∨ k = "position" ∨ k = "lists") ∧
      hasKey data "name" = truthy (lookupProp ps "name") ∧
      hasKey data "description" = isDefined (lookupProp ps "description") ∧
      hasKey data "position" = isDefined (lookupProp ps "position") ∧
      hasKey data "lists" = truthy (lookupProp ps "lists") ∧
      (∀ k, hasKey data k = true → lookupProp data k = lookupProp ps k) ∧
      ∀ board, putBoard (some board) (.obj ps)
        = (match Board.update board data with
          | .ok b2 => ⟨200, b2.toJSON, some b2⟩
          | .error _ => ⟨500, message "Error updating board", none⟩) := by
  refine ⟨_, rfl, ?_, ?_, ?_, ?_, ?_, ?_, ?_⟩
  · intro k hk
    simp only [hasKey_append, hasKey_cond, Bool.or_eq_true, Bool.and_eq_true, beq_iff_eq] at hk
    rcases hk with ((hk | hk) | hk) | hk
    · exact Or.inl hk.2.symm
    · exact Or.inr (Or.inl hk.2.symm)
    · exact Or.inr (Or.inr (Or.inl hk.2.symm))
    · exact Or.inr (Or.inr (Or.inr hk.2.symm))
  · simp [hasKey_append, hasKey_cond]
  · simp [hasKey_append, hasKey_cond]
  · simp [hasKey_append, hasKey_cond]
  · simp [hasKey_append, hasKey_cond]
  · intro k hk
    simp only [hasKey_append, hasKey_cond, Bool.or_eq_true, Bool.and_eq_true, beq_iff_eq] at hk
    simp only [lookupProp_append, lookupProp_cond, hasKey_append, hasKey_cond]
    rcases hk with ((hk | hk) | hk) | hk <;> obtain ⟨h1, rfl⟩ := hk <;> simp [h1]
  · intro board
    have hd : putBoardUpdateData (.obj ps) = .ok
        ((if truthy (lookupProp ps "name") then [("name", lookupProp ps "name")] else []) ++
        (if isDefined (lookupProp ps "description") then
          [("description", lookupProp ps "description")] else []) ++
        (if isDefined (lookupProp ps "position") then
          [("position", lookupProp ps "position")] else []) ++
        (if truthy (lookupProp ps "lists") then [("lists", lookupProp ps "lists")] else [])) := rfl
    simp only [putBoard, hd]
    cases Board.update board _ <;> rfl

theorem C21_update_data_witness :
    putBoardUpdateData (.obj [("name", .str "Updated Board"),
        ("description", .str "Updated description"), ("customTitle", .str "x")])
      = .ok [("name", .str "Updated Board"), ("description", .str "Updated description")] ∧
    ∃ data, putBoardUpdateData (.obj [("name", .str "Updated Board"),
        ("description", .str "Updated description"), ("customTitle", .str "x")]) = .ok data ∧
      (∀ k, hasKey data k = true →
        k = "name" ∨ k = "description" ∨ k = "position" ∨ k = "lists") :=
  ⟨by rfl, by
    obtain ⟨data, h1, h2, -⟩ := C21_update_data [("name", .str "Updated Board"),
      ("description", .str "Updated description"), ("customTitle", .str "x")]
    exact ⟨data, h1, h2⟩⟩

/-! ## Lookup resolves to the first match -/

/-- C27: in a valid sequence, `x` being the first list with the id `listId`
and `post` the lists after it, which may hold further lists with that id:
Replace List puts the merged list in the place of `x` and Remove List takes
`x` out, both leaving `post` as it is; when `t` is the first task of `x` with
the id `taskId`, Replace Task and Remove Task change `t` alone, leaving the
tasks after it, which may hold further tasks with that id, and the lists of
`post` as they are. -/
theorem C27_first_match (pre post : List TaskList) (x : TaskList) (listId : String)
    (payload : JsVal) (hx : x.id = listId) (hpre : ∀ l ∈ pre, l.id ≠ listId) :
    replaceListOp listId payload (listsToJs (pre ++ x :: post))
      = .ok (.done (.arr (pre.map TaskList.toJs ++ objectSpread x.toJs payload ::
          post.map TaskList.toJs)) 200 (objectSpread x.toJs payload)) ∧
    removeListOp listId (listsToJs (pre ++ x :: post))
      = .ok (.done (listsToJs (pre ++ post)) 200 (message "List deleted")) ∧
    ∀ (tpre tpost : List Task) (t : Task) (taskId : String),
      x.tasks = tpre ++ t :: tpost → t.id = taskId → (∀ y ∈ tpre, y.id ≠ taskId) →
      replaceTaskOp listId taskId payload (listsToJs (pre ++ x :: post))
        = .ok (.done (.arr (pre.map TaskList.toJs ++
            .obj [("id", .str x.id), ("title", .str x.title),
              ("tasks", .arr (tpre.map Task.toJs ++ objectSpread t.toJs payload ::
                tpost.map Task.toJs))] ::
            post.map TaskList.toJs)) 200 (objectSpread t.toJs payload)) ∧
      removeTaskOp listId taskId (listsToJs (pre ++ x :: post))
        = .ok (.done (listsToJs (pre ++ { x with tasks := tpre ++ tpost } :: post)) 200
            (message "Task deleted")) :=
  ⟨replaceListOp_lists pre post x listId payload hx hpre,
    removeListOp_lists pre post x listId hx hpre,
    fun tpre tpost t taskId hts ht htp =>
      ⟨replaceTaskOp_lists pre post x tpre tpost t listId taskId payload hx hpre hts ht htp,
        removeTaskOp_lists pre post x tpre tpost t listId taskId hx hpre hts ht htp⟩⟩

theorem C27_first_match_witness :
    removeListOp "a" (listsToJs [⟨"a", "first", []⟩, ⟨"b", "B", []⟩, ⟨"a", "second", []⟩])
      = .ok (.done (listsToJs [⟨"b", "B", []⟩, ⟨"a", "second", []⟩]) 200
          (message "List deleted")) ∧
    removeTaskOp "a" "t"
        (listsToJs [⟨"a", "A", [⟨"t", "first", "", false⟩, ⟨"t", "second", "", false⟩]⟩,
          ⟨"a", "A2", [⟨"t", "third", "", false⟩]⟩])
      = .ok (.done
          (listsToJs [⟨"a", "A", [⟨"t", "second", "", false⟩]⟩,
            ⟨"a", "A2", [⟨"t", "third", "", false⟩]⟩]) 200 (message "Task deleted")) :=
  ⟨(C27_first_match [] [⟨"b", "B", []⟩, ⟨"a", "second", []⟩] ⟨"a", "first", []⟩ "a" .null rfl
      (by simp)).2.1,
    ((C27_first_match [] [⟨"a", "A2", [⟨"t", "third", "", false⟩]⟩]
      ⟨"a", "A", [⟨"t", "first", "", false⟩, ⟨"t", "second", "", false⟩]⟩ "a" .null rfl
      (by simp)).2.2 [] [⟨"t", "second", "", false⟩] ⟨"t", "first", "", false⟩ "t" rfl rfl
      (by simp)).2⟩

/-! ## Append List followed by Remove List -/

theorem removeListOp_split (pre post : List JsVal) (es : List (String × JsVal))
    (listId : String)
    (hpre : ∀ y ∈ pre, ∃ qs, y = .obj qs ∧ lookupProp qs "id" ≠ .str listId)
    (hid : lookupProp es "id" = .str listId) :
    removeListOp listId (.arr (pre ++ .obj es :: post))
      = .ok (.done (.arr (pre ++ post)) 200 (message "List deleted")) := by
  simp only [removeListOp, findList_split pre post es listId hpre hid, eraseIdx_split]

/-- What POST /:id/lists saves on a valid sequence: the column decodes to the
sequence followed by the new list as JSON data. -/
theorem postList_lists (L : List TaskList) (board : Board) (now : Nat)
    (ps : List (String × JsVal))
    (hL : listsGet board.lists = listsToJs L) (hbody : isJson (.obj ps) = true) :
    ∃ raw, postList now (some board) (.obj ps)
        = ⟨201, .obj [("id", .str (toString now)), ("title", lookupProp ps "title"),
            ("tasks", .arr [])], some { board with lists := raw }⟩ ∧
      listsGet raw = .arr (L.map TaskList.toJs ++
        [if isDefined (lookupProp ps "title") then
          .obj [("id", .str (toString now)), ("title", lookupProp ps "title"), ("tasks", .arr [])]
         else .obj [("id", .str (toString now)), ("tasks", .arr [])]]) := by
  have hop := appendListOp_arr now ps (L.map TaskList.toJs)
  simp only [isJson, Bool.and_eq_true] at hbody
  obtain ⟨hthrow, hnorm⟩ := normalize_newList (toString now) (lookupProp ps "title")
    (lookupProp_json ps "title" hbody.2)
  have hLj := lists_elems_json L
  obtain ⟨raw, hh, hg⟩ := handle_of_done_arr (.appendList now (.obj ps)) board _ _ 201 _ hL hop
    (by simp [stringifyThrowsElems_append, stringifyThrowsElems_json _ hLj, stringifyThrowsElems,
      hthrow])
  refine ⟨raw, hh, ?_⟩
  rw [hg, normalizeElems_append, normalizeElems_json _ hLj]
  simp [normalizeElems, hnorm]

/-- C28: on a board whose `lists` decode to the valid sequence `L`, none of
whose lists has the decimal string of the clock reading as id, and for every
payload that is a JSON object: POST /:id/lists answers 201 with a list whose
id is that string; removing the list with that id from the sequence Append
List built gives `L` back; and DELETE /:id/lists/ with that id on the saved
board answers 200 and saves a column that decodes to `L`. -/
theorem C28_append_then_remove (L : List TaskList) (board : Board) (now : Nat)
    (ps : List (String × JsVal))
    (hL : listsGet board.lists = listsToJs L) (hbody : isJson (.obj ps) = true)
    (hfresh : ∀ l ∈ L, l.id ≠ toString now) :
    (∃ l1 newList, appendListOp now (.obj ps) (listsToJs L) = .ok (.done l1 201 newList) ∧
      fieldOf newList "id" = .str (toString now) ∧
      removeListOp (toString now) l1
        = .ok (.done (listsToJs L) 200 (message "List deleted"))) ∧
    ∃ raw1 newList, postList now (some board) (.obj ps)
        = ⟨201, newList, some { board with lists := raw1 }⟩ ∧
      fieldOf newList "id" = .str (toString now) ∧
      ∃ raw2, deleteList (some { board with lists := raw1 }) (toString now)
          = ⟨200, message "List deleted", some { board with lists := raw2 }⟩ ∧
        listsGet raw2 = listsToJs L := by
  have hpre := lists_obj L (toString now) hfresh
  constructor
  · refine ⟨_, _, appendListOp_arr now ps (L.map TaskList.toJs), by
      simp [fieldOf, lookupProp_cons], ?_⟩
    have := removeListOp_split (L.map TaskList.toJs) []
      [("id", .str (toString now)), ("title", lookupProp ps "title"), ("tasks", .arr [])]
      (toString now) hpre (by simp [lookupProp_cons])
    simpa [listsToJs] using this
  · obtain ⟨raw1, h1, h2⟩ := postList_lists L board now ps hL hbody
    refine ⟨raw1, _, h1, by simp [fieldOf, lookupProp_cons], ?_⟩
    have hrm : removeListOp (toString now) (.arr (L.map TaskList.toJs ++
        [if isDefined (lookupProp ps "title") then
          .obj [("id", .str (toString now)), ("title", lookupProp ps "title"), ("tasks", .arr [])]
         else .obj [("id", .str (toString now)), ("tasks", .arr [])]]))
        = .ok (.done (listsToJs L) 200 (message "List deleted")) := by
      split
      · have := removeListOp_split (L.map TaskList.toJs) []
          [("id", .str (toString now)), ("title", lookupProp ps "title"), ("tasks", .arr [])]
          (toString now) hpre (by simp [lookupProp_cons])
        simpa [listsToJs] using this
      · have := removeListOp_split (L.map TaskList.toJs) []
          [("id", .str (toString now)), ("tasks", .arr [])]
          (toString now) hpre (by simp [lookupProp_cons])
        simpa [listsToJs] using this
    obtain ⟨raw2, -, hh, hg⟩ := handle_of_done (.removeList (toString now))
      { board with lists := raw1 } _ _ 200 _ h2 hrm (isJson_listsToJs L)
    exact ⟨raw2, hh, hg⟩

theorem C28_append_then_remove_witness :
    postList 1700000000000 (some emptyBoard) (.obj [("title", .str "New List")])
      = ⟨201, .obj [("id", .str "1700000000000"), ("title", .str "New List"), ("tasks", .arr [])],
          some { emptyBoard with
            lists := .str "[\x7b\"id\":\"1700000000000\",\"title\":\"New List\",\"tasks\":[]\x7d]" }⟩ ∧
    deleteList (some { emptyBoard with
        lists := .str "[\x7b\"id\":\"1700000000000\",\"title\":\"New List\",\"tasks\":[]\x7d]" })
      "1700000000000"
      = ⟨200, message "List deleted", some { emptyBoard with lists := .str "[]" }⟩ ∧
    ∃ l1 newList, appendListOp 1700000000000 (.obj [("title", .str "New List")]) (listsToJs [])
        = .ok (.done l1 201 newList) ∧
      fieldOf newList "id" = .str (toString 1700000000000) ∧
      removeListOp (toString 1700000000000) l1
        = .ok (.done (listsToJs []) 200 (message "List deleted")) :=
  ⟨by rfl, by rfl,
    (C28_append_then_remove [] emptyBoard 1700000000000 [("title", .str "New List")] (by rfl)
      (by rfl) (by simp)).1⟩

/-! ## The users routes -/

/-- C22: GET and PUT /users/:userId for the authenticated user `u`. When
`u.id` differs from `parseInt(userId)` (no integer parsed included), both
answer 403, call `User.findByPk` not at all and save nothing, whatever the
store holds and whatever the body is; when they are equal, both go on to look
up the user and do not answer 403. -/
theorem C22_own_record_only (u : User) (userId : String)
    (findByPk : String → Except JsError (Option User)) (accepts : User → Bool)
    (reqBody : JsVal) :
    (parseInt userId ≠ some (u.id : Int) →
      getUser u userId findByPk
          = ⟨403, message "Not authorized to access this user data", [], none⟩ ∧
        putUser u userId findByPk accepts reqBody
          = ⟨403, message "Not authorized to update this user data", [], none⟩) ∧
    (parseInt userId = some (u.id : Int) →
      (getUser u userId findByPk).status ≠ 403 ∧
        (getUser u userId findByPk).lookups = [userId] ∧
        (putUser u userId findByPk accepts reqBody).status ≠ 403 ∧
        (putUser u userId findByPk accepts reqBody).lookups = [userId]) ∧
    ((getUser u userId findByPk).status = 403 ↔ parseInt userId ≠ some (u.id : Int)) ∧
    ((putUser u userId findByPk accepts reqBody).status = 403 ↔
      parseInt userId ≠ some (u.id : Int)) := by
  have hget : parseInt userId = some (u.id : Int) →
      (getUser u userId findByPk).status ≠ 403 ∧
        (getUser u userId findByPk).lookups = [userId] := by
    intro h
    simp only [getUser, h, ne_eq, not_true_eq_false, if_false]
    cases findByPk userId with
    | error e => simp
    | ok r => cases r <;> simp
  have hput : parseInt userId = some (u.id : Int) →
      (putUser u userId findByPk accepts reqBody).status ≠ 403 ∧
        (putUser u userId findByPk accepts reqBody).lookups = [userId] := by
    intro h
    simp only [putUser, h, ne_eq, not_true_eq_false, if_false]
    cases findByPk userId with
    | error e => simp
    | ok r =>
      cases r with
      | none => simp
      | some user =>
        simp only
        cases setAllowedFields reqBody user with
        | error e => simp
        | ok u2 => cases hacc : accepts u2 <;> simp [hacc]
  refine ⟨?_, ?_, ?_, ?_⟩
  · intro h
    simp [getUser, putUser, h]
  · intro h
    exact ⟨(hget h).1, (hget h).2, (hput h).1, (hput h).2⟩
  · constructor
    · intro h hc
      exact (hget hc).1 h
    · intro h
      simp [getUser, h]
  · constructor
    · intro h hc
      exact (hput hc).1 h
    · intro h
      simp [putUser, h]

theorem C22_own_record_only_witness :
    parseInt "2" ≠ some ((1 : Nat) : Int) ∧
    getUser ⟨1, .str "A", .str "a@x.org", .str "hash", .str "My Boards"⟩ "2"
        (fun _ => .ok (some ⟨2, .str "B", .str "b@x.org", .str "hash2", .null⟩))
      = ⟨403, message "Not authorized to access this user data", [], none⟩ ∧
    putUser ⟨1, .str "A", .str "a@x.org", .str "hash", .str "My Boards"⟩ "2"
        (fun _ => .ok (some ⟨2, .str "B", .str "b@x.org", .str "hash2", .null⟩))
        (fun _ => true) (.obj [("name", .str "C")])
      = ⟨403, message "Not authorized to update this user data", [], none⟩ :=
  ⟨by decide,
    (C22_own_record_only ⟨1, .str "A", .str "a@x.org", .str "hash", .str "My Boards"⟩ "2"
      (fun _ => .ok (some ⟨2, .str "B", .str "b@x.org", .str "hash2", .null⟩))
      (fun _ => true) (.obj [("name", .str "C")])).1 (by decide)⟩

theorem putUser_found (u user u2 : User) (userId : String)
    (findByPk : String → Except JsError (Option User)) (accepts : User → Bool)
    (reqBody : JsVal)
    (hown : parseInt userId = some (u.id : Int)) (hfound : findByPk userId = .ok (some user))
    (hset : setAllowedFields reqBody user = .ok u2) :
    putUser u userId findByPk accepts reqBody
      = (if accepts u2 = true then ⟨200, u2.publicJson, [userId], some u2⟩
         else ⟨500, message "Error updating user data", [userId], none⟩) := by
  simp only [putUser, hown, ne_eq, not_true_eq_false, if_false, hfound, hset]

theorem putUser_saved (u user u2 row : User) (userId : String)
    (findByPk : String → Except JsError (Option User)) (accepts : User → Bool)
    (reqBody : JsVal)
    (hown : parseInt userId = some (u.id : Int)) (hfound : findByPk userId = .ok (some user))
    (hset : setAllowedFields reqBody user = .ok u2)
    (hrow : (putUser u userId findByPk accepts reqBody).saved = some row) : row = u2 := by
  rw [putUser_found u user u2 userId findByPk accepts reqBody hown hfound hset] at hrow
  cases hacc : accepts u2 with
  | false => simp [hacc] at hrow
  | true =>
    simp only [hacc, if_true] at hrow
    injection hrow with hrow
    exact hrow.symm

/-- C23: PUT /users/:userId by the user itself, on a found row `user`, with a
body that is an object. The row handed to `user.save()` is `user` with `name`,
`email` and `boardsTitle` each replaced by the value of the body when the
body defines it and kept otherwise; its id and password are those of `user`.
When the store takes the row, the answer is 200 with exactly `id`, `name`,
`email` and `boardsTitle` of that row, and that row is saved; otherwise the
answer is 500 and nothing is saved. Two bodies that agree on `name`, `email`
and `boardsTitle` give the same outcome, whatever else they hold. -/
theorem C23_allowed_fields (u user : User) (userId : String)
    (findByPk : String → Except JsError (Option User)) (accepts : User → Bool)
    (ps : List (String × JsVal))
    (hown : parseInt userId = some (u.id : Int)) (hfound : findByPk userId = .ok (some user)) :
    (putUser u userId findByPk accepts (.obj ps)
      = (if accepts { user with
            name := if isDefined (lookupProp ps "name") then lookupProp ps "name" else user.name
            email := if isDefined (lookupProp ps "email") then lookupProp ps "email"
              else user.email
            boardsTitle := if isDefined (lookupProp ps "boardsTitle") then
              lookupProp ps "boardsTitle" else user.boardsTitle } = true then
          ⟨200,
            .obj [("id", .num (.int user.id)),
              ("name", if isDefined (lookupProp ps "name") then lookupProp ps "name"
                else user.name),
              ("email", if isDefined (lookupProp ps "email") then lookupProp ps "email"
                else user.email),
              ("boardsTitle", if isDefined (lookupProp ps "boardsTitle") then
                lookupProp ps "boardsTitle" else user.boardsTitle)],
            [userId],
            some { user with
              name := if isDefined (lookupProp ps "name") then lookupProp ps "name"
                else user.name
              email := if isDefined (lookupProp ps "email") then lookupProp ps "email"
                else user.email
              boardsTitle := if isDefined (lookupProp ps "boardsTitle") then
                lookupProp ps "boardsTitle" else user.boardsTitle }⟩
         else ⟨500, message "Error updating user data", [userId], none⟩)) ∧
    (∀ row, (putUser u userId findByPk accepts (.obj ps)).saved = some row →
      row.id = user.id ∧ row.password = user.password) ∧
    ∀ qs, lookupProp qs "name" = lookupProp ps "name" →
      lookupProp qs "email" = lookupProp ps "email" →
      lookupProp qs "boardsTitle" = lookupProp ps "boardsTitle" →
      putUser u userId findByPk accepts (.obj qs) = putUser u userId findByPk accepts (.obj ps) := by
  have hp : ∀ rs, putUser u userId findByPk accepts (.obj rs)
      = (if accepts { user with
            name := if isDefined (lookupProp rs "name") then lookupProp rs "name" else user.name
            email := if isDefined (lookupProp rs "email") then lookupProp rs "email"
              else user.email
            boardsTitle := if isDefined (lookupProp rs "boardsTitle") then
              lookupProp rs "boardsTitle" else user.boardsTitle } = true then
          ⟨200,
            .obj [("id", .num (.int user.id)),
              ("name", if isDefined (lookupProp rs "name") then lookupProp rs "name"
                else user.name),
              ("email", if isDefined (lookupProp rs "email") then lookupProp rs "email"
                else user.email),
              ("boardsTitle", if isDefined (lookupProp rs "boardsTitle") then
                lookupProp rs "boardsTitle" else user.boardsTitle)],
            [userId],
            some { user with
              name := if isDefined (lookupProp rs "name") then lookupProp rs "name"
                else user.name
              email := if isDefined (lookupProp rs "email") then lookupProp rs "email"
                else user.email
              boardsTitle := if isDefined (lookupProp rs "boardsTitle") then
                lookupProp rs "boardsTitle" else user.boardsTitle }⟩
         else ⟨500, message "Error updating user data", [userId], none⟩) := by
    intro rs
    simp only [putUser, hown, ne_eq, not_true_eq_false, if_false, hfound, setAllowedFields,
      getField, User.publicJson]
  refine ⟨hp ps, ?_, ?_⟩
  · intro row hrow
    have := putUser_saved u user _ row userId findByPk accepts (.obj ps) hown hfound rfl hrow
    subst this
    exact ⟨rfl, rfl⟩
  · intro qs h1 h2 h3
    rw [hp qs, hp ps, h1, h2, h3]

theorem C23_allowed_fields_witness :
    putUser ⟨1, .str "A", .str "a@x.org", .str "hash", .str "My Boards"⟩ "1"
        (fun _ => .ok (some ⟨1, .str "A", .str "a@x.org", .str "hash", .str "My Boards"⟩))
        (fun _ => true)
        (.obj [("name", .str "Updated Name"), ("password", .str "newpassword"),
          ("role", .str "admin")])
      = ⟨200, .obj [("id", .num (.int 1)), ("name", .str "Updated Name"),
            ("email", .str "a@x.org"), ("boardsTitle", .str "My Boards")], ["1"],
          some ⟨1, .str "Updated Name", .str "a@x.org", .str "hash", .str "My Boards"⟩⟩ ∧
    ∀ row, (putUser ⟨1, .str "A", .str "a@x.org", .str "hash", .str "My Boards"⟩ "1"
        (fun _ => .ok (some ⟨1, .str "A", .str "a@x.org", .str "hash", .str "My Boards"⟩))
        (fun _ => true)
        (.obj [("name", .str "Updated Name"), ("password", .str "newpassword"),
          ("role", .str "admin")])).saved = some row →
      row.id = 1 ∧ row.password = .str "hash" :=
  ⟨by rfl,
    (C23_allowed_fields ⟨1, .str "A", .str "a@x.org", .str "hash", .str "My Boards"⟩
      ⟨1, .str "A", .str "a@x.org", .str "hash", .str "My Boards"⟩ "1"
      (fun _ => .ok (some ⟨1, .str "A", .str "a@x.org", .str "hash", .str "My Boards"⟩))
      (fun _ => true)
      [("name", .str "Updated Name"), ("password", .str "newpassword"), ("role", .str "admin")]
      (by decide) rfl).2.1⟩

/-! ## The authentication middleware -/

/-- C24: with `verify` and `findByPk` given, the middleware calls `next` with
the user attached exactly when the request has an Authorization header whose
token (the header without its first `Bearer `) is not empty, `verify` returns
a payload for it, the payload has an `id` to read (it is not `undefined` or
`null`) and `findByPk` returns a user for that `id`. In every other case it
answers 401: with `No authentication token, access denied` when there is no
header or the token is empty, with `User not found` when the token verifies
and `findByPk` returns no user for the `id` of its payload, and with the
message of the `catch` when `verify` returns `undefined` or `null`, whose
`id` cannot be read. -/
theorem C24_auth_middleware (header : Option String) (verify : String → Except String JsVal)
    (findByPk : JsVal → Except String (Option User)) (typeErrorText : String) :
    (∀ user, authMiddleware header verify findByPk typeErrorText = .next user ↔
      ∃ token payload id, bearerToken header = some token ∧ token ≠ "" ∧
        verify token = .ok payload ∧ getField payload "id" = .ok id ∧
        findByPk id = .ok (some user)) ∧
    ((∃ user, authMiddleware header verify findByPk typeErrorText = .next user) ∨
      ∃ body, authMiddleware header verify findByPk typeErrorText = .respond 401 body) ∧
    ((bearerToken header = none ∨ bearerToken header = some "") →
      authMiddleware header verify findByPk typeErrorText
        = .respond 401 (message "No authentication token, access denied")) ∧
    (∀ token payload id, bearerToken header = some token → token ≠ "" →
      verify token = .ok payload → getField payload "id" = .ok id → findByPk id = .ok none →
      authMiddleware header verify findByPk typeErrorText
        = .respond 401 (message "User not found")) ∧
    (∀ token payload, bearerToken header = some token → token ≠ "" →
      verify token = .ok payload → (payload = .undefined ∨ payload = .null) →
      authMiddleware header verify findByPk typeErrorText
        = .respond 401 (authFailure typeErrorText)) := by
  have hnull : ∀ token payload, bearerToken header = some token → token ≠ "" →
      verify token = .ok payload → (payload = .undefined ∨ payload = .null) →
      authMiddleware header verify findByPk typeErrorText
        = .respond 401 (authFailure typeErrorText) := by
    intro token payload hb ht hv hp
    rcases hp with rfl | rfl <;> simp [authMiddleware, hb, ht, hv, getField]
  refine ⟨?_, ?_, ?_, ?_, hnull⟩
  · intro user
    constructor
    · intro h
      unfold authMiddleware at h
      cases hb : bearerToken header with
      | none => simp [hb] at h
      | some token =>
        by_cases ht : token = ""
        · simp [hb, ht] at h
        · cases hv : verify token with
          | error e => simp [hb, ht, hv] at h
          | ok payload =>
            cases hg : getField payload "id" with
            | error e => simp [hb, ht, hv, hg] at h
            | ok id =>
              cases hf : findByPk id with
              | error e => simp [hb, ht, hv, hg, hf] at h
              | ok r =>
                cases r with
                | none => simp [hb, ht, hv, hg, hf] at h
                | some user0 =>
                  simp [hb, ht, hv, hg, hf] at h
                  subst h
                  exact ⟨token, payload, id, rfl, ht, hv, hg, hf⟩
    · rintro ⟨token, payload, id, hb, ht, hv, hg, hf⟩
      simp [authMiddleware, hb, ht, hv, hg, hf]
  · unfold authMiddleware
    cases hb : bearerToken header with
    | none => exact Or.inr ⟨_, rfl⟩
    | some token =>
      by_cases ht : token = ""
      · simp only [ht, if_true]
        exact Or.inr ⟨_, rfl⟩
      · simp only [ht, if_false]
        cases hv : verify token with
        | error e => exact Or.inr ⟨_, rfl⟩
        | ok payload =>
          dsimp only
          cases hg : getField payload "id" with
          | error e => exact Or.inr ⟨_, rfl⟩
          | ok id =>
            dsimp only
            cases hf : findByPk id with
            | error e => exact Or.inr ⟨_, rfl⟩
            | ok r =>
              cases r with
              | none => exact Or.inr ⟨_, rfl⟩
              | some user0 => exact Or.inl ⟨user0, rfl⟩
  · rintro (h | h) <;> simp [authMiddleware, h]
  · intro token payload id hb ht hv hg hf
    simp [authMiddleware, hb, ht, hv, hg, hf]

theorem C24_auth_middleware_witness :
    authMiddleware (some "Bearer ")
        (fun _ => .ok (.obj [("id", .num (.int 1))]))
        (fun _ => .ok (some ⟨1, .str "A", .str "a@x.org", .str "hash", .null⟩)) "TypeError"
      = .respond 401 (message "No authentication token, access denied") ∧
    authMiddleware (some "Bearer abc")
        (fun _ => .ok (.obj [("id", .num (.int 1))]))
        (fun _ => .ok (some ⟨1, .str "A", .str "a@x.org", .str "hash", .null⟩)) "TypeError"
      = .next ⟨1, .str "A", .str "a@x.org", .str "hash", .null⟩ ∧
    authMiddleware (some "Bearer abc") (fun _ => .ok .null)
        (fun _ => .ok (some ⟨1, .str "A", .str "a@x.org", .str "hash", .null⟩)) "TypeError"
      = .respond 401 (authFailure "TypeError") :=
  ⟨(C24_auth_middleware (some "Bearer ")
      (fun _ => .ok (.obj [("id", .num (.int 1))]))
      (fun _ => .ok (some ⟨1, .str "A", .str "a@x.org", .str "hash", .null⟩)) "TypeError").2.2.1
      (Or.inr (by decide)),
    by rfl, by rfl⟩

/-! ## The login route -/

theorem fieldOf_message_token (m : String) : fieldOf (message m) "token" = .undefined := by
  simp [message, fieldOf, lookupProp_cons, lookupProp]

/-- C25: POST /auth/login with `findOne`, `comparePassword` and `sign`
given, for a body that is an object. When `findOne` returns no user for the
email the response is 400 `Invalid credentials`, and so it is when it returns
a user and `comparePassword` returns false. When it returns a user and
`comparePassword` throws, as the comparison of the library does for a
password that is not a string, the response is 500 with the message of the
exception: it differs from the response for an email that is not registered,
so the same request tells the two apart. The body holds a `token` exactly
when `findOne` returns a user and `comparePassword` returns true. -/
theorem C25_login_reveals_registration
    (findOne findOne2 : JsVal → Except String (Option User))
    (comparePassword : User → JsVal → Except String Bool) (sign : Nat → String)
    (typeErrorText : String) (ps : List (String × JsVal)) (user : User) (e : String)
    (hnone : findOne (lookupProp ps "email") = .ok none)
    (hsome : findOne2 (lookupProp ps "email") = .ok (some user))
    (hthrow : comparePassword user (lookupProp ps "password") = .error e) :
    login findOne comparePassword sign typeErrorText (.obj ps)
        = ⟨400, message "Invalid credentials"⟩ ∧
    login findOne2 comparePassword sign typeErrorText (.obj ps) = ⟨500, message e⟩ ∧
    login findOne comparePassword sign typeErrorText (.obj ps)
        ≠ login findOne2 comparePassword sign typeErrorText (.obj ps) ∧
    (∀ compare2 : User → JsVal → Except String Bool,
      compare2 user (lookupProp ps "password") = .ok false →
      login findOne2 compare2 sign typeErrorText (.obj ps)
        = login findOne compare2 sign typeErrorText (.obj ps)) ∧
    (∀ (f : JsVal → Except String (Option User)) (c : User → JsVal → Except String Bool),
      isDefined (fieldOf (login f c sign typeErrorText (.obj ps)).body "token") = true ↔
        ∃ u, f (lookupProp ps "email") = .ok (some u) ∧
          c u (lookupProp ps "password") = .ok true) := by
  have h1 : login findOne comparePassword sign typeErrorText (.obj ps)
      = ⟨400, message "Invalid credentials"⟩ := by
    simp only [login, getField, hnone]
  have h2 : login findOne2 comparePassword sign typeErrorText (.obj ps) = ⟨500, message e⟩ := by
    simp only [login, getField, hsome, hthrow]
  refine ⟨h1, h2, ?_, ?_, ?_⟩
  · rw [h1, h2]
    intro h
    have h3 := congrArg Response.status h
    simp at h3
  · intro compare2 hc
    simp only [login, getField, hsome, hnone, hc]
  · intro f c
    cases hf : f (lookupProp ps "email") with
    | error e => simp [login, getField, hf, fieldOf_message_token, isDefined]
    | ok r =>
      cases r with
      | none => simp [login, getField, hf, fieldOf_message_token, isDefined]
      | some u =>
        cases hc : c u (lookupProp ps "password") with
        | error e => simp [login, getField, hf, hc, fieldOf_message_token, isDefined]
        | ok b =>
          cases b with
          | false => simp [login, getField, hf, hc, fieldOf_message_token, isDefined]
          | true => simp [login, getField, hf, hc, fieldOf, lookupProp_cons, isDefined]

theorem C25_login_reveals_registration_witness :
    login (fun _ => .ok none)
        (fun _ p => match p with
          | .str _ => .ok false
          | _ => .error "Illegal arguments: undefined, string")
        (fun _ => "jwt") "TypeError" (.obj [("email", .str "a@x.org")])
      = ⟨400, message "Invalid credentials"⟩ ∧
    login (fun _ => .ok (some ⟨1, .str "A", .str "a@x.org", .str "hash", .null⟩))
        (fun _ p => match p with
          | .str _ => .ok false
          | _ => .error "Illegal arguments: undefined, string")
        (fun _ => "jwt") "TypeError" (.obj [("email", .str "a@x.org")])
      = ⟨500, message "Illegal arguments: undefined, string"⟩ :=
  have h := C25_login_reveals_registration (fun _ => .ok none)
    (fun _ => .ok (some ⟨1, .str "A", .str "a@x.org", .str "hash", .null⟩))
    (fun _ p => match p with
      | .str _ => .ok false
      | _ => .error "Illegal arguments: undefined, string")
    (fun _ => "jwt") "TypeError" [("email", .str "a@x.org")]
    ⟨1, .str "A", .str "a@x.org", .str "hash", .null⟩ "Illegal arguments: undefined, string"
    rfl rfl rfl
  ⟨h.1, h.2.1⟩

/-! ## Two requests on one board: the later write wins -/

/-- C26: whole-tree last-write-wins. Two requests, `false` with the
operation A and `true` with the operation B, find the same row `S` (in
either order) before either saves; both operations succeed on the decoded
column of `S`, `board.lists || []`, with the results `lA` and `lB`, which
the setter encodes as `rawA` and `rawB`. After the save of A the stored
column is `rawA`; after the save of B that follows, the stored row is `S`
with the column `rawB`, the encoding of B applied to the decoded `S`: the
same row as when B runs alone on `S`, whatever A was, so the change of A is
absent from it. -/
theorem C26_last_write_wins (S : Board) (ops : Bool → Operation) (lA lB : JsVal)
    (stA stB : Nat) (bodyA bodyB : JsVal) (rawA rawB : Raw)
    (hA : (ops false).run (jsOr (listsGet S.lists) (.arr [])) = .ok (.done lA stA bodyA))
    (hAe : listsSet lA = .ok rawA)
    (hB : (ops true).run (jsOr (listsGet S.lists) (.arr [])) = .ok (.done lB stB bodyB))
    (hBe : listsSet lB = .ok rawB) :
    (World.run ops ⟨S, fun _ => none⟩ [.findOne false, .findOne true, .save false]).store
        = { S with lists := rawA } ∧
      (World.run ops ⟨S, fun _ => none⟩
          [.findOne false, .findOne true, .save false, .save true]).store
        = { S with lists := rawB } ∧
      (World.run ops ⟨S, fun _ => none⟩
          [.findOne true, .findOne false, .save false, .save true]).store
        = { S with lists := rawB } ∧
      (World.run ops ⟨S, fun _ => none⟩ [.findOne true, .save true]).store
        = { S with lists := rawB } := by
  refine ⟨?_, ?_, ?_, ?_⟩ <;>
    simp [World.run, World.step, handle, runHandler, hA, hAe, hB, hBe]

set_option maxRecDepth 4000 in
theorem C26_last_write_wins_witness :
    (World.run
        (fun r => if r = true then Operation.appendTask 2 "b" (.obj [("title", .str "y")])
          else Operation.appendTask 1 "a" (.obj [("title", .str "x")]))
        ⟨{ emptyBoard with
            lists := .str "[\x7b\"id\":\"a\",\"title\":\"A\",\"tasks\":[]\x7d,\x7b\"id\":\"b\",\"title\":\"B\",\"tasks\":[]\x7d]" },
          fun _ => none⟩
        [.findOne false, .findOne true, .save false]).store
      = { emptyBoard with
          lists := .str "[\x7b\"id\":\"a\",\"title\":\"A\",\"tasks\":[\x7b\"id\":\"1\",\"title\":\"x\",\"description\":\"\",\"completed\":false\x7d]\x7d,\x7b\"id\":\"b\",\"title\":\"B\",\"tasks\":[]\x7d]" } ∧
    (World.run
        (fun r => if r = true then Operation.appendTask 2 "b" (.obj [("title", .str "y")])
          else Operation.appendTask 1 "a" (.obj [("title", .str "x")]))
        ⟨{ emptyBoard with
            lists := .str "[\x7b\"id\":\"a\",\"title\":\"A\",\"tasks\":[]\x7d,\x7b\"id\":\"b\",\"title\":\"B\",\"tasks\":[]\x7d]" },
          fun _ => none⟩
        [.findOne false, .findOne true, .save false, .save true]).store
      = { emptyBoard with
          lists := .str "[\x7b\"id\":\"a\",\"title\":\"A\",\"tasks\":[]\x7d,\x7b\"id\":\"b\",\"title\":\"B\",\"tasks\":[\x7b\"id\":\"2\",\"title\":\"y\",\"description\":\"\",\"completed\":false\x7d]\x7d]" } :=
  have h := C26_last_write_wins
    { emptyBoard with
      lists := .str "[\x7b\"id\":\"a\",\"title\":\"A\",\"tasks\":[]\x7d,\x7b\"id\":\"b\",\"title\":\"B\",\"tasks\":[]\x7d]" }
    (fun r => if r = true then Operation.appendTask 2 "b" (.obj [("title", .str "y")])
      else Operation.appendTask 1 "a" (.obj [("title", .str "x")]))
    (.arr [.obj [("id", .str "a"), ("title", .str "A"),
        ("tasks", .arr [.obj [("id", .str "1"), ("title", .str "x"), ("description", .str ""),
          ("completed", .bool false)]])],
      .obj [("id", .str "b"), ("title", .str "B"), ("tasks", .arr [])]])
    (.arr [.obj [("id", .str "a"), ("title", .str "A"), ("tasks", .arr [])],
      .obj [("id", .str "b"), ("title", .str "B"),
        ("tasks", .arr [.obj [("id", .str "2"), ("title", .str "y"), ("description", .str ""),
          ("completed", .bool false)]])]])
    201 201
    (.obj [("id", .str "1"), ("title", .str "x"), ("description", .str ""),
      ("completed", .bool false)])
    (.obj [("id", .str "2"), ("title", .str "y"), ("description", .str ""),
      ("completed", .bool false)])
    (.str "[\x7b\"id\":\"a\",\"title\":\"A\",\"tasks\":[\x7b\"id\":\"1\",\"title\":\"x\",\"description\":\"\",\"completed\":false\x7d]\x7d,\x7b\"id\":\"b\",\"title\":\"B\",\"tasks\":[]\x7d]")
    (.str "[\x7b\"id\":\"a\",\"title\":\"A\",\"tasks\":[]\x7d,\x7b\"id\":\"b\",\"title\":\"B\",\"tasks\":[\x7b\"id\":\"2\",\"title\":\"y\",\"description\":\"\",\"completed\":false\x7d]\x7d]")
    (by rfl) (by rfl) (by rfl) (by rfl)
  ⟨h.1, h.2.1⟩

/-! ## The client auth store -/

theorem getItem_removeItem (ls : Storage) (key : String) :
    getItem (removeItem ls key) key = none := by
  simp [getItem, removeItem, List.find?_eq_none]

theorem getItem_setItem (ls : Storage) (key value : String) :
    getItem (setItem ls key value) key = some value := by
  simp [getItem, setItem]

theorem find_filter_of_imp (p q : String × String → Bool)
    (h : ∀ a, q a = true → p a = true) (ls : List (String × String)) :
    (ls.filter p).find? q = ls.find? q := by
  induction ls with
  | nil => rfl
  | cons a ls ih =>
    by_cases hq : q a = true
    · simp [List.filter_cons, h a hq, List.find?_cons, hq]
    · have hq2 : q a = false := by simpa using hq
      by_cases hp : p a = true
      · simp [List.filter_cons, hp, List.find?_cons, hq2, ih]
      · simp [List.filter_cons, hp, List.find?_cons, hq2, ih]

theorem getItem_removeItem_ne (ls : Storage) (key key2 : String) (h : key ≠ key2) :
    getItem (removeItem ls key) key2 = getItem ls key2 := by
  unfold getItem removeItem
  rw [find_filter_of_imp]
  intro a ha
  have h2 : a.1 = key2 := by simpa using ha
  have h3 : ¬ a.1 = key := fun h3 => h (h3.symm.trans h2)
  simpa using h3

/-- C29, counterexample: `SET_TOKEN` with the empty string leaves a token
that is not `null`, the empty string, and `isAuthenticated` false. -/
theorem C29_counterexample :
    (SET_TOKEN (fun _ => .ok "") (⟨.null, .null, false⟩, []) (.str "")).1.1.token = .str "" ∧
    (SET_TOKEN (fun _ => .ok "") (⟨.null, .null, false⟩, []) (.str "")).1.1.token ≠ .null ∧
    (SET_TOKEN (fun _ => .ok "") (⟨.null, .null, false⟩, []) (.str "")).1.1.isAuthenticated
      = false :=
  ⟨rfl, (fun h => by cases h), rfl⟩

/-- C29, amended: in the client auth store `isAuthenticated` is true exactly
when `token` is truthy. The initial state built from `localStorage` has it
(there the token is `null` or a string that is not empty, so it is also true
exactly when the token is not `null`); `SET_TOKEN` with any value and
`CLEAR_AUTH` establish it, also when `SET_TOKEN` throws, and `SET_USER` with
any value, also when it throws, changes neither `token` nor
`isAuthenticated`, so from a state `st` that has it every mutation leads to a
state that has it. After a `SET_TOKEN` that returns, and after `CLEAR_AUTH`,
the entry `token` of `localStorage` is present exactly when the token of the
state is truthy. `SET_TOKEN` throws exactly when the token is truthy and its
conversion to a string throws (a symbol), which no string, boolean, `null` or
`undefined` does; then the token is truthy and `localStorage` is as it
was. -/
theorem C29_auth_invariant (toStr : JsVal → Except JsError String) (st : AuthState × Storage)
    (hinv : st.1.isAuthenticated = truthy st.1.token) :
    (∀ ls s0, initialAuthState ls = some s0 →
      s0.isAuthenticated = truthy s0.token ∧ (s0.isAuthenticated = true ↔ s0.token ≠ .null)) ∧
    (∀ token,
      (SET_TOKEN toStr st token).1.1.token = token ∧
        (SET_TOKEN toStr st token).1.1.isAuthenticated
          = truthy (SET_TOKEN toStr st token).1.1.token ∧
        ((SET_TOKEN toStr st token).2 = none →
          (getItem (SET_TOKEN toStr st token).1.2 "token").isSome
            = truthy (SET_TOKEN toStr st token).1.1.token) ∧
        (∀ e, (SET_TOKEN toStr st token).2 = some e ↔
          truthy token = true ∧ valueToString toStr token = .error e) ∧
        ((SET_TOKEN toStr st token).2 ≠ none → (SET_TOKEN toStr st token).1.2 = st.2)) ∧
    (∀ token, (∃ s, token = .str s) ∨ (∃ b, token = .bool b) ∨ token = .null ∨
        token = .undefined → (SET_TOKEN toStr st token).2 = none) ∧
    (∀ user,
      (SET_USER toStr st user).1.1.token = st.1.token ∧
        (SET_USER toStr st user).1.1.isAuthenticated
          = truthy (SET_USER toStr st user).1.1.token) ∧
    ((CLEAR_AUTH st).1.token = .null ∧
      (CLEAR_AUTH st).1.isAuthenticated = truthy (CLEAR_AUTH st).1.token ∧
      (getItem (CLEAR_AUTH st).2 "token").isSome = truthy (CLEAR_AUTH st).1.token) := by
  refine ⟨?_, ?_, ?_, ?_, ?_⟩
  · intro ls s0 h
    unfold initialAuthState at h
    cases hu : JSONparse ((getItem ls "user").getD "null") with
    | none => simp [hu] at h
    | some user =>
      simp only [hu, Option.some.injEq] at h
      subst h
      cases ht : getItem ls "token" with
      | none => simp [itemValue, jsOr, truthy]
      | some s =>
        by_cases hs : s = ""
        · simp [itemValue, jsOr, truthy, hs]
        · simp [itemValue, jsOr, truthy, hs]
  · intro token
    unfold SET_TOKEN
    cases ht : truthy token
    · simp [getItem_removeItem, ht]
    · cases hv : valueToString toStr token with
      | error e => simp [ht]
      | ok text => simp [getItem_setItem, ht]
  · intro token h
    unfold SET_TOKEN
    cases ht : truthy token
    · simp
    · rcases h with ⟨s, rfl⟩ | ⟨b, rfl⟩ | rfl | rfl
      · simp [valueToString]
      · cases b <;> simp [valueToString]
      · simp [truthy] at ht
      · simp [truthy] at ht
  · intro user
    have h1 : (SET_USER toStr st user).1.1.token = st.1.token ∧
        (SET_USER toStr st user).1.1.isAuthenticated = st.1.isAuthenticated := by
      unfold SET_USER
      cases hu : truthy user
      · simp
      · simp only [if_true]
        cases JSONstringify user with
        | error e => simp
        | ok text =>
          simp only
          cases truthy (fieldOf user "boardsTitle")
          · cases truthy (fieldOf user "id")
            · simp
            · cases valueToString toStr (fieldOf user "id") <;> simp
          · cases valueToString toStr (fieldOf user "boardsTitle") with
            | error e => simp
            | ok s =>
              cases truthy (fieldOf user "id")
              · simp
              · cases valueToString toStr (fieldOf user "id") <;> simp
    exact ⟨h1.1, by rw [h1.2, h1.1, hinv]⟩
  · refine ⟨rfl, rfl, ?_⟩
    simp only [CLEAR_AUTH, truthy]
    rw [getItem_removeItem_ne _ _ _ (by decide), getItem_removeItem_ne _ _ _ (by decide),
      getItem_removeItem_ne _ _ _ (by decide), getItem_removeItem]
    rfl

theorem C29_auth_invariant_witness :
    (⟨.str "abc", .null, true⟩ : AuthState).isAuthenticated = truthy (.str "abc") ∧
    (SET_TOKEN (fun _ => .error .typeError) (⟨.str "abc", .null, true⟩, [("token", "abc")])
      (.str "")).1.1.isAuthenticated = truthy (.str "") ∧
    (getItem (SET_TOKEN (fun _ => .error .typeError)
      (⟨.str "abc", .null, true⟩, [("token", "abc")]) (.str "")).1.2 "token").isSome = false ∧
    (getItem (SET_TOKEN (fun _ => .error .typeError)
      (⟨.str "abc", .null, true⟩, [("token", "abc")]) (.str "xyz")).1.2 "token")
      = some "xyz" ∧
    SET_TOKEN (fun _ => .error .typeError) (⟨.null, .null, false⟩, []) .func
      = ((⟨.func, .null, true⟩, []), some .typeError) ∧
    (SET_USER (fun _ => .error .typeError) (⟨.str "abc", .null, true⟩, [("token", "abc")])
      (.obj [("id", .num (.int 1))])).1.1.isAuthenticated = true :=
  have h := C29_auth_invariant (fun _ => .error .typeError)
    (⟨.str "abc", .null, true⟩, [("token", "abc")]) rfl
  ⟨rfl, (h.2.1 (.str "")).2.1, (h.2.1 (.str "")).2.2.1 (by rfl), by rfl, by rfl,
    (h.2.2.2.1 (.obj [("id", .num (.int 1))])).2⟩

/-! ## The client board store -/

theorem lookupProp_of_hasKey_false (ps : List (String × JsVal)) (k : String)
    (h : hasKey ps k = false) : lookupProp ps k = .undefined := by
  induction ps with
  | nil => rfl
  | cons p ps ih =>
    obtain ⟨k1, v1⟩ := p
    simp only [hasKey, List.any_cons, Bool.or_eq_false_iff] at h
    have hk : ¬ k1 = k := by simpa using h.1
    rw [lookupProp_cons, if_neg hk]
    exact ih h.2

/-- C30: on boards without a field `_id`, as the REST API returns them
(objects identified by `id`), `UPDATE_BOARD` replaces the first entry of
`state.boards`, whichever board `updatedBoard` is a copy of, leaves the
entries after it as they are, and sets `currentBoard` to `updatedBoard`,
whether `currentBoard` was `null` or any board: `b._id === updatedBoard._id`
compares `undefined` with `undefined`. -/
theorem C30_update_board_replaces_first (b us : List (String × JsVal)) (bs : List JsVal)
    (cur ld er : JsVal) (hb : hasKey b "_id" = false) (hu : hasKey us "_id" = false)
    (hc : cur = .null ∨ ∃ cs, cur = .obj cs ∧ hasKey cs "_id" = false) :
    UPDATE_BOARD ⟨.obj b :: bs, cur, ld, er⟩ (.obj us)
      = .ok ⟨.obj us :: bs, .obj us, ld, er⟩ := by
  have h1 := lookupProp_of_hasKey_false b "_id" hb
  have h2 := lookupProp_of_hasKey_false us "_id" hu
  have h3 : optionalId cur = .ok .undefined := by
    rcases hc with rfl | ⟨cs, rfl, hcs⟩
    · rfl
    · simp [optionalId, getField, lookupProp_of_hasKey_false cs "_id" hcs]
  simp [UPDATE_BOARD, findBoardIndex, getField, h1, h2, h3, strictEq]

theorem C30_update_board_replaces_first_witness :
    UPDATE_BOARD
        ⟨[.obj [("id", .num (.int 1)), ("name", .str "A")],
            .obj [("id", .num (.int 2)), ("name", .str "B")]],
          .obj [("id", .num (.int 1)), ("name", .str "A")], .bool false, .null⟩
        (.obj [("id", .num (.int 2)), ("name", .str "B2")])
      = .ok ⟨[.obj [("id", .num (.int 2)), ("name", .str "B2")],
            .obj [("id", .num (.int 2)), ("name", .str "B")]],
          .obj [("id", .num (.int 2)), ("name", .str "B2")], .bool false, .null⟩ :=
  C30_update_board_replaces_first _ _ _ _ _ _ (by rfl) (by rfl) (Or.inr ⟨_, rfl, by rfl⟩)

end TrelloClone
